import Mathlib

/-!
# MiniGo abstract syntax tree: a verification development of `ast.c` / `ast.h`

The C sources define one node record (`struct ASTNode`), one constructor per
syntactic form, the list append `ast_add_child`, the dump `ast_print`, the
teardown `ast_free` and the tag-to-name table `ast_node_type_to_string`.

Embedding conventions.

* A C pointer is a `Ptr`: either `null` or `ref addr val`, the address of a
  heap block together with the object stored there.  Trees are therefore
  values; an operation that writes through a pointer returns the updated
  pointer.
* `malloc`, `realloc` and `free` act on an explicit allocation table `Heap`;
  every operation that allocates or releases threads the table through.
  Allocation is assumed to succeed (the out-of-memory exits are not modelled).
* `child_count` and `child_capacity` are C `int`s (32 bits) that the code only
  ever sets to 0, 4 or 8, doubles, or increments.  `ast_add_child` is embedded
  twice: `ast_add_child` computes the counters as natural numbers (`int`
  overflow ignored), and `ast_add_child_int` makes the `int` arithmetic
  explicit and has no result (`none`) when `child_capacity *= 2` or
  `child_count++` overflows; where it has a result, it is that of
  `ast_add_child`.
* `printf` output is modelled as the list of header lines written, one list
  entry per visited node; the byte stream is their concatenation.
-/

namespace MiniGo

/-! ## Pointers and the allocation table -/

/-- A C pointer: `NULL`, or the address of a block together with its content. -/
inductive Ptr (α : Type) where
  | null : Ptr α
  | ref (addr : Nat) (val : α) : Ptr α
deriving Repr

/-- Truth value of a pointer in a C condition (`if (p)`). -/
def Ptr.isNonNull {α : Type} : Ptr α → Bool
  | .null => false
  | .ref _ _ => true

/-- Write through a pointer: `f` is applied to the pointee; `NULL` stays `NULL`. -/
def Ptr.update {α : Type} (f : α → α) : Ptr α → Ptr α
  | .null => .null
  | .ref a v => .ref a (f v)

/-- The object a pointer designates, if any. -/
def Ptr.val? {α : Type} : Ptr α → Option α
  | .null => none
  | .ref _ v => some v

/-- The address a pointer holds, if it is not `NULL`. -/
def Ptr.addr? {α : Type} : Ptr α → Option Nat
  | .null => none
  | .ref a _ => some a

/-- Allocation table: the next unused address, the blocks currently live, and
the addresses handed to `free` while not live (double or invalid frees). -/
structure Heap where
  next : Nat
  live : List Nat
  invalid : List Nat
deriving DecidableEq, Repr

/-- The table before any allocation. -/
def Heap.empty : Heap := ⟨0, [], []⟩

/-- The call `malloc(..)` followed by initialising the block with `init`:
returns a pointer to a fresh block. -/
def malloc {α : Type} (h : Heap) (init : α) : Ptr α × Heap :=
  (.ref h.next init, ⟨h.next + 1, h.next :: h.live, h.invalid⟩)

/-- The call `free(addr)` on a non-null address. -/
def free_addr (h : Heap) (a : Nat) : Heap :=
  if a ∈ h.live then ⟨h.next, h.live.erase a, h.invalid⟩
  else ⟨h.next, h.live, a :: h.invalid⟩

/-- The call `free(p)`; `free(NULL)` does nothing. -/
def free {α : Type} (h : Heap) : Ptr α → Heap
  | .null => h
  | .ref a _ => free_addr h a

/-! ## `ast.h`: tags, payload union, node record -/

/-- The enumeration `ASTNodeType`, in declaration order. -/
inductive ASTNodeType where
  | AST_PROGRAM
  | AST_PACKAGE_DECL
  | AST_FUNCTION_DECL
  | AST_PARAMETER
  | AST_PARAMETER_LIST
  | AST_BLOCK
  | AST_VAR_DECL
  | AST_ASSIGNMENT
  | AST_DECL_ASSIGNMENT
  | AST_IF_STMT
  | AST_FOR_STMT
  | AST_RETURN_STMT
  | AST_BREAK_STMT
  | AST_CONTINUE_STMT
  | AST_EXPR_STMT
  | AST_BINARY_OP
  | AST_UNARY_OP
  | AST_FUNCTION_CALL
  | AST_IDENTIFIER
  | AST_INT_LITERAL
  | AST_FLOAT_LITERAL
  | AST_STRING_LITERAL
  | AST_BOOL_LITERAL
  | AST_NIL_LITERAL
  | AST_ARG_LIST
deriving DecidableEq, Repr

open ASTNodeType

/-- Numeric value of each enumerator (C numbers them from 0 in order). -/
def ASTNodeType.code : ASTNodeType → Nat
  | AST_PROGRAM => 0
  | AST_PACKAGE_DECL => 1
  | AST_FUNCTION_DECL => 2
  | AST_PARAMETER => 3
  | AST_PARAMETER_LIST => 4
  | AST_BLOCK => 5
  | AST_VAR_DECL => 6
  | AST_ASSIGNMENT => 7
  | AST_DECL_ASSIGNMENT => 8
  | AST_IF_STMT => 9
  | AST_FOR_STMT => 10
  | AST_RETURN_STMT => 11
  | AST_BREAK_STMT => 12
  | AST_CONTINUE_STMT => 13
  | AST_EXPR_STMT => 14
  | AST_BINARY_OP => 15
  | AST_UNARY_OP => 16
  | AST_FUNCTION_CALL => 17
  | AST_IDENTIFIER => 18
  | AST_INT_LITERAL => 19
  | AST_FLOAT_LITERAL => 20
  | AST_STRING_LITERAL => 21
  | AST_BOOL_LITERAL => 22
  | AST_NIL_LITERAL => 23
  | AST_ARG_LIST => 24

/-- Conversion of an integer to the C type `int` (32 bits, two's complement). -/
def to_int (v : Int) : Int := (v + 2 ^ 31) % 2 ^ 32 - 2 ^ 31

/-- The union `ASTValue`: the all-zero state left by `memset`, or the member
that was stored last.  A `double` is represented by its 64-bit pattern. -/
inductive ASTValue where
  | zero
  | string_value (p : Ptr String)
  | int_value (v : Int)
  | float_value (bits : Nat)
  | bool_value (v : Int)
deriving Repr

/-- Reading the member `string_value`.  The zeroed union reads as `NULL`; so
does, by convention of this model, a union whose last store was to another
member (no node built by the constructors is read that way). -/
def ASTValue.get_string : ASTValue → Ptr String
  | .string_value p => p
  | _ => .null

/-- Reading the member `int_value` (0 in the zeroed union). -/
def ASTValue.get_int : ASTValue → Int
  | .int_value v => v
  | _ => 0

/-- Reading the member `float_value` (bit pattern 0 in the zeroed union). -/
def ASTValue.get_float : ASTValue → Nat
  | .float_value b => b
  | _ => 0

/-- Reading the member `bool_value` (0 in the zeroed union). -/
def ASTValue.get_bool : ASTValue → Int
  | .bool_value v => v
  | _ => 0

/-- The record `struct ASTNode`, field for field. -/
inductive ASTNode where
  | mk (type : ASTNodeType) (value : ASTValue)
       (left right third fourth : Ptr ASTNode)
       (children : Ptr (List (Ptr ASTNode)))
       (child_count child_capacity : Nat) (line_number : Int) : ASTNode

/-- Field `type`. -/
def ASTNode.type : ASTNode → ASTNodeType
  | .mk t _ _ _ _ _ _ _ _ _ => t

/-- Field `value`. -/
def ASTNode.value : ASTNode → ASTValue
  | .mk _ v _ _ _ _ _ _ _ _ => v

/-- Field `left` (first fixed slot). -/
def ASTNode.left : ASTNode → Ptr ASTNode
  | .mk _ _ l _ _ _ _ _ _ _ => l

/-- Field `right` (second fixed slot). -/
def ASTNode.right : ASTNode → Ptr ASTNode
  | .mk _ _ _ r _ _ _ _ _ _ => r

/-- Field `third` (third fixed slot). -/
def ASTNode.third : ASTNode → Ptr ASTNode
  | .mk _ _ _ _ t _ _ _ _ _ => t

/-- Field `fourth` (fourth fixed slot). -/
def ASTNode.fourth : ASTNode → Ptr ASTNode
  | .mk _ _ _ _ _ f _ _ _ _ => f

/-- Field `children`: pointer to the backing array of the child sequence.  The
list holds all `child_capacity` cells; never-written cells are `null`. -/
def ASTNode.children : ASTNode → Ptr (List (Ptr ASTNode))
  | .mk _ _ _ _ _ _ c _ _ _ => c

/-- Field `child_count`. -/
def ASTNode.child_count : ASTNode → Nat
  | .mk _ _ _ _ _ _ _ n _ _ => n

/-- Field `child_capacity`. -/
def ASTNode.child_capacity : ASTNode → Nat
  | .mk _ _ _ _ _ _ _ _ c _ => c

/-- Field `line_number`. -/
def ASTNode.line_number : ASTNode → Int
  | .mk _ _ _ _ _ _ _ _ _ l => l

/-- Assignment `node->value = v`. -/
def ASTNode.set_value (v : ASTValue) : ASTNode → ASTNode
  | .mk t _ l r th f c n cap ln => .mk t v l r th f c n cap ln

/-- Assignment `node->left = p`. -/
def ASTNode.set_left (p : Ptr ASTNode) : ASTNode → ASTNode
  | .mk t v _ r th f c n cap ln => .mk t v p r th f c n cap ln

/-- Assignment `node->right = p`. -/
def ASTNode.set_right (p : Ptr ASTNode) : ASTNode → ASTNode
  | .mk t v l _ th f c n cap ln => .mk t v l p th f c n cap ln

/-- Assignment `node->third = p`. -/
def ASTNode.set_third (p : Ptr ASTNode) : ASTNode → ASTNode
  | .mk t v l r _ f c n cap ln => .mk t v l r p f c n cap ln

/-- Assignment `node->fourth = p`. -/
def ASTNode.set_fourth (p : Ptr ASTNode) : ASTNode → ASTNode
  | .mk t v l r th _ c n cap ln => .mk t v l r th p c n cap ln

/-- Assignment `node->children = a`. -/
def ASTNode.set_children (a : Ptr (List (Ptr ASTNode))) : ASTNode → ASTNode
  | .mk t v l r th f _ n cap ln => .mk t v l r th f a n cap ln

/-- Assignment `node->child_count = k`. -/
def ASTNode.set_child_count (k : Nat) : ASTNode → ASTNode
  | .mk t v l r th f c _ cap ln => .mk t v l r th f c k cap ln

/-- Assignment `node->child_capacity = k`. -/
def ASTNode.set_child_capacity (k : Nat) : ASTNode → ASTNode
  | .mk t v l r th f c n _ ln => .mk t v l r th f c n k ln

/-! ## `ast.c`: constructors -/

/-- The function `custom_strdup`: `NULL` for `NULL`, otherwise a fresh block
holding a copy of the text. -/
def custom_strdup (h : Heap) (str : Ptr String) : Ptr String × Heap :=
  match str with
  | .null => (.null, h)
  | .ref _ s => malloc h s

/-- The function `ast_create_node`: a fresh node of the given tag with every
pointer `NULL`, both counters 0, line number 0 and the union zeroed. -/
def ast_create_node (h : Heap) (type : ASTNodeType) : Ptr ASTNode × Heap :=
  malloc h (ASTNode.mk type .zero .null .null .null .null .null 0 0 0)

/-- The function `ast_create_program`. -/
def ast_create_program (h : Heap) (package_decl declarations : Ptr ASTNode) :
    Ptr ASTNode × Heap :=
  let r := ast_create_node h AST_PROGRAM
  ((r.1.update (ASTNode.set_left package_decl)).update (ASTNode.set_right declarations), r.2)

/-- The function `ast_create_package_decl`. -/
def ast_create_package_decl (h : Heap) (name : Ptr String) : Ptr ASTNode × Heap :=
  let r := ast_create_node h AST_PACKAGE_DECL
  let s := custom_strdup r.2 name
  (r.1.update (ASTNode.set_value (.string_value s.1)), s.2)

/-- The function `ast_create_function_decl`. -/
def ast_create_function_decl (h : Heap) (name : Ptr String) (params body : Ptr ASTNode) :
    Ptr ASTNode × Heap :=
  let r := ast_create_node h AST_FUNCTION_DECL
  let s := custom_strdup r.2 name
  (((r.1.update (ASTNode.set_value (.string_value s.1))).update
      (ASTNode.set_left params)).update (ASTNode.set_right body), s.2)

/-- The function `ast_create_identifier`. -/
def ast_create_identifier (h : Heap) (name : Ptr String) : Ptr ASTNode × Heap :=
  let r := ast_create_node h AST_IDENTIFIER
  let s := custom_strdup r.2 name
  (r.1.update (ASTNode.set_value (.string_value s.1)), s.2)

/-- The function `ast_create_parameter`: the name goes to the payload, a
non-null type text is wrapped in an identifier node stored in `left`. -/
def ast_create_parameter (h : Heap) (name type : Ptr String) : Ptr ASTNode × Heap :=
  let r := ast_create_node h AST_PARAMETER
  let s := custom_strdup r.2 name
  let node := r.1.update (ASTNode.set_value (.string_value s.1))
  if type.isNonNull then
    let t := ast_create_identifier s.2 type
    (node.update (ASTNode.set_left t.1), t.2)
  else (node, s.2)

/-- The function `ast_create_parameter_list`: capacity 4 and a backing array. -/
def ast_create_parameter_list (h : Heap) : Ptr ASTNode × Heap :=
  let r := ast_create_node h AST_PARAMETER_LIST
  let a := malloc r.2 (List.replicate 4 (Ptr.null : Ptr ASTNode))
  ((r.1.update (ASTNode.set_child_capacity 4)).update (ASTNode.set_children a.1), a.2)

/-- The function `ast_create_block`: capacity 8 and a backing array. -/
def ast_create_block (h : Heap) : Ptr ASTNode × Heap :=
  let r := ast_create_node h AST_BLOCK
  let a := malloc r.2 (List.replicate 8 (Ptr.null : Ptr ASTNode))
  ((r.1.update (ASTNode.set_child_capacity 8)).update (ASTNode.set_children a.1), a.2)

/-- The function `ast_create_var_decl`. -/
def ast_create_var_decl (h : Heap) (name type : Ptr String) (init_expr : Ptr ASTNode) :
    Ptr ASTNode × Heap :=
  let r := ast_create_node h AST_VAR_DECL
  let s := custom_strdup r.2 name
  let node := (r.1.update (ASTNode.set_value (.string_value s.1))).update
    (ASTNode.set_left init_expr)
  if type.isNonNull then
    let t := ast_create_identifier s.2 type
    (node.update (ASTNode.set_right t.1), t.2)
  else (node, s.2)

/-- The function `ast_create_assignment`. -/
def ast_create_assignment (h : Heap) (name : Ptr String) (expr : Ptr ASTNode) :
    Ptr ASTNode × Heap :=
  let r := ast_create_node h AST_ASSIGNMENT
  let t := ast_create_identifier r.2 name
  ((r.1.update (ASTNode.set_left t.1)).update (ASTNode.set_right expr), t.2)

/-- The function `ast_create_decl_assignment`. -/
def ast_create_decl_assignment (h : Heap) (name : Ptr String) (expr : Ptr ASTNode) :
    Ptr ASTNode × Heap :=
  let r := ast_create_node h AST_DECL_ASSIGNMENT
  let t := ast_create_identifier r.2 name
  ((r.1.update (ASTNode.set_left t.1)).update (ASTNode.set_right expr), t.2)

/-- The function `ast_create_if_stmt`. -/
def ast_create_if_stmt (h : Heap) (condition then_block else_block : Ptr ASTNode) :
    Ptr ASTNode × Heap :=
  let r := ast_create_node h AST_IF_STMT
  (((r.1.update (ASTNode.set_left condition)).update (ASTNode.set_right then_block)).update
      (ASTNode.set_third else_block), r.2)

/-- The function `ast_create_for_stmt`. -/
def ast_create_for_stmt (h : Heap) (init condition update body : Ptr ASTNode) :
    Ptr ASTNode × Heap :=
  let r := ast_create_node h AST_FOR_STMT
  ((((r.1.update (ASTNode.set_left init)).update (ASTNode.set_right condition)).update
      (ASTNode.set_third update)).update (ASTNode.set_fourth body), r.2)

/-- The function `ast_create_return_stmt`. -/
def ast_create_return_stmt (h : Heap) (expr : Ptr ASTNode) : Ptr ASTNode × Heap :=
  let r := ast_create_node h AST_RETURN_STMT
  (r.1.update (ASTNode.set_left expr), r.2)

/-- The function `ast_create_break_stmt`. -/
def ast_create_break_stmt (h : Heap) : Ptr ASTNode × Heap :=
  ast_create_node h AST_BREAK_STMT

/-- The function `ast_create_continue_stmt`. -/
def ast_create_continue_stmt (h : Heap) : Ptr ASTNode × Heap :=
  ast_create_node h AST_CONTINUE_STMT

/-- The function `ast_create_expr_stmt`. -/
def ast_create_expr_stmt (h : Heap) (expr : Ptr ASTNode) : Ptr ASTNode × Heap :=
  let r := ast_create_node h AST_EXPR_STMT
  (r.1.update (ASTNode.set_left expr), r.2)

/-- The function `ast_create_binary_op`. -/
def ast_create_binary_op (h : Heap) (op : Ptr String) (left right : Ptr ASTNode) :
    Ptr ASTNode × Heap :=
  let r := ast_create_node h AST_BINARY_OP
  let s := custom_strdup r.2 op
  (((r.1.update (ASTNode.set_value (.string_value s.1))).update
      (ASTNode.set_left left)).update (ASTNode.set_right right), s.2)

/-- The function `ast_create_unary_op`. -/
def ast_create_unary_op (h : Heap) (op : Ptr String) (operand : Ptr ASTNode) :
    Ptr ASTNode × Heap :=
  let r := ast_create_node h AST_UNARY_OP
  let s := custom_strdup r.2 op
  ((r.1.update (ASTNode.set_value (.string_value s.1))).update (ASTNode.set_left operand), s.2)

/-- The function `ast_create_function_call`. -/
def ast_create_function_call (h : Heap) (name : Ptr String) (args : Ptr ASTNode) :
    Ptr ASTNode × Heap :=
  let r := ast_create_node h AST_FUNCTION_CALL
  let s := custom_strdup r.2 name
  ((r.1.update (ASTNode.set_value (.string_value s.1))).update (ASTNode.set_left args), s.2)

/-- The function `ast_create_int_literal`; the argument is converted to `int`
at the call. -/
def ast_create_int_literal (h : Heap) (value : Int) : Ptr ASTNode × Heap :=
  let r := ast_create_node h AST_INT_LITERAL
  (r.1.update (ASTNode.set_value (.int_value (to_int value))), r.2)

/-- The function `ast_create_float_literal`; the `double` is given by its bit
pattern. -/
def ast_create_float_literal (h : Heap) (value : Nat) : Ptr ASTNode × Heap :=
  let r := ast_create_node h AST_FLOAT_LITERAL
  (r.1.update (ASTNode.set_value (.float_value value)), r.2)

/-- The function `ast_create_string_literal`. -/
def ast_create_string_literal (h : Heap) (value : Ptr String) : Ptr ASTNode × Heap :=
  let r := ast_create_node h AST_STRING_LITERAL
  let s := custom_strdup r.2 value
  (r.1.update (ASTNode.set_value (.string_value s.1)), s.2)

/-- The function `ast_create_bool_literal`; the flag is a C `int`. -/
def ast_create_bool_literal (h : Heap) (value : Int) : Ptr ASTNode × Heap :=
  let r := ast_create_node h AST_BOOL_LITERAL
  (r.1.update (ASTNode.set_value (.bool_value (to_int value))), r.2)

/-- The function `ast_create_nil_literal`. -/
def ast_create_nil_literal (h : Heap) : Ptr ASTNode × Heap :=
  ast_create_node h AST_NIL_LITERAL

/-- The function `ast_create_arg_list`: capacity 4 and a backing array. -/
def ast_create_arg_list (h : Heap) : Ptr ASTNode × Heap :=
  let r := ast_create_node h AST_ARG_LIST
  let a := malloc r.2 (List.replicate 4 (Ptr.null : Ptr ASTNode))
  ((r.1.update (ASTNode.set_child_capacity 4)).update (ASTNode.set_children a.1), a.2)

/-! ## `ast.c`: list manipulation -/

/-- The call `realloc(children, sizeof(ASTNode*) * n)`: a block of `n` cells
whose leading cells keep the old content; the old block is released.  The
block is modelled as always moving to a fresh address. -/
def realloc (h : Heap) (p : Ptr (List (Ptr ASTNode))) (n : Nat) :
    Ptr (List (Ptr ASTNode)) × Heap :=
  match p with
  | .null => malloc h (List.replicate n Ptr.null)
  | .ref a arr => malloc (free_addr h a) (arr.take n ++ List.replicate (n - arr.length) Ptr.null)

/-- Body of `ast_add_child` after the null checks, on the parent record:
allocate the array if it is missing, double it if it is full, store the child
at index `child_count` and increment the count.  The counters are computed as
natural numbers, that is, ignoring `int` overflow; `ast_add_child_node_int`
below is the same body with the `int` arithmetic checked. -/
def ast_add_child_node (h : Heap) (parent : ASTNode) (child : Ptr ASTNode) : ASTNode × Heap :=
  let s1 : ASTNode × Heap :=
    if parent.children.isNonNull then (parent, h)
    else
      let a := malloc h (List.replicate 4 (Ptr.null : Ptr ASTNode))
      (((parent.set_child_capacity 4).set_children a.1).set_child_count 0, a.2)
  let s2 : ASTNode × Heap :=
    if s1.1.child_count ≥ s1.1.child_capacity then
      let a := realloc s1.2 s1.1.children (s1.1.child_capacity * 2)
      ((s1.1.set_child_capacity (s1.1.child_capacity * 2)).set_children a.1, a.2)
    else s1
  ((s2.1.set_children (s2.1.children.update (fun arr => arr.set s2.1.child_count child))).set_child_count
      (s2.1.child_count + 1), s2.2)

/-- The function `ast_add_child`; returns the parent pointer, whose pointee is
the updated record.  Nothing happens when either argument is `NULL`. -/
def ast_add_child (h : Heap) (parent child : Ptr ASTNode) : Ptr ASTNode × Heap :=
  match parent, child with
  | .null, _ => (.null, h)
  | .ref a p, .null => (.ref a p, h)
  | .ref a p, .ref ca c =>
    let r := ast_add_child_node h p (.ref ca c)
    (.ref a r.1, r.2)

/-- The function `ast_add_statement`. -/
def ast_add_statement (h : Heap) (block stmt : Ptr ASTNode) : Ptr ASTNode × Heap :=
  ast_add_child h block stmt

/-- The function `ast_add_parameter`. -/
def ast_add_parameter (h : Heap) (param_list param : Ptr ASTNode) : Ptr ASTNode × Heap :=
  ast_add_child h param_list param

/-- The function `ast_add_argument`. -/
def ast_add_argument (h : Heap) (arg_list arg : Ptr ASTNode) : Ptr ASTNode × Heap :=
  ast_add_child h arg_list arg

/-- A caller's loop `for c in cs: ast_add_child(parent, c)`. -/
def add_children (h : Heap) (parent : Ptr ASTNode) (cs : List (Ptr ASTNode)) :
    Ptr ASTNode × Heap :=
  cs.foldl (fun st c => ast_add_child st.2 st.1 c) (parent, h)

/-- The largest value of the C type `int` (32 bits). -/
def INT_MAX : Nat := 2147483647

/-- The result of an `int` computation on the counters whose mathematical
value is `v`: the value itself when it does not exceed `INT_MAX`; beyond that
the C arithmetic overflows, which is undefined behaviour (`none`). -/
def int_result (v : Nat) : Option Nat :=
  if v ≤ INT_MAX then some v else none

/-- Body of `ast_add_child` after the null checks with the `int` arithmetic of
the counters made explicit: the steps of `ast_add_child_node`, in which
`child_capacity *= 2` and `child_count++` are `int` computations; the call has
no defined result (`none`) when one of them overflows.  (The byte count
`sizeof(ASTNode*) * child_capacity` is a 64-bit `size_t` product and stays in
range for every `int` capacity.) -/
def ast_add_child_node_int (h : Heap) (parent : ASTNode) (child : Ptr ASTNode) :
    Option (ASTNode × Heap) :=
  let s1 : ASTNode × Heap :=
    if parent.children.isNonNull then (parent, h)
    else
      let a := malloc h (List.replicate 4 (Ptr.null : Ptr ASTNode))
      (((parent.set_child_capacity 4).set_children a.1).set_child_count 0, a.2)
  let s2 : Option (ASTNode × Heap) :=
    if s1.1.child_count ≥ s1.1.child_capacity then
      (int_result (s1.1.child_capacity * 2)).map (fun cap =>
        let a := realloc s1.2 s1.1.children cap
        ((s1.1.set_child_capacity cap).set_children a.1, a.2))
    else some s1
  s2.bind (fun s =>
    (int_result (s.1.child_count + 1)).map (fun cnt =>
      ((s.1.set_children (s.1.children.update (fun arr => arr.set s.1.child_count child))).set_child_count
        cnt, s.2)))

/-- The function `ast_add_child` with the `int` arithmetic of the counters made
explicit; `none` when the call overflows.  Nothing happens when either argument
is `NULL`. -/
def ast_add_child_int (h : Heap) (parent child : Ptr ASTNode) : Option (Ptr ASTNode × Heap) :=
  match parent, child with
  | .null, _ => some (.null, h)
  | .ref a p, .null => some (.ref a p, h)
  | .ref a p, .ref ca c =>
    (ast_add_child_node_int h p (.ref ca c)).map (fun r => (.ref a r.1, r.2))

/-- The function `ast_add_statement`, with `int` arithmetic. -/
def ast_add_statement_int (h : Heap) (block stmt : Ptr ASTNode) : Option (Ptr ASTNode × Heap) :=
  ast_add_child_int h block stmt

/-- The function `ast_add_parameter`, with `int` arithmetic. -/
def ast_add_parameter_int (h : Heap) (param_list param : Ptr ASTNode) :
    Option (Ptr ASTNode × Heap) :=
  ast_add_child_int h param_list param

/-- The function `ast_add_argument`, with `int` arithmetic. -/
def ast_add_argument_int (h : Heap) (arg_list arg : Ptr ASTNode) : Option (Ptr ASTNode × Heap) :=
  ast_add_child_int h arg_list arg

/-- A caller's loop `for c in cs: ast_add_child(parent, c)` with `int`
arithmetic: undefined as soon as one call is. -/
def add_children_int : Heap → Ptr ASTNode → List (Ptr ASTNode) → Option (Ptr ASTNode × Heap)
  | h, parent, [] => some (parent, h)
  | h, parent, c :: cs =>
    match ast_add_child_int h parent c with
    | some st => add_children_int st.2 st.1 cs
    | none => none

/-- The read `node->children[i]`, defined when the array is present and `i` is
inside it. -/
def ASTNode.child_at (n : ASTNode) (i : Nat) : Option (Ptr ASTNode) :=
  match n.children with
  | .null => none
  | .ref _ arr => arr[i]?

/-! ## `ast.c`: utility functions -/

/-- The function `ast_node_type_to_string`, on the numeric value of the tag;
the last branch is the `default` of the switch. -/
def ast_node_type_to_string (type : Nat) : String :=
  match type with
  | 0 => "Program"
  | 1 => "PackageDecl"
  | 2 => "FunctionDecl"
  | 3 => "Parameter"
  | 4 => "ParameterList"
  | 5 => "Block"
  | 6 => "VarDecl"
  | 7 => "Assignment"
  | 8 => "DeclAssignment"
  | 9 => "IfStmt"
  | 10 => "ForStmt"
  | 11 => "ReturnStmt"
  | 12 => "BreakStmt"
  | 13 => "ContinueStmt"
  | 14 => "ExprStmt"
  | 15 => "BinaryOp"
  | 16 => "UnaryOp"
  | 17 => "FunctionCall"
  | 18 => "Identifier"
  | 19 => "IntLiteral"
  | 20 => "FloatLiteral"
  | 21 => "StringLiteral"
  | 22 => "BoolLiteral"
  | 23 => "NilLiteral"
  | 24 => "ArgList"
  | _ => "Unknown"

/-- The switch of `ast_print` (node-specific information): what is written
between the display name and the newline.  `fmt_f` is the rendering `printf`
gives a `double` under `%f`. -/
def ast_print_info (fmt_f : Nat → String) (node : ASTNode) : String :=
  match node.type with
  | AST_PACKAGE_DECL | AST_FUNCTION_DECL | AST_VAR_DECL | AST_BINARY_OP
  | AST_UNARY_OP | AST_FUNCTION_CALL | AST_IDENTIFIER | AST_STRING_LITERAL =>
    match node.value.get_string with
    | .ref _ s => ": " ++ s
    | .null => ""
  | AST_INT_LITERAL => ": " ++ toString node.value.get_int
  | AST_FLOAT_LITERAL => ": " ++ fmt_f node.value.get_float
  | AST_BOOL_LITERAL => ": " ++ (if node.value.get_bool ≠ 0 then "true" else "false")
  | _ => ""

/-- Everything `ast_print` writes for the node itself: the indentation loop,
the display name, the node-specific information and the newline. -/
def ast_print_header (fmt_f : Nat → String) (node : ASTNode) (indent : Int) : String :=
  String.join (List.replicate indent.toNat "  ")
    ++ ast_node_type_to_string node.type.code
    ++ ast_print_info fmt_f node
    ++ "\n"

mutual
/-- Body of `ast_print` after the null check: the header, then either the
first `child_count` cells of the child array (when the array is present and
the count is positive) or the non-null fixed slots in order. -/
def ast_print_node (fmt_f : Nat → String) : ASTNode → Int → List String
  | .mk type value left right third fourth children child_count child_capacity line_number,
    indent =>
    ast_print_header fmt_f
        (.mk type value left right third fourth children child_count child_capacity line_number)
        indent ::
      (match children with
       | .ref _ arr =>
         if child_count > 0 then ast_print_loop fmt_f arr child_count (indent + 1)
         else
           (if left.isNonNull then ast_print fmt_f left (indent + 1) else [])
             ++ (if right.isNonNull then ast_print fmt_f right (indent + 1) else [])
             ++ (if third.isNonNull then ast_print fmt_f third (indent + 1) else [])
             ++ (if fourth.isNonNull then ast_print fmt_f fourth (indent + 1) else [])
       | .null =>
         (if left.isNonNull then ast_print fmt_f left (indent + 1) else [])
           ++ (if right.isNonNull then ast_print fmt_f right (indent + 1) else [])
           ++ (if third.isNonNull then ast_print fmt_f third (indent + 1) else [])
           ++ (if fourth.isNonNull then ast_print fmt_f fourth (indent + 1) else []))
/-- The function `ast_print`: the header lines written, in order. -/
def ast_print (fmt_f : Nat → String) : Ptr ASTNode → Int → List String
  | .null, _ => []
  | .ref _ node, indent => ast_print_node fmt_f node indent
/-- The loop `for (i = 0; i < child_count; i++) ast_print(children[i], ..)`
over the cells of the array. -/
def ast_print_loop (fmt_f : Nat → String) : List (Ptr ASTNode) → Nat → Int → List String
  | [], _, _ => []
  | _ :: _, 0, _ => []
  | c :: cs, k + 1, indent => ast_print fmt_f c indent ++ ast_print_loop fmt_f cs k indent
end

/-- The byte stream `ast_print` writes. -/
def ast_print_output (fmt_f : Nat → String) (node : Ptr ASTNode) (indent : Int) : String :=
  String.join (ast_print fmt_f node indent)

/-- The switch of `ast_free`: release the payload text for the string-carrying
tags when it is not `NULL`; nothing otherwise. -/
def ast_free_value (h : Heap) (node : ASTNode) : Heap :=
  match node.type with
  | AST_PACKAGE_DECL | AST_FUNCTION_DECL | AST_VAR_DECL | AST_BINARY_OP
  | AST_UNARY_OP | AST_FUNCTION_CALL | AST_IDENTIFIER | AST_STRING_LITERAL =>
    if node.value.get_string.isNonNull then free h node.value.get_string else h
  | _ => h

mutual
/-- Body of `ast_free` after the null check and before `free(node)`: the
payload switch, then either the child array (each of the first `child_count`
cells, then the array itself) or the four fixed slots. -/
def ast_free_node : ASTNode → Heap → Heap
  | .mk type value left right third fourth children child_count child_capacity line_number,
    h =>
    match children with
    | .ref ca arr =>
      free_addr
        (ast_free_loop arr child_count
          (ast_free_value h
            (.mk type value left right third fourth (.ref ca arr) child_count child_capacity
              line_number)))
        ca
    | .null =>
      ast_free fourth (ast_free third (ast_free right (ast_free left
        (ast_free_value h
          (.mk type value left right third fourth .null child_count child_capacity
            line_number)))))
/-- The function `ast_free`, as a transformer of the allocation table. -/
def ast_free : Ptr ASTNode → Heap → Heap
  | .null, h => h
  | .ref a node, h => free_addr (ast_free_node node h) a
/-- The loop `for (i = 0; i < child_count; i++) ast_free(children[i])`. -/
def ast_free_loop : List (Ptr ASTNode) → Nat → Heap → Heap
  | [], _, h => h
  | _ :: _, 0, h => h
  | c :: cs, k + 1, h => ast_free_loop cs k (ast_free c h)
end

/-! ## Notions used in the statements -/

/-- The child sequence proper: the first `child_count` cells of the array. -/
def ASTNode.seq (n : ASTNode) : List (Ptr ASTNode) :=
  match n.children with
  | .null => []
  | .ref _ arr => arr.take n.child_count

/-- The array is present, has `child_capacity` cells, and the count is within
a positive capacity. -/
def ASTNode.seq_ok (n : ASTNode) : Prop :=
  ∃ a arr, n.children = .ref a arr ∧ arr.length = n.child_capacity ∧
    n.child_count ≤ n.child_capacity ∧ 0 < n.child_capacity

/-- A leaf used in examples: an int-literal record at address `a`. -/
def sample_leaf (a : Nat) (v : Int) : Ptr ASTNode :=
  .ref a (.mk AST_INT_LITERAL (.int_value v) .null .null .null .null .null 0 0 0)

/-- Nine distinct non-null children, enough to cross the capacities 4 and 8. -/
def nine_children : List (Ptr ASTNode) :=
  [sample_leaf 100 1, sample_leaf 101 2, sample_leaf 102 3, sample_leaf 103 4,
   sample_leaf 104 5, sample_leaf 105 6, sample_leaf 106 7, sample_leaf 107 8,
   sample_leaf 108 9]

/-- The pointer is not `NULL` and the object it designates satisfies `P`. -/
def Ptr.sat {α : Type} (p : Ptr α) (P : α → Prop) : Prop :=
  ∃ a v, p = .ref a v ∧ P v

/-- The text pointer `dst` is a copy of `src` made after table `h`: `NULL` for
`NULL`, otherwise the same characters in a block that did not exist in `h`. -/
def text_copy (h : Heap) (src dst : Ptr String) : Prop :=
  match src with
  | .null => dst = .null
  | .ref _ s => ∃ a, dst = .ref a s ∧ h.next ≤ a

/-- The record is an identifier node without children whose text is a copy of
`name`. -/
def identifier_of (h : Heap) (name : Ptr String) (n : ASTNode) : Prop :=
  n.type = AST_IDENTIFIER ∧ text_copy h name n.value.get_string ∧
    n.left = .null ∧ n.right = .null ∧ n.third = .null ∧ n.fourth = .null ∧ n.children = .null

/-- The value is representable in the C type `int`. -/
def in_int_range (v : Int) : Prop := -2 ^ 31 ≤ v ∧ v < 2 ^ 31

/-- The eight tags of the string-carrying `case` group, as a list. -/
def string_tags : List ASTNodeType :=
  [AST_PACKAGE_DECL, AST_FUNCTION_DECL, AST_VAR_DECL, AST_BINARY_OP, AST_UNARY_OP,
   AST_FUNCTION_CALL, AST_IDENTIFIER, AST_STRING_LITERAL]

/-- Representation invariant of the child sequence: either there is no array
and both counters are 0, or the array is present with `child_capacity > 0`
cells and `child_count` within the capacity. -/
def ASTNode.bounds_ok (n : ASTNode) : Prop :=
  (n.children = .null ∧ n.child_count = 0 ∧ n.child_capacity = 0) ∨ n.seq_ok

/-- An identifier record whose text lives at address 3. -/
def sample_identifier : ASTNode :=
  .mk AST_IDENTIFIER (.string_value (.ref 3 "x")) .null .null .null .null .null 0 0 0

/-- An int-literal record with a non-zero payload. -/
def sample_int : ASTNode :=
  .mk AST_INT_LITERAL (.int_value 3) .null .null .null .null .null 0 0 0

/-- A parameter-list record whose four cells are all in use. -/
def full_list : ASTNode :=
  .mk AST_PARAMETER_LIST .zero .null .null .null .null
    (.ref 1 [sample_leaf 10 1, sample_leaf 11 2, sample_leaf 12 3, sample_leaf 13 4]) 4 4 0

/-- The node uses its child sequence: the array is present and holds at least
one child (the test `ast_print` makes). -/
def ASTNode.uses_sequence (n : ASTNode) : Bool :=
  n.children.isNonNull && decide (n.child_count > 0)

/-- The children of a node in the words of the traversal rule: the entries of
the child sequence in append order if the node uses the sequence, otherwise
the non-absent fixed slots in the order first, second, third, fourth. -/
def ASTNode.traversal_children (n : ASTNode) : List (Ptr ASTNode) :=
  if n.uses_sequence then n.seq
  else [n.left, n.right, n.third, n.fourth].filter Ptr.isNonNull

/-- The tags whose constructor stores no scalar payload. -/
def no_payload_tags : List ASTNodeType :=
  [AST_PROGRAM, AST_PARAMETER_LIST, AST_BLOCK, AST_ASSIGNMENT, AST_DECL_ASSIGNMENT,
   AST_IF_STMT, AST_FOR_STMT, AST_RETURN_STMT, AST_BREAK_STMT, AST_CONTINUE_STMT,
   AST_EXPR_STMT, AST_NIL_LITERAL, AST_ARG_LIST]

/-- A string of `k` spaces. -/
def spaces (k : Nat) : String := ⟨List.replicate k ' '⟩

/-- The scenario `identifier("x") + int_literal(5)` built from the empty table. -/
def scenario_binary_op : Ptr ASTNode × Heap :=
  let x := ast_create_identifier Heap.empty (.ref 1000 "x")
  let five := ast_create_int_literal x.2 5
  ast_create_binary_op five.2 (.ref 1001 "+") x.1 five.1

/-- The parameter `a int` built from the empty table. -/
def scenario_parameter : Ptr ASTNode × Heap :=
  ast_create_parameter Heap.empty (.ref 1000 "a") (.ref 1001 "int")

/-- An identifier built with no name. -/
def scenario_no_name : Ptr ASTNode × Heap :=
  ast_create_identifier Heap.empty .null
/-- The three tags of the list forms. -/
def list_tags : List ASTNodeType := [AST_PARAMETER_LIST, AST_BLOCK, AST_ARG_LIST]

/-- The trees built from the constructors and from appends to list nodes:
`NULL` (an absent subtree), the result of any constructor applied to built
subtrees, and the result of `ast_add_child` on a built node with a list tag
and a built child.  The allocation table of each call is arbitrary. -/
inductive Built : Ptr ASTNode → Prop where
  | absent : Built .null
  | program (h : Heap) (p d : Ptr ASTNode) : Built p → Built d →
      Built (ast_create_program h p d).1
  | package_decl (h : Heap) (name : Ptr String) : Built (ast_create_package_decl h name).1
  | function_decl (h : Heap) (name : Ptr String) (p b : Ptr ASTNode) : Built p → Built b →
      Built (ast_create_function_decl h name p b).1
  | parameter (h : Heap) (name type : Ptr String) : Built (ast_create_parameter h name type).1
  | parameter_list (h : Heap) : Built (ast_create_parameter_list h).1
  | block (h : Heap) : Built (ast_create_block h).1
  | var_decl (h : Heap) (name type : Ptr String) (e : Ptr ASTNode) : Built e →
      Built (ast_create_var_decl h name type e).1
  | assignment (h : Heap) (name : Ptr String) (e : Ptr ASTNode) : Built e →
      Built (ast_create_assignment h name e).1
  | decl_assignment (h : Heap) (name : Ptr String) (e : Ptr ASTNode) : Built e →
      Built (ast_create_decl_assignment h name e).1
  | if_stmt (h : Heap) (c t e : Ptr ASTNode) : Built c → Built t → Built e →
      Built (ast_create_if_stmt h c t e).1
  | for_stmt (h : Heap) (i c u b : Ptr ASTNode) : Built i → Built c → Built u → Built b →
      Built (ast_create_for_stmt h i c u b).1
  | return_stmt (h : Heap) (e : Ptr ASTNode) : Built e → Built (ast_create_return_stmt h e).1
  | break_stmt (h : Heap) : Built (ast_create_break_stmt h).1
  | continue_stmt (h : Heap) : Built (ast_create_continue_stmt h).1
  | expr_stmt (h : Heap) (e : Ptr ASTNode) : Built e → Built (ast_create_expr_stmt h e).1
  | binary_op (h : Heap) (op : Ptr String) (l r : Ptr ASTNode) : Built l → Built r →
      Built (ast_create_binary_op h op l r).1
  | unary_op (h : Heap) (op : Ptr String) (e : Ptr ASTNode) : Built e →
      Built (ast_create_unary_op h op e).1
  | function_call (h : Heap) (name : Ptr String) (args : Ptr ASTNode) : Built args →
      Built (ast_create_function_call h name args).1
  | identifier (h : Heap) (name : Ptr String) : Built (ast_create_identifier h name).1
  | int_literal (h : Heap) (v : Int) : Built (ast_create_int_literal h v).1
  | float_literal (h : Heap) (bits : Nat) : Built (ast_create_float_literal h bits).1
  | string_literal (h : Heap) (s : Ptr String) : Built (ast_create_string_literal h s).1
  | bool_literal (h : Heap) (v : Int) : Built (ast_create_bool_literal h v).1
  | nil_literal (h : Heap) : Built (ast_create_nil_literal h).1
  | arg_list (h : Heap) : Built (ast_create_arg_list h).1
  | add_child (h : Heap) (a : Nat) (l : ASTNode) (c : Ptr ASTNode) :
      Built (.ref a l) → l.type ∈ list_tags → Built c →
      Built (ast_add_child h (.ref a l) c).1

mutual
/-- The nodes of the tree below a record, in preorder, each with its depth:
the record itself, then the subtrees in its fixed slots and in the first
`child_count` cells of its child array. -/
def tree_nodes_node : ASTNode → Int → List (ASTNode × Int)
  | .mk type value left right third fourth children child_count child_capacity line_number,
    d =>
    (.mk type value left right third fourth children child_count child_capacity line_number,
        d) ::
      (tree_nodes left (d + 1) ++ tree_nodes right (d + 1) ++ tree_nodes third (d + 1)
        ++ tree_nodes fourth (d + 1)
        ++ (match children with
            | .ref _ arr => tree_nodes_cells arr child_count (d + 1)
            | .null => []))
/-- The nodes of the tree a pointer designates (none for `NULL`). -/
def tree_nodes : Ptr ASTNode → Int → List (ASTNode × Int)
  | .null, _ => []
  | .ref _ n, d => tree_nodes_node n d
/-- The nodes below the first `k` cells of an array. -/
def tree_nodes_cells : List (Ptr ASTNode) → Nat → Int → List (ASTNode × Int)
  | [], _, _ => []
  | _ :: _, 0, _ => []
  | c :: cs, k + 1, d => tree_nodes c d ++ tree_nodes_cells cs k d
end

/-- Number of nodes of a tree. -/
def node_count (p : Ptr ASTNode) : Nat := (tree_nodes p 0).length

mutual
/-- Shape of the records of a built tree: a record with a child array has a
list tag, four `NULL` slots, `child_capacity > 0` cells and a count within the
capacity, and its first `child_count` cells are of that shape; a record
without array has another tag and slots of that shape. -/
def shaped_node : ASTNode → Prop
  | .mk type _ left right third fourth children child_count child_capacity _ =>
    match children with
    | .ref _ arr =>
      type ∈ list_tags ∧ left = .null ∧ right = .null ∧ third = .null ∧ fourth = .null ∧
        arr.length = child_capacity ∧ child_count ≤ child_capacity ∧ 0 < child_capacity ∧
        shaped_cells arr child_count
    | .null =>
      type ∉ list_tags ∧ shaped left ∧ shaped right ∧ shaped third ∧ shaped fourth
/-- Shape of the tree a pointer designates. -/
def shaped : Ptr ASTNode → Prop
  | .null => True
  | .ref _ n => shaped_node n
/-- Shape of the first `k` cells of an array. -/
def shaped_cells : List (Ptr ASTNode) → Nat → Prop
  | [], _ => True
  | _ :: _, 0 => True
  | c :: cs, k + 1 => shaped c ∧ shaped_cells cs k
end

/-- The record of a fresh block: eight unused cells at address 1. -/
def empty_block : ASTNode :=
  .mk AST_BLOCK .zero .null .null .null .null (.ref 1 (List.replicate 8 .null)) 0 8 0

/-- The scenario `if (true) { return 1 } else { return 0 }`. -/
def scenario_if_else : Ptr ASTNode × Heap :=
  let c := ast_create_bool_literal Heap.empty 1
  let one := ast_create_int_literal c.2 1
  let r1 := ast_create_return_stmt one.2 one.1
  let b1 := ast_create_block r1.2
  let b1' := ast_add_statement b1.2 b1.1 r1.1
  let zero := ast_create_int_literal b1'.2 0
  let r0 := ast_create_return_stmt zero.2 zero.1
  let b0 := ast_create_block r0.2
  let b0' := ast_add_statement b0.2 b0.1 r0.1
  let r := ast_create_if_stmt b0'.2 c.1 b1'.1 b0'.1
  r

/-- The display name the specification lists for each tag. -/
def display_name : ASTNodeType → String
  | AST_PROGRAM => "Program"
  | AST_PACKAGE_DECL => "PackageDecl"
  | AST_FUNCTION_DECL => "FunctionDecl"
  | AST_PARAMETER => "Parameter"
  | AST_PARAMETER_LIST => "ParameterList"
  | AST_BLOCK => "Block"
  | AST_VAR_DECL => "VarDecl"
  | AST_ASSIGNMENT => "Assignment"
  | AST_DECL_ASSIGNMENT => "DeclAssignment"
  | AST_IF_STMT => "IfStmt"
  | AST_FOR_STMT => "ForStmt"
  | AST_RETURN_STMT => "ReturnStmt"
  | AST_BREAK_STMT => "BreakStmt"
  | AST_CONTINUE_STMT => "ContinueStmt"
  | AST_EXPR_STMT => "ExprStmt"
  | AST_BINARY_OP => "BinaryOp"
  | AST_UNARY_OP => "UnaryOp"
  | AST_FUNCTION_CALL => "FunctionCall"
  | AST_IDENTIFIER => "Identifier"
  | AST_INT_LITERAL => "IntLiteral"
  | AST_FLOAT_LITERAL => "FloatLiteral"
  | AST_STRING_LITERAL => "StringLiteral"
  | AST_BOOL_LITERAL => "BoolLiteral"
  | AST_NIL_LITERAL => "NilLiteral"
  | AST_ARG_LIST => "ArgList"

/-- The 25 declared tags, in declaration order. -/
def all_tags : List ASTNodeType :=
  [AST_PROGRAM, AST_PACKAGE_DECL, AST_FUNCTION_DECL, AST_PARAMETER, AST_PARAMETER_LIST,
   AST_BLOCK, AST_VAR_DECL, AST_ASSIGNMENT, AST_DECL_ASSIGNMENT, AST_IF_STMT, AST_FOR_STMT,
   AST_RETURN_STMT, AST_BREAK_STMT, AST_CONTINUE_STMT, AST_EXPR_STMT, AST_BINARY_OP,
   AST_UNARY_OP, AST_FUNCTION_CALL, AST_IDENTIFIER, AST_INT_LITERAL, AST_FLOAT_LITERAL,
   AST_STRING_LITERAL, AST_BOOL_LITERAL, AST_NIL_LITERAL, AST_ARG_LIST]

/-- Reading a display name back: the tag with that display name, if any. -/
def tag_of_display_name (s : String) : Option ASTNodeType :=
  all_tags.find? (fun t => display_name t == s)

/-- The value is representable as a signed 64-bit integer. -/
def in_int64_range (v : Int) : Prop := -2 ^ 63 ≤ v ∧ v < 2 ^ 63

/-- The capacity the doubling rule prescribes after `n` appends to a sequence
of initial capacity `c0`: `c0` itself if `n ≤ c0`, otherwise the least
`c0 * 2 ^ k` that is at least `n`. -/
def doubling_capacity (c0 n cap : Nat) : Prop :=
  (n ≤ c0 ∧ cap = c0) ∨
  (c0 < n ∧ ∃ k, cap = c0 * 2 ^ k ∧ n ≤ cap ∧ ∀ j, n ≤ c0 * 2 ^ j → k ≤ j)

/-- The capacity is `c0` doubled `k` times and the last doubling, if any, was
needed: the count exceeds the previous capacity. -/
def ASTNode.doubled_from (c0 : Nat) (n : ASTNode) : Prop :=
  ∃ k, n.child_capacity = c0 * 2 ^ k ∧ (k = 0 ∨ c0 * 2 ^ (k - 1) < n.child_count)

/-- A binary-op record with both operands and no child array. -/
def sample_binary : ASTNode :=
  .mk AST_BINARY_OP (.string_value (.ref 7 "+")) (sample_leaf 8 1) (sample_leaf 9 2) .null
    .null .null 0 0 0

/-- The subtrees `ast_free` recurses into: the non-null entries of the child
sequence when the array is present, otherwise the non-null fixed slots. -/
def ASTNode.teardown_children (n : ASTNode) : List (Ptr ASTNode) :=
  (if n.children.isNonNull then n.seq else [n.left, n.right, n.third, n.fourth]).filter
    Ptr.isNonNull

/-- Release of the child array at the end of the array branch of `ast_free`
(nothing when there is no array). -/
def ASTNode.release_array (n : ASTNode) (h : Heap) : Heap :=
  match n.children with
  | .null => h
  | .ref ca _ => free_addr h ca

/-- The scenario of an append to a fixed-slot node: `x + 5` with the literal 7
appended by `ast_add_child`. -/
def scenario_hidden_slots : Ptr ASTNode × Heap :=
  let seven := ast_create_int_literal scenario_binary_op.2 7
  ast_add_child seven.2 scenario_binary_op.1 seven.1

/-- The trees reachable by any sequence of constructor calls and
`ast_add_child` calls: as `Built`, but with `ast_add_child` allowed on every
node, whatever its tag.  (A call that modifies a node inside a larger tree
yields the tree built from the modified subtree, so the closure under the
calls at the root covers it.) -/
inductive Reachable : Ptr ASTNode → Prop where
  | absent : Reachable .null
  | program (h : Heap) (p d : Ptr ASTNode) : Reachable p → Reachable d →
      Reachable (ast_create_program h p d).1
  | package_decl (h : Heap) (name : Ptr String) : Reachable (ast_create_package_decl h name).1
  | function_decl (h : Heap) (name : Ptr String) (p b : Ptr ASTNode) : Reachable p → Reachable b →
      Reachable (ast_create_function_decl h name p b).1
  | parameter (h : Heap) (name type : Ptr String) : Reachable (ast_create_parameter h name type).1
  | parameter_list (h : Heap) : Reachable (ast_create_parameter_list h).1
  | block (h : Heap) : Reachable (ast_create_block h).1
  | var_decl (h : Heap) (name type : Ptr String) (e : Ptr ASTNode) : Reachable e →
      Reachable (ast_create_var_decl h name type e).1
  | assignment (h : Heap) (name : Ptr String) (e : Ptr ASTNode) : Reachable e →
      Reachable (ast_create_assignment h name e).1
  | decl_assignment (h : Heap) (name : Ptr String) (e : Ptr ASTNode) : Reachable e →
      Reachable (ast_create_decl_assignment h name e).1
  | if_stmt (h : Heap) (c t e : Ptr ASTNode) : Reachable c → Reachable t → Reachable e →
      Reachable (ast_create_if_stmt h c t e).1
  | for_stmt (h : Heap) (i c u b : Ptr ASTNode) : Reachable i → Reachable c → Reachable u → Reachable b →
      Reachable (ast_create_for_stmt h i c u b).1
  | return_stmt (h : Heap) (e : Ptr ASTNode) : Reachable e → Reachable (ast_create_return_stmt h e).1
  | break_stmt (h : Heap) : Reachable (ast_create_break_stmt h).1
  | continue_stmt (h : Heap) : Reachable (ast_create_continue_stmt h).1
  | expr_stmt (h : Heap) (e : Ptr ASTNode) : Reachable e → Reachable (ast_create_expr_stmt h e).1
  | binary_op (h : Heap) (op : Ptr String) (l r : Ptr ASTNode) : Reachable l → Reachable r →
      Reachable (ast_create_binary_op h op l r).1
  | unary_op (h : Heap) (op : Ptr String) (e : Ptr ASTNode) : Reachable e →
      Reachable (ast_create_unary_op h op e).1
  | function_call (h : Heap) (name : Ptr String) (args : Ptr ASTNode) : Reachable args →
      Reachable (ast_create_function_call h name args).1
  | identifier (h : Heap) (name : Ptr String) : Reachable (ast_create_identifier h name).1
  | int_literal (h : Heap) (v : Int) : Reachable (ast_create_int_literal h v).1
  | float_literal (h : Heap) (bits : Nat) : Reachable (ast_create_float_literal h bits).1
  | string_literal (h : Heap) (s : Ptr String) : Reachable (ast_create_string_literal h s).1
  | bool_literal (h : Heap) (v : Int) : Reachable (ast_create_bool_literal h v).1
  | nil_literal (h : Heap) : Reachable (ast_create_nil_literal h).1
  | arg_list (h : Heap) : Reachable (ast_create_arg_list h).1
  | add_child (h : Heap) (a : Nat) (l : ASTNode) (c : Ptr ASTNode) :
      Reachable (.ref a l) → Reachable c →
      Reachable (ast_add_child h (.ref a l) c).1

mutual
/-- The property `P` holds at every node of the tree below a record: at the
record itself, in every fixed slot and in the first `child_count` cells of the
child array. -/
def all_nodes_node (P : ASTNode → Prop) : ASTNode → Prop
  | .mk type value left right third fourth children child_count child_capacity line_number =>
    P (.mk type value left right third fourth children child_count child_capacity line_number)
      ∧ all_nodes P left ∧ all_nodes P right ∧ all_nodes P third ∧ all_nodes P fourth
      ∧ (match children with
         | .ref _ arr => all_nodes_cells P arr child_count
         | .null => True)
/-- The property `P` holds at every node of the tree a pointer designates. -/
def all_nodes (P : ASTNode → Prop) : Ptr ASTNode → Prop
  | .null => True
  | .ref _ n => all_nodes_node P n
/-- The property `P` holds at every node below the first `k` cells. -/
def all_nodes_cells (P : ASTNode → Prop) : List (Ptr ASTNode) → Nat → Prop
  | [], _ => True
  | _ :: _, 0 => True
  | c :: cs, k + 1 => all_nodes P c ∧ all_nodes_cells P cs k
end

/-- Every index below `child_count` is inside the array and holds a non-null
child. -/
def ASTNode.cells_filled (n : ASTNode) : Prop :=
  ∀ i, i < n.child_count → ∃ c, n.child_at i = some c ∧ c.isNonNull = true

/-- The bounds invariant of the child sequence: the count is within the
capacity, the array is present exactly when the capacity is positive, the
array has `child_capacity` cells, and every index below the count holds a
non-null child. -/
def ASTNode.bounds_inv (n : ASTNode) : Prop :=
  n.child_count ≤ n.child_capacity ∧
  (n.children.isNonNull = true ↔ 0 < n.child_capacity) ∧
  (∀ a arr, n.children = .ref a arr → arr.length = n.child_capacity) ∧
  n.cells_filled

/-- A node whose child array is present but empty has four `NULL` slots. -/
def ASTNode.empty_seq_no_slots (n : ASTNode) : Prop :=
  n.children.isNonNull = true → n.child_count = 0 →
    n.left = .null ∧ n.right = .null ∧ n.third = .null ∧ n.fourth = .null

/-- The node does not use both addressing modes: with a child array present
the four slots are `NULL`, and with a slot populated there is no array. -/
def ASTNode.one_mode (n : ASTNode) : Prop :=
  (n.children.isNonNull = true →
    n.left = .null ∧ n.right = .null ∧ n.third = .null ∧ n.fourth = .null) ∧
  (n.left.isNonNull = true ∨ n.right.isNonNull = true ∨ n.third.isNonNull = true ∨
    n.fourth.isNonNull = true → n.children = .null)

/-- The two invariants every reachable node satisfies. -/
def ASTNode.reach_inv (n : ASTNode) : Prop := n.bounds_inv ∧ n.empty_seq_no_slots

/-- The `int` arithmetic of an append to this node does not overflow: the node
is not full, or twice its capacity is at most `INT_MAX`. -/
def ASTNode.append_in_range (n : ASTNode) : Prop :=
  n.child_count < n.child_capacity ∨ n.child_capacity * 2 ≤ INT_MAX

/-- The number of children after which a list is full at the largest capacity
that can still be doubled in `int`: `2 ^ 30`. -/
def max_children : Nat := 1073741824

/-- The bounds invariant together with the range of the counters: both are
values of the C type `int`. -/
def ASTNode.int_inv (n : ASTNode) : Prop :=
  n.bounds_inv ∧ n.child_count ≤ INT_MAX ∧ n.child_capacity ≤ INT_MAX

/-- The trees reachable by any sequence of calls of `ast_create_node`, of the
constructors and of `ast_add_child` (on any node) in which the `int` arithmetic
of every append is defined. -/
inductive ReachableInt : Ptr ASTNode → Prop where
  | absent : ReachableInt .null
  | create_node (h : Heap) (t : ASTNodeType) : ReachableInt (ast_create_node h t).1
  | program (h : Heap) (p d : Ptr ASTNode) : ReachableInt p → ReachableInt d →
      ReachableInt (ast_create_program h p d).1
  | package_decl (h : Heap) (name : Ptr String) :
      ReachableInt (ast_create_package_decl h name).1
  | function_decl (h : Heap) (name : Ptr String) (p b : Ptr ASTNode) : ReachableInt p →
      ReachableInt b → ReachableInt (ast_create_function_decl h name p b).1
  | parameter (h : Heap) (name type : Ptr String) :
      ReachableInt (ast_create_parameter h name type).1
  | parameter_list (h : Heap) : ReachableInt (ast_create_parameter_list h).1
  | block (h : Heap) : ReachableInt (ast_create_block h).1
  | var_decl (h : Heap) (name type : Ptr String) (e : Ptr ASTNode) : ReachableInt e →
      ReachableInt (ast_create_var_decl h name type e).1
  | assignment (h : Heap) (name : Ptr String) (e : Ptr ASTNode) : ReachableInt e →
      ReachableInt (ast_create_assignment h name e).1
  | decl_assignment (h : Heap) (name : Ptr String) (e : Ptr ASTNode) : ReachableInt e →
      ReachableInt (ast_create_decl_assignment h name e).1
  | if_stmt (h : Heap) (c t e : Ptr ASTNode) : ReachableInt c → ReachableInt t →
      ReachableInt e → ReachableInt (ast_create_if_stmt h c t e).1
  | for_stmt (h : Heap) (i c u b : Ptr ASTNode) : ReachableInt i → ReachableInt c →
      ReachableInt u → ReachableInt b → ReachableInt (ast_create_for_stmt h i c u b).1
  | return_stmt (h : Heap) (e : Ptr ASTNode) : ReachableInt e →
      ReachableInt (ast_create_return_stmt h e).1
  | break_stmt (h : Heap) : ReachableInt (ast_create_break_stmt h).1
  | continue_stmt (h : Heap) : ReachableInt (ast_create_continue_stmt h).1
  | expr_stmt (h : Heap) (e : Ptr ASTNode) : ReachableInt e →
      ReachableInt (ast_create_expr_stmt h e).1
  | binary_op (h : Heap) (op : Ptr String) (l r : Ptr ASTNode) : ReachableInt l →
      ReachableInt r → ReachableInt (ast_create_binary_op h op l r).1
  | unary_op (h : Heap) (op : Ptr String) (e : Ptr ASTNode) : ReachableInt e →
      ReachableInt (ast_create_unary_op h op e).1
  | function_call (h : Heap) (name : Ptr String) (args : Ptr ASTNode) : ReachableInt args →
      ReachableInt (ast_create_function_call h name args).1
  | identifier (h : Heap) (name : Ptr String) : ReachableInt (ast_create_identifier h name).1
  | int_literal (h : Heap) (v : Int) : ReachableInt (ast_create_int_literal h v).1
  | float_literal (h : Heap) (bits : Nat) : ReachableInt (ast_create_float_literal h bits).1
  | string_literal (h : Heap) (s : Ptr String) :
      ReachableInt (ast_create_string_literal h s).1
  | bool_literal (h : Heap) (v : Int) : ReachableInt (ast_create_bool_literal h v).1
  | nil_literal (h : Heap) : ReachableInt (ast_create_nil_literal h).1
  | arg_list (h : Heap) : ReachableInt (ast_create_arg_list h).1
  | add_child (h : Heap) (a : Nat) (l : ASTNode) (c : Ptr ASTNode) (r : Ptr ASTNode × Heap) :
      ReachableInt (.ref a l) → ReachableInt c →
      ast_add_child_int h (.ref a l) c = some r → ReachableInt r.1

/-! ## A store of node identities

For the ownership claims the nodes live in a store: a node's identity is its
address (its index in the store) and a pointer to a node is `none` (`NULL`) or
`some` address.  The record keeps the fields that carry node identities: the
tag, the four slots, the child array and its counters (payload text, line
number and the allocation table of the text and array blocks play no role in
reachability).  Since a node is private until its constructor returns, a
constructor is modelled as appending the completed record. -/

/-- The record `struct ASTNode` with node pointers as addresses. -/
structure NodeRec where
  type : ASTNodeType
  left : Option Nat
  right : Option Nat
  third : Option Nat
  fourth : Option Nat
  children : Option (List (Option Nat))
  child_count : Nat
  child_capacity : Nat
deriving DecidableEq, Repr

/-- The store: the record of every node allocated so far, by address. -/
abbrev NodeStore := List NodeRec

namespace StoreModel

/-- The record `ast_create_node` initialises. -/
def blank (type : ASTNodeType) : NodeRec :=
  ⟨type, none, none, none, none, none, 0, 0⟩

/-- A node with the given slots and no child array. -/
def slots (type : ASTNodeType) (left right third fourth : Option Nat) : NodeRec :=
  ⟨type, left, right, third, fourth, none, 0, 0⟩

/-- A list node: `NULL` slots and a fresh array of `cap` cells. -/
def list_node (type : ASTNodeType) (cap : Nat) : NodeRec :=
  ⟨type, none, none, none, none, some (List.replicate cap none), 0, cap⟩

/-- The function `ast_create_node`: the new node's address and the store. -/
def ast_create_node (s : NodeStore) (type : ASTNodeType) : Nat × NodeStore :=
  (s.length, s ++ [blank type])

/-- The function `ast_create_program`. -/
def ast_create_program (s : NodeStore) (package_decl declarations : Option Nat) :
    Nat × NodeStore :=
  (s.length, s ++ [slots AST_PROGRAM package_decl declarations none none])

/-- The function `ast_create_package_decl`. -/
def ast_create_package_decl (s : NodeStore) : Nat × NodeStore :=
  (s.length, s ++ [blank AST_PACKAGE_DECL])

/-- The function `ast_create_function_decl`. -/
def ast_create_function_decl (s : NodeStore) (params body : Option Nat) : Nat × NodeStore :=
  (s.length, s ++ [slots AST_FUNCTION_DECL params body none none])

/-- The function `ast_create_identifier`. -/
def ast_create_identifier (s : NodeStore) : Nat × NodeStore :=
  (s.length, s ++ [blank AST_IDENTIFIER])

/-- The function `ast_create_parameter`; `has_type` tells whether the type
argument is non-null, in which case the identifier node created for it (right
after the parameter node) goes to `left`. -/
def ast_create_parameter (s : NodeStore) (has_type : Bool) : Nat × NodeStore :=
  if has_type then
    (s.length,
      s ++ [slots AST_PARAMETER (some (s.length + 1)) none none none, blank AST_IDENTIFIER])
  else (s.length, s ++ [blank AST_PARAMETER])

/-- The function `ast_create_parameter_list`. -/
def ast_create_parameter_list (s : NodeStore) : Nat × NodeStore :=
  (s.length, s ++ [list_node AST_PARAMETER_LIST 4])

/-- The function `ast_create_block`. -/
def ast_create_block (s : NodeStore) : Nat × NodeStore :=
  (s.length, s ++ [list_node AST_BLOCK 8])

/-- The function `ast_create_var_decl`; the identifier node for a non-null
type goes to `right`. -/
def ast_create_var_decl (s : NodeStore) (has_type : Bool) (init_expr : Option Nat) :
    Nat × NodeStore :=
  if has_type then
    (s.length,
      s ++ [slots AST_VAR_DECL init_expr (some (s.length + 1)) none none, blank AST_IDENTIFIER])
  else (s.length, s ++ [slots AST_VAR_DECL init_expr none none none])

/-- The function `ast_create_assignment`: `left` is the identifier node created
for the name. -/
def ast_create_assignment (s : NodeStore) (expr : Option Nat) : Nat × NodeStore :=
  (s.length,
    s ++ [slots AST_ASSIGNMENT (some (s.length + 1)) expr none none, blank AST_IDENTIFIER])

/-- The function `ast_create_decl_assignment`. -/
def ast_create_decl_assignment (s : NodeStore) (expr : Option Nat) : Nat × NodeStore :=
  (s.length,
    s ++ [slots AST_DECL_ASSIGNMENT (some (s.length + 1)) expr none none, blank AST_IDENTIFIER])

/-- The function `ast_create_if_stmt`. -/
def ast_create_if_stmt (s : NodeStore) (condition then_block else_block : Option Nat) :
    Nat × NodeStore :=
  (s.length, s ++ [slots AST_IF_STMT condition then_block else_block none])

/-- The function `ast_create_for_stmt`. -/
def ast_create_for_stmt (s : NodeStore) (init condition update body : Option Nat) :
    Nat × NodeStore :=
  (s.length, s ++ [slots AST_FOR_STMT init condition update body])

/-- The function `ast_create_return_stmt`. -/
def ast_create_return_stmt (s : NodeStore) (expr : Option Nat) : Nat × NodeStore :=
  (s.length, s ++ [slots AST_RETURN_STMT expr none none none])

/-- The function `ast_create_break_stmt`. -/
def ast_create_break_stmt (s : NodeStore) : Nat × NodeStore :=
  (s.length, s ++ [blank AST_BREAK_STMT])

/-- The function `ast_create_continue_stmt`. -/
def ast_create_continue_stmt (s : NodeStore) : Nat × NodeStore :=
  (s.length, s ++ [blank AST_CONTINUE_STMT])

/-- The function `ast_create_expr_stmt`. -/
def ast_create_expr_stmt (s : NodeStore) (expr : Option Nat) : Nat × NodeStore :=
  (s.length, s ++ [slots AST_EXPR_STMT expr none none none])

/-- The function `ast_create_binary_op`. -/
def ast_create_binary_op (s : NodeStore) (left right : Option Nat) : Nat × NodeStore :=
  (s.length, s ++ [slots AST_BINARY_OP left right none none])

/-- The function `ast_create_unary_op`. -/
def ast_create_unary_op (s : NodeStore) (operand : Option Nat) : Nat × NodeStore :=
  (s.length, s ++ [slots AST_UNARY_OP operand none none none])

/-- The function `ast_create_function_call`. -/
def ast_create_function_call (s : NodeStore) (args : Option Nat) : Nat × NodeStore :=
  (s.length, s ++ [slots AST_FUNCTION_CALL args none none none])

/-- The function `ast_create_int_literal`. -/
def ast_create_int_literal (s : NodeStore) : Nat × NodeStore :=
  (s.length, s ++ [blank AST_INT_LITERAL])

/-- The function `ast_create_float_literal`. -/
def ast_create_float_literal (s : NodeStore) : Nat × NodeStore :=
  (s.length, s ++ [blank AST_FLOAT_LITERAL])

/-- The function `ast_create_string_literal`. -/
def ast_create_string_literal (s : NodeStore) : Nat × NodeStore :=
  (s.length, s ++ [blank AST_STRING_LITERAL])

/-- The function `ast_create_bool_literal`. -/
def ast_create_bool_literal (s : NodeStore) : Nat × NodeStore :=
  (s.length, s ++ [blank AST_BOOL_LITERAL])

/-- The function `ast_create_nil_literal`. -/
def ast_create_nil_literal (s : NodeStore) : Nat × NodeStore :=
  (s.length, s ++ [blank AST_NIL_LITERAL])

/-- The function `ast_create_arg_list`. -/
def ast_create_arg_list (s : NodeStore) : Nat × NodeStore :=
  (s.length, s ++ [list_node AST_ARG_LIST 4])

/-- Body of `ast_add_child` on the parent record: allocate the array if it is
missing, double it if it is full, store the child's address at index
`child_count` and increment the count. -/
def add_child_rec (parent : NodeRec) (child : Nat) : NodeRec :=
  let p1 : NodeRec :=
    match parent.children with
    | some _ => parent
    | none =>
      ⟨parent.type, parent.left, parent.right, parent.third, parent.fourth,
        some (List.replicate 4 none), 0, 4⟩
  let p2 : NodeRec :=
    if p1.child_count ≥ p1.child_capacity then
      ⟨p1.type, p1.left, p1.right, p1.third, p1.fourth,
        p1.children.map (fun arr =>
          arr.take (p1.child_capacity * 2)
            ++ List.replicate (p1.child_capacity * 2 - arr.length) none),
        p1.child_count, p1.child_capacity * 2⟩
    else p1
  ⟨p2.type, p2.left, p2.right, p2.third, p2.fourth,
    p2.children.map (fun arr => arr.set p2.child_count (some child)),
    p2.child_count + 1, p2.child_capacity⟩

/-- The function `ast_add_child`: nothing happens when either pointer is
`NULL`; otherwise the parent's record is updated in place (an address that
designates no node is outside the model and leaves the store as it is). -/
def ast_add_child (s : NodeStore) (parent child : Option Nat) : NodeStore :=
  match parent, child with
  | some p, some c =>
    match s[p]? with
    | some n => s.set p (add_child_rec n c)
    | none => s
  | _, _ => s

end StoreModel

/-- A call of the interface, with its node-pointer arguments. -/
inductive Call where
  | create_node (type : ASTNodeType)
  | program (package_decl declarations : Option Nat)
  | package_decl
  | function_decl (params body : Option Nat)
  | parameter (has_type : Bool)
  | parameter_list
  | block
  | var_decl (has_type : Bool) (init_expr : Option Nat)
  | assignment (expr : Option Nat)
  | decl_assignment (expr : Option Nat)
  | if_stmt (condition then_block else_block : Option Nat)
  | for_stmt (init condition update body : Option Nat)
  | return_stmt (expr : Option Nat)
  | break_stmt
  | continue_stmt
  | expr_stmt (expr : Option Nat)
  | binary_op (left right : Option Nat)
  | unary_op (operand : Option Nat)
  | function_call (args : Option Nat)
  | identifier
  | int_literal
  | float_literal
  | string_literal
  | bool_literal
  | nil_literal
  | arg_list
  | add_child (parent child : Option Nat)
deriving DecidableEq, Repr

/-- The non-null node pointers a call receives, in argument order. -/
def Call.args : Call → List Nat
  | .program p d => [p, d].reduceOption
  | .function_decl p b => [p, b].reduceOption
  | .var_decl _ e => [e].reduceOption
  | .assignment e => [e].reduceOption
  | .decl_assignment e => [e].reduceOption
  | .if_stmt c t e => [c, t, e].reduceOption
  | .for_stmt i c u b => [i, c, u, b].reduceOption
  | .return_stmt e => [e].reduceOption
  | .expr_stmt e => [e].reduceOption
  | .binary_op l r => [l, r].reduceOption
  | .unary_op e => [e].reduceOption
  | .function_call a => [a].reduceOption
  | .add_child p c => [p, c].reduceOption
  | _ => []

@[simp] theorem ASTNode.type_mk (t v l r th f c n cap ln) :
    (ASTNode.mk t v l r th f c n cap ln).type = t := rfl

@[simp] theorem ASTNode.value_mk (t v l r th f c n cap ln) :
    (ASTNode.mk t v l r th f c n cap ln).value = v := rfl

@[simp] theorem ASTNode.left_mk (t v l r th f c n cap ln) :
    (ASTNode.mk t v l r th f c n cap ln).left = l := rfl

@[simp] theorem ASTNode.right_mk (t v l r th f c n cap ln) :
    (ASTNode.mk t v l r th f c n cap ln).right = r := rfl

@[simp] theorem ASTNode.third_mk (t v l r th f c n cap ln) :
    (ASTNode.mk t v l r th f c n cap ln).third = th := rfl

@[simp] theorem ASTNode.fourth_mk (t v l r th f c n cap ln) :
    (ASTNode.mk t v l r th f c n cap ln).fourth = f := rfl

@[simp] theorem ASTNode.children_mk (t v l r th f c n cap ln) :
    (ASTNode.mk t v l r th f c n cap ln).children = c := rfl

@[simp] theorem ASTNode.child_count_mk (t v l r th f c n cap ln) :
    (ASTNode.mk t v l r th f c n cap ln).child_count = n := rfl

@[simp] theorem ASTNode.child_capacity_mk (t v l r th f c n cap ln) :
    (ASTNode.mk t v l r th f c n cap ln).child_capacity = cap := rfl

@[simp] theorem ASTNode.line_number_mk (t v l r th f c n cap ln) :
    (ASTNode.mk t v l r th f c n cap ln).line_number = ln := rfl

@[simp] theorem ASTNode.set_value_mk (x t v l r th f c n cap ln) :
    (ASTNode.mk t v l r th f c n cap ln).set_value x = ASTNode.mk t x l r th f c n cap ln := rfl

@[simp] theorem ASTNode.set_left_mk (x t v l r th f c n cap ln) :
    (ASTNode.mk t v l r th f c n cap ln).set_left x = ASTNode.mk t v x r th f c n cap ln := rfl

@[simp] theorem ASTNode.set_right_mk (x t v l r th f c n cap ln) :
    (ASTNode.mk t v l r th f c n cap ln).set_right x = ASTNode.mk t v l x th f c n cap ln := rfl

@[simp] theorem ASTNode.set_third_mk (x t v l r th f c n cap ln) :
    (ASTNode.mk t v l r th f c n cap ln).set_third x = ASTNode.mk t v l r x f c n cap ln := rfl

@[simp] theorem ASTNode.set_fourth_mk (x t v l r th f c n cap ln) :
    (ASTNode.mk t v l r th f c n cap ln).set_fourth x = ASTNode.mk t v l r th x c n cap ln := rfl

@[simp] theorem ASTNode.set_children_mk (x t v l r th f c n cap ln) :
    (ASTNode.mk t v l r th f c n cap ln).set_children x = ASTNode.mk t v l r th f x n cap ln := rfl

@[simp] theorem ASTNode.set_child_count_mk (x t v l r th f c n cap ln) :
    (ASTNode.mk t v l r th f c n cap ln).set_child_count x = ASTNode.mk t v l r th f c x cap ln := rfl

@[simp] theorem ASTNode.set_child_capacity_mk (x t v l r th f c n cap ln) :
    (ASTNode.mk t v l r th f c n cap ln).set_child_capacity x = ASTNode.mk t v l r th f c n x ln := rfl

@[simp] theorem Ptr.isNonNull_null {α : Type} : (Ptr.null : Ptr α).isNonNull = false := rfl

@[simp] theorem Ptr.isNonNull_ref {α : Type} (a : Nat) (v : α) :
    (Ptr.ref a v).isNonNull = true := rfl

@[simp] theorem Ptr.update_null {α : Type} (f : α → α) :
    (Ptr.null : Ptr α).update f = Ptr.null := rfl

@[simp] theorem Ptr.update_ref {α : Type} (f : α → α) (a : Nat) (v : α) :
    (Ptr.ref a v).update f = Ptr.ref a (f v) := rfl

@[simp] theorem Ptr.val?_null {α : Type} : (Ptr.null : Ptr α).val? = none := rfl

@[simp] theorem Ptr.val?_ref {α : Type} (a : Nat) (v : α) : (Ptr.ref a v).val? = some v := rfl

@[simp] theorem Ptr.addr?_null {α : Type} : (Ptr.null : Ptr α).addr? = none := rfl

@[simp] theorem Ptr.addr?_ref {α : Type} (a : Nat) (v : α) :
    (Ptr.ref a v).addr? = some a := rfl

/-! ## Lemmas on the child array -/

theorem take_set_succ {α : Type} (arr : List α) (n : Nat) (c : α) (hn : n < arr.length) :
    (arr.set n c).take (n + 1) = arr.take n ++ [c] := by
  induction arr generalizing n with
  | nil => simp at hn
  | cons x xs ih =>
    cases n with
    | zero => simp
    | succ k =>
      have hk : k < xs.length := by simpa using hn
      simp [List.set, List.take, ih k hk]

theorem add_child_node_not_full (h : Heap) (t v l r th f a) (arr : List (Ptr ASTNode))
    (n cap : Nat) (ln) (c : Ptr ASTNode) (hlt : n < cap) :
    ast_add_child_node h (.mk t v l r th f (.ref a arr) n cap ln) c =
      (.mk t v l r th f (.ref a (arr.set n c)) (n + 1) cap ln, h) := by
  have : ¬ n ≥ cap := by omega
  simp [ast_add_child_node, this]

theorem add_child_node_full (h : Heap) (t v l r th f a) (arr : List (Ptr ASTNode))
    (cap : Nat) (ln) (c : Ptr ASTNode) :
    ast_add_child_node h (.mk t v l r th f (.ref a arr) cap cap ln) c =
      (.mk t v l r th f
        (.ref (free_addr h a).next
          ((arr.take (cap * 2) ++ List.replicate (cap * 2 - arr.length) Ptr.null).set cap c))
        (cap + 1) (cap * 2) ln,
       (malloc (free_addr h a)
          (arr.take (cap * 2) ++
            List.replicate (cap * 2 - arr.length) (Ptr.null : Ptr ASTNode))).2) := by
  simp only [ast_add_child_node, ASTNode.children, Ptr.isNonNull, if_true, ASTNode.child_count,
    ASTNode.child_capacity, ge_iff_le, le_refl, realloc, malloc, ASTNode.set_child_capacity,
    ASTNode.set_children, Ptr.update, ASTNode.set_child_count]

theorem add_child_node_seq (h : Heap) (p : ASTNode) (c : Ptr ASTNode) (hok : p.seq_ok) :
    (ast_add_child_node h p c).1.seq_ok ∧
    (ast_add_child_node h p c).1.child_count = p.child_count + 1 ∧
    (ast_add_child_node h p c).1.seq = p.seq ++ [c] := by
  obtain ⟨t, v, l, r, th, f, ch, n, cap, ln⟩ := p
  obtain ⟨a, arr, hch, hlen, hle, hpos⟩ := hok
  simp only [ASTNode.children, ASTNode.child_count, ASTNode.child_capacity] at hch hlen hle hpos
  subst hch
  by_cases hfull : n < cap
  · rw [add_child_node_not_full h t v l r th f a arr n cap ln c hfull]
    refine ⟨⟨a, arr.set n c, rfl, by simpa using hlen, ?_, hpos⟩, rfl, ?_⟩
    · show n + 1 ≤ cap
      omega
    · show (arr.set n c).take (n + 1) = arr.take n ++ [c]
      exact take_set_succ arr n c (by omega)
  · have hn : n = cap := by omega
    subst hn
    rw [add_child_node_full]
    have htake : arr.take (n * 2) = arr := List.take_of_length_le (by omega)
    have hsub : n * 2 - arr.length = n := by omega
    rw [htake, hsub]
    refine ⟨⟨_, _, rfl, ?_, ?_, ?_⟩, rfl, ?_⟩
    · show ((arr ++ List.replicate n Ptr.null).set n c).length = n * 2
      simp [hlen]; omega
    · show n + 1 ≤ n * 2
      omega
    · show 0 < n * 2
      omega
    · show ((arr ++ List.replicate n Ptr.null).set n c).take (n + 1) = arr.take n ++ [c]
      rw [take_set_succ _ _ _ (by simp [hlen]; omega)]
      congr 1
      rw [List.take_append_of_le_length (by omega)]

theorem ast_add_child_ref (h : Heap) (a : Nat) (p : ASTNode) (c : Ptr ASTNode)
    (hc : c.isNonNull = true) :
    ast_add_child h (.ref a p) c =
      (.ref a (ast_add_child_node h p c).1, (ast_add_child_node h p c).2) := by
  cases c with
  | null => simp at hc
  | ref ca cn => rfl

theorem add_children_seq (cs : List (Ptr ASTNode)) :
    ∀ (h : Heap) (a : Nat) (p : ASTNode), p.seq_ok → (∀ c ∈ cs, c.isNonNull = true) →
      ∃ n, (add_children h (.ref a p) cs).1 = .ref a n ∧ n.seq_ok ∧
        n.child_count = p.child_count + cs.length ∧ n.seq = p.seq ++ cs := by
  induction cs with
  | nil =>
    intro h a p hok _
    exact ⟨p, rfl, hok, by simp, by simp⟩
  | cons c cs ih =>
    intro h a p hok hcs
    have hc : c.isNonNull = true := hcs c (by simp)
    obtain ⟨hok1, hcnt1, hseq1⟩ := add_child_node_seq h p c hok
    obtain ⟨n, hn, hokn, hcntn, hseqn⟩ :=
      ih (ast_add_child_node h p c).2 a (ast_add_child_node h p c).1 hok1
        (fun x hx => hcs x (by simp [hx]))
    refine ⟨n, ?_, hokn, ?_, ?_⟩
    · simpa [add_children, List.foldl, ast_add_child_ref h a p c hc] using hn
    · rw [hcntn, hcnt1, List.length_cons]; omega
    · rw [hseqn, hseq1]; simp

theorem child_at_of_seq (n : ASTNode) (cs : List (Ptr ASTNode)) (hseq : n.seq = cs)
    (i : Nat) (hi : i < cs.length) : n.child_at i = some cs[i] := by
  obtain ⟨t, v, l, r, th, f, ch, k, cap, ln⟩ := n
  cases ch with
  | null =>
    simp [ASTNode.seq] at hseq
    subst hseq
    simp at hi
  | ref a arr =>
    simp only [ASTNode.seq, ASTNode.children, ASTNode.child_count] at hseq
    subst hseq
    simp only [ASTNode.child_at, ASTNode.children]
    rw [List.getElem_take]
    simp at hi
    simp [hi.2]

theorem seq_ok_create_list (h : Heap) :
    (∃ a n, (ast_create_parameter_list h).1 = .ref a n ∧ n.seq_ok ∧ n.child_count = 0) ∧
    (∃ a n, (ast_create_arg_list h).1 = .ref a n ∧ n.seq_ok ∧ n.child_count = 0) ∧
    (∃ a n, (ast_create_block h).1 = .ref a n ∧ n.seq_ok ∧ n.child_count = 0) := by
  refine ⟨⟨_, _, rfl, ⟨_, _, rfl, ?_, ?_, ?_⟩, rfl⟩, ⟨_, _, rfl, ⟨_, _, rfl, ?_, ?_, ?_⟩, rfl⟩,
    ⟨_, _, rfl, ⟨_, _, rfl, ?_, ?_, ?_⟩, rfl⟩⟩ <;> simp

theorem seq_of_count_zero (n : ASTNode) (h0 : n.child_count = 0) : n.seq = [] := by
  obtain ⟨t, v, l, r, th, f, ch, k, cap, ln⟩ := n
  simp only [ASTNode.child_count] at h0
  subst h0
  cases ch <;> simp [ASTNode.seq]

/-! ## Lemmas on `ast_free` -/

theorem free_addr_ne (h : Heap) (a : Nat) : free_addr h a ≠ h := by
  unfold free_addr
  split
  · rename_i hm
    intro heq
    have hl : (h.live.erase a).length = h.live.length := by
      have := congrArg Heap.live heq
      simp only at this
      rw [this]
    rw [List.length_erase_of_mem hm] at hl
    have : 0 < h.live.length := List.length_pos_of_mem hm
    omega
  · intro heq
    have hl : (a :: h.invalid).length = h.invalid.length := by
      have := congrArg Heap.invalid heq
      simp only at this
      rw [this]
    simp at hl

theorem ast_free_value_string (h : Heap) (n : ASTNode) (ht : n.type ∈ string_tags) :
    ast_free_value h n =
      if n.value.get_string.isNonNull then free h n.value.get_string else h := by
  obtain ⟨t, v, l, r, th, f, ch, k, cap, ln⟩ := n
  simp only [ASTNode.type, string_tags, List.mem_cons, List.mem_singleton, List.not_mem_nil,
    or_false] at ht
  rcases ht with rfl | rfl | rfl | rfl | rfl | rfl | rfl | rfl <;> rfl

theorem ast_free_value_other (h : Heap) (n : ASTNode) (ht : n.type ∉ string_tags) :
    ast_free_value h n = h := by
  obtain ⟨t, v, l, r, th, f, ch, k, cap, ln⟩ := n
  cases t <;> first | rfl | (exfalso; apply ht; simp [string_tags])

theorem ast_free_unfold (h : Heap) (a : Nat) (n : ASTNode) :
    ast_free (.ref a n) h =
      free_addr
        (match n.children with
         | .ref ca arr => free_addr (ast_free_loop arr n.child_count (ast_free_value h n)) ca
         | .null =>
           ast_free n.fourth (ast_free n.third (ast_free n.right (ast_free n.left
             (ast_free_value h n))))) a := by
  obtain ⟨t, v, l, r, th, f, ch, k, cap, ln⟩ := n
  cases ch <;> simp [ast_free, ast_free_node]

/-! ## C2: round trip of construction -/

theorem text_copy_strdup (h h0 : Heap) (name : Ptr String) (hle : h0.next ≤ h.next) :
    text_copy h0 name (custom_strdup h name).1 := by
  cases name with
  | null => rfl
  | ref a s => exact ⟨h.next, rfl, hle⟩

theorem to_int_of_range (v : Int) (hv : in_int_range v) : to_int v = v := by
  obtain ⟨h1, h2⟩ := hv
  unfold to_int
  rw [Int.emod_eq_of_lt (by omega) (by omega)]
  omega

/-- C2 (round trip of construction).  For every constructor, the returned
pointer is not `NULL` and the record has the form's tag; a text payload is a
copy of the supplied text (`NULL` for `NULL`, otherwise the same characters in
a block allocated by the call, so never an alias of the caller's buffer); an
integer or boolean payload equals the supplied `int`; a `double` payload has
the supplied bits; every supplied subtree sits in its fixed slot (program,
function declaration, if, for, return, expression statement, binary and unary
op, call, var declaration), and assignment and declare-assign hold in `left`
an identifier node whose text is a copy of the supplied name and in `right`
the expression. -/
theorem construction_round_trip (h : Heap) (name name2 : Ptr String) (p q r s : Ptr ASTNode)
    (v : Int) (bits : Nat) :
    (ast_create_program h p q).1.sat (fun n => n.type = AST_PROGRAM ∧ n.left = p ∧ n.right = q) ∧
    (ast_create_package_decl h name).1.sat (fun n =>
      n.type = AST_PACKAGE_DECL ∧ text_copy h name n.value.get_string) ∧
    (ast_create_function_decl h name p q).1.sat (fun n =>
      n.type = AST_FUNCTION_DECL ∧ text_copy h name n.value.get_string ∧
        n.left = p ∧ n.right = q) ∧
    (ast_create_if_stmt h p q r).1.sat (fun n =>
      n.type = AST_IF_STMT ∧ n.left = p ∧ n.right = q ∧ n.third = r) ∧
    (ast_create_for_stmt h p q r s).1.sat (fun n =>
      n.type = AST_FOR_STMT ∧ n.left = p ∧ n.right = q ∧ n.third = r ∧ n.fourth = s) ∧
    (ast_create_return_stmt h p).1.sat (fun n => n.type = AST_RETURN_STMT ∧ n.left = p) ∧
    (ast_create_expr_stmt h p).1.sat (fun n => n.type = AST_EXPR_STMT ∧ n.left = p) ∧
    (ast_create_binary_op h name p q).1.sat (fun n =>
      n.type = AST_BINARY_OP ∧ text_copy h name n.value.get_string ∧ n.left = p ∧ n.right = q) ∧
    (ast_create_unary_op h name p).1.sat (fun n =>
      n.type = AST_UNARY_OP ∧ text_copy h name n.value.get_string ∧ n.left = p) ∧
    (ast_create_function_call h name p).1.sat (fun n =>
      n.type = AST_FUNCTION_CALL ∧ text_copy h name n.value.get_string ∧ n.left = p) ∧
    (ast_create_assignment h name p).1.sat (fun n =>
      n.type = AST_ASSIGNMENT ∧ n.left.sat (identifier_of h name) ∧ n.right = p) ∧
    (ast_create_decl_assignment h name p).1.sat (fun n =>
      n.type = AST_DECL_ASSIGNMENT ∧ n.left.sat (identifier_of h name) ∧ n.right = p) ∧
    (ast_create_identifier h name).1.sat (fun n =>
      n.type = AST_IDENTIFIER ∧ text_copy h name n.value.get_string) ∧
    (ast_create_string_literal h name).1.sat (fun n =>
      n.type = AST_STRING_LITERAL ∧ text_copy h name n.value.get_string) ∧
    (ast_create_parameter h name name2).1.sat (fun n =>
      n.type = AST_PARAMETER ∧ text_copy h name n.value.get_string) ∧
    (ast_create_var_decl h name name2 p).1.sat (fun n =>
      n.type = AST_VAR_DECL ∧ text_copy h name n.value.get_string ∧ n.left = p) ∧
    (ast_create_float_literal h bits).1.sat (fun n =>
      n.type = AST_FLOAT_LITERAL ∧ n.value.get_float = bits) ∧
    (ast_create_parameter_list h).1.sat (fun n => n.type = AST_PARAMETER_LIST) ∧
    (ast_create_block h).1.sat (fun n => n.type = AST_BLOCK) ∧
    (ast_create_arg_list h).1.sat (fun n => n.type = AST_ARG_LIST) ∧
    (ast_create_break_stmt h).1.sat (fun n => n.type = AST_BREAK_STMT) ∧
    (ast_create_continue_stmt h).1.sat (fun n => n.type = AST_CONTINUE_STMT) ∧
    (ast_create_nil_literal h).1.sat (fun n => n.type = AST_NIL_LITERAL) ∧
    (in_int_range v → (ast_create_int_literal h v).1.sat (fun n =>
      n.type = AST_INT_LITERAL ∧ n.value.get_int = v)) ∧
    (in_int_range v → (ast_create_bool_literal h v).1.sat (fun n =>
      n.type = AST_BOOL_LITERAL ∧ n.value.get_bool = v)) := by
  have hs : ∀ nm : Ptr String,
      text_copy h nm (custom_strdup (ast_create_node h AST_PROGRAM).2 nm).1 :=
    fun nm => text_copy_strdup _ h nm (Nat.le_succ _)
  refine ⟨⟨_, _, rfl, rfl, rfl, rfl⟩, ⟨_, _, rfl, rfl, hs name⟩, ⟨_, _, rfl, rfl, hs name, rfl, rfl⟩,
    ⟨_, _, rfl, rfl, rfl, rfl, rfl⟩, ⟨_, _, rfl, rfl, rfl, rfl, rfl, rfl⟩, ⟨_, _, rfl, rfl, rfl⟩,
    ⟨_, _, rfl, rfl, rfl⟩, ⟨_, _, rfl, rfl, hs name, rfl, rfl⟩, ⟨_, _, rfl, rfl, hs name, rfl⟩,
    ⟨_, _, rfl, rfl, hs name, rfl⟩, ?_, ?_, ⟨_, _, rfl, rfl, hs name⟩, ⟨_, _, rfl, rfl, hs name⟩, ?_, ?_,
    ⟨_, _, rfl, rfl, rfl⟩, ⟨_, _, rfl, rfl⟩, ⟨_, _, rfl, rfl⟩, ⟨_, _, rfl, rfl⟩, ⟨_, _, rfl, rfl⟩,
    ⟨_, _, rfl, rfl⟩, ⟨_, _, rfl, rfl⟩, ?_, ?_⟩
  · exact ⟨_, _, rfl, rfl, ⟨_, _, rfl, rfl, text_copy_strdup _ h name (Nat.le_add_right _ 2),
      rfl, rfl, rfl, rfl, rfl⟩, rfl⟩
  · exact ⟨_, _, rfl, rfl, ⟨_, _, rfl, rfl, text_copy_strdup _ h name (Nat.le_add_right _ 2),
      rfl, rfl, rfl, rfl, rfl⟩, rfl⟩
  · cases name2 with
    | null => exact ⟨_, _, rfl, rfl, hs name⟩
    | ref a2 s2 => exact ⟨_, _, rfl, rfl, hs name⟩
  · cases name2 with
    | null => exact ⟨_, _, rfl, rfl, hs name, rfl⟩
    | ref a2 s2 => exact ⟨_, _, rfl, rfl, hs name, rfl⟩
  · intro hv
    exact ⟨_, _, rfl, rfl, to_int_of_range v hv⟩
  · intro hv
    exact ⟨_, _, rfl, rfl, to_int_of_range v hv⟩

/-- Instance of C2: 5 is an `int`, the int-literal node for 5 reads back 5, and
the binary-op node for `+` reads back its operator and both operands. -/
theorem construction_round_trip_witness :
    in_int_range 5 ∧
    (ast_create_int_literal Heap.empty 5).1.sat (fun n =>
      n.type = AST_INT_LITERAL ∧ n.value.get_int = 5) ∧
    (ast_create_binary_op Heap.empty (.ref 7 "+") (sample_leaf 8 1) (sample_leaf 9 2)).1.sat
      (fun n => n.type = AST_BINARY_OP ∧ text_copy Heap.empty (.ref 7 "+") n.value.get_string ∧
        n.left = sample_leaf 8 1 ∧ n.right = sample_leaf 9 2) := by
  have hr : in_int_range 5 := by unfold in_int_range; omega
  have key := construction_round_trip Heap.empty (.ref 7 "+") .null (sample_leaf 8 1)
    (sample_leaf 9 2) .null .null 5 0
  exact ⟨hr, key.2.2.2.2.2.2.2.2.2.2.2.2.2.2.2.2.2.2.2.2.2.2.2.1 hr, key.2.2.2.2.2.2.2.1⟩

/-! ## C3: teardown -/

theorem mem_live_free_addr (h : Heap) (a b : Nat) (hne : a ≠ b) (ha : a ∈ h.live) :
    a ∈ (free_addr h b).live := by
  unfold free_addr
  split
  · exact (List.mem_erase_of_ne hne).2 ha
  · exact ha

theorem ast_create_parameter_no_type (h : Heap) (a : Nat) (s : String) :
    ast_create_parameter h (.ref a s) .null =
      (.ref h.next (.mk AST_PARAMETER (.string_value (.ref (h.next + 1) s)) .null .null .null
          .null .null 0 0 0),
        ⟨h.next + 1 + 1, (h.next + 1) :: h.next :: h.live, h.invalid⟩) := rfl

theorem ast_create_parameter_typed (h : Heap) (a : Nat) (s : String) (ta : Nat)
    (ts : String) :
    ast_create_parameter h (.ref a s) (.ref ta ts) =
      (.ref h.next (.mk AST_PARAMETER (.string_value (.ref (h.next + 1) s))
          (.ref (h.next + 1 + 1) (.mk AST_IDENTIFIER
            (.string_value (.ref (h.next + 1 + 1 + 1) ts)) .null .null .null .null .null 0 0 0))
          .null .null .null .null 0 0 0),
        ⟨h.next + 1 + 1 + 1 + 1,
          (h.next + 1 + 1 + 1) :: (h.next + 1 + 1) :: (h.next + 1) :: h.next :: h.live,
          h.invalid⟩) := rfl

/-- C3, the teardown of a parameter node.  For every allocation table, every
non-null name and every type text (`NULL` or not), the node built by
`ast_create_parameter` holds its name in a block allocated by the call, and
that block is still live after `ast_free` of the node: the name is never
released.  Evaluated at `ast_free(ast_create_parameter("a", "int"))` from the
empty table: four blocks are allocated (node 0, name 1, type identifier 2, its
text 3), and after `ast_free` block 1 alone is live; nothing is released
twice. -/
theorem ast_free_leaks_parameter_name (h : Heap) (a : Nat) (s : String) (type : Ptr String) :
    ((ast_create_parameter h (.ref a s) type).1.sat (fun n =>
        n.type = AST_PARAMETER ∧ n.value.get_string = .ref (h.next + 1) s) ∧
      h.next + 1 ∈ (ast_create_parameter h (.ref a s) type).2.live ∧
      h.next + 1 ∈
        (ast_free (ast_create_parameter h (.ref a s) type).1
          (ast_create_parameter h (.ref a s) type).2).live) ∧
    (scenario_parameter.2.live = [3, 2, 1, 0] ∧
      (∃ n, scenario_parameter.1 = .ref 0 n ∧ n.type = AST_PARAMETER ∧
        n.value.get_string = .ref 1 "a") ∧
      (ast_free scenario_parameter.1 scenario_parameter.2).live = [1] ∧
      (ast_free scenario_parameter.1 scenario_parameter.2).invalid = []) := by
  refine ⟨?_, by decide, ⟨_, rfl, rfl, rfl⟩, by decide, by decide⟩
  cases type with
  | null =>
    rw [ast_create_parameter_no_type]
    refine ⟨⟨_, _, rfl, rfl, rfl⟩, by simp, ?_⟩
    rw [ast_free_unfold]
    apply mem_live_free_addr _ _ _ (by omega)
    simp [ast_free, ast_free_value]
  | ref ta ts =>
    rw [ast_create_parameter_typed]
    refine ⟨⟨_, _, rfl, rfl, rfl⟩, by simp, ?_⟩
    rw [ast_free_unfold]
    apply mem_live_free_addr _ _ _ (by omega)
    simp only [ASTNode.children_mk, ASTNode.left_mk, ASTNode.right_mk, ASTNode.third_mk,
      ASTNode.fourth_mk]
    rw [ast_free.eq_1, ast_free.eq_1, ast_free.eq_1, ast_free_unfold]
    apply mem_live_free_addr _ _ _ (by omega)
    simp only [ASTNode.children_mk, ASTNode.left_mk, ASTNode.right_mk, ASTNode.third_mk,
      ASTNode.fourth_mk, ast_free.eq_1]
    simp only [ast_free_value, ASTNode.type_mk, ASTNode.value_mk, ASTValue.get_string,
      Ptr.isNonNull_ref, if_true, free]
    apply mem_live_free_addr _ _ _ (by omega)
    simp

/-! ## C4: print traversal order -/

theorem ast_print_guard (fmt_f : Nat → String) (p : Ptr ASTNode) (d : Int) :
    (if p.isNonNull then ast_print fmt_f p d else []) = ast_print fmt_f p d := by
  cases p with
  | null => simp [ast_print]
  | ref a n => simp

theorem ast_print_loop_eq (fmt_f : Nat → String) (arr : List (Ptr ASTNode)) :
    ∀ (k : Nat) (d : Int),
      ast_print_loop fmt_f arr k d = ((arr.take k).map (fun c => ast_print fmt_f c d)).flatten := by
  induction arr with
  | nil => intro k d; simp [ast_print_loop]
  | cons c cs ih =>
    intro k d
    cases k with
    | zero => simp [ast_print_loop]
    | succ k => simp [ast_print_loop, ih k d]

theorem ast_print_unfold (fmt_f : Nat → String) (a : Nat) (n : ASTNode) (d : Int) :
    ast_print fmt_f (.ref a n) d =
      ast_print_header fmt_f n d ::
        (if n.uses_sequence then
          ((n.seq).map (fun c => ast_print fmt_f c (d + 1))).flatten
         else
          ast_print fmt_f n.left (d + 1) ++ ast_print fmt_f n.right (d + 1)
            ++ ast_print fmt_f n.third (d + 1) ++ ast_print fmt_f n.fourth (d + 1)) := by
  obtain ⟨t, v, l, r, th, f, ch, k, cap, ln⟩ := n
  cases ch with
  | null => simp [ast_print, ast_print_node, ASTNode.uses_sequence, ast_print_guard]
  | ref ca arr =>
    by_cases hk : k > 0
    · simp [ast_print, ast_print_node, ASTNode.uses_sequence, hk, ast_print_loop_eq, ASTNode.seq]
    · simp [ast_print, ast_print_node, ASTNode.uses_sequence, hk, ast_print_guard]

theorem ast_print_slots (fmt_f : Nat → String) (l r th f : Ptr ASTNode) (d : Int) :
    ast_print fmt_f l d ++ ast_print fmt_f r d ++ ast_print fmt_f th d ++ ast_print fmt_f f d =
      (([l, r, th, f].filter Ptr.isNonNull).map (fun c => ast_print fmt_f c d)).flatten := by
  cases l <;> cases r <;> cases th <;> cases f <;> simp [ast_print, List.filter]

/-- C4 (print traversal order).  For every node and depth `d`, `ast_print`
writes the node's own header and then the output of `ast_print(child, d+1)`
for each of its children in order, where the children are the entries of the
child sequence in append order if the node uses the sequence (the array is
present and non-empty) and otherwise the non-null fixed slots in the order
first, second, third, fourth.  A node whose sequence is empty and whose slots
are all `NULL` (a fresh list) prints its header only, whichever way "uses the
sequence" is read.  An if-node prints condition, then-branch and else-branch
in that order, so the else-branch is its third child; a for-node with `NULL`
init, condition and update prints only its body. -/
theorem ast_print_traversal_order (fmt_f : Nat → String) (h : Heap) (a : Nat) (n : ASTNode)
    (d : Int) (c t e body : Ptr ASTNode) :
    ast_print fmt_f (.ref a n) d =
      ast_print_header fmt_f n d ::
        (n.traversal_children.map (fun x => ast_print fmt_f x (d + 1))).flatten ∧
    (n.seq = [] ∧ n.left = .null ∧ n.right = .null ∧ n.third = .null ∧ n.fourth = .null →
      ast_print fmt_f (.ref a n) d = [ast_print_header fmt_f n d]) ∧
    (∃ x, (ast_create_if_stmt h c t e).1.val? = some x ∧
      ast_print fmt_f (ast_create_if_stmt h c t e).1 d =
        ast_print_header fmt_f x d ::
          (ast_print fmt_f c (d + 1) ++ ast_print fmt_f t (d + 1) ++ ast_print fmt_f e (d + 1))) ∧
    (∃ x, (ast_create_for_stmt h .null .null .null body).1.val? = some x ∧
      ast_print fmt_f (ast_create_for_stmt h .null .null .null body).1 d =
        ast_print_header fmt_f x d :: ast_print fmt_f body (d + 1)) := by
  have main : ∀ (m : ASTNode), ast_print fmt_f (.ref a m) d =
      ast_print_header fmt_f m d ::
        (m.traversal_children.map (fun x => ast_print fmt_f x (d + 1))).flatten := by
    intro m
    rw [ast_print_unfold, ASTNode.traversal_children]
    split
    · rfl
    · rw [ast_print_slots]
  refine ⟨main n, ?_, ?_, ?_⟩
  · rintro ⟨hs, hl, hr, ht, hf⟩
    rw [main, ASTNode.traversal_children, hs, hl, hr, ht, hf]
    simp [List.filter]
  · refine ⟨_, rfl, ?_⟩
    show ast_print fmt_f (.ref h.next (.mk AST_IF_STMT .zero c t e .null .null 0 0 0)) d = _
    rw [ast_print_unfold]
    simp [ASTNode.uses_sequence, ast_print]
  · refine ⟨_, rfl, ?_⟩
    show ast_print fmt_f (.ref h.next (.mk AST_FOR_STMT .zero .null .null .null body .null 0 0 0))
      d = _
    rw [ast_print_unfold]
    simp [ASTNode.uses_sequence, ast_print]

/-- Instance of C4: a fresh block has an empty sequence and `NULL` slots and
prints its header only; the scenario `if (true) { return 1 } else { return 0 }`
prints the else-block as the third child of the if-node. -/
theorem ast_print_traversal_order_witness :
    ((ast_create_block Heap.empty).1 = .ref 0 empty_block ∧
      (empty_block.seq = [] ∧ empty_block.left = .null ∧ empty_block.right = .null ∧
        empty_block.third = .null ∧ empty_block.fourth = .null) ∧
      ast_print (fun _ => "") (.ref 0 empty_block) 0 = ["Block\n"]) ∧
    ast_print (fun _ => "") scenario_if_else.1 0 =
      ["IfStmt\n", "  BoolLiteral: true\n", "  Block\n", "    ReturnStmt\n",
       "      IntLiteral: 1\n", "  Block\n", "    ReturnStmt\n", "      IntLiteral: 0\n"] := by
  have hs : empty_block.seq = [] ∧ empty_block.left = .null ∧ empty_block.right = .null ∧
      empty_block.third = .null ∧ empty_block.fourth = .null := ⟨rfl, rfl, rfl, rfl, rfl⟩
  refine ⟨⟨rfl, hs, ?_⟩, by decide⟩
  rw [(ast_print_traversal_order (fun _ => "") Heap.empty 0 empty_block 0 .null .null .null
    .null).2.1 hs]
  decide

/-! ## C5: print header format -/

theorem join_replicate_two_spaces (d : Nat) :
    String.join (List.replicate d "  ") = spaces (2 * d) := by
  rw [String.join_eq]
  unfold spaces
  congr 1
  induction d with
  | zero => rfl
  | succ k ih =>
    rw [List.replicate_succ, List.map_cons, List.flatten_cons, ih]
    have : 2 * (k + 1) = (2 * k + 1) + 1 := by ring
    rw [this, List.replicate_succ, List.replicate_succ]
    rfl

theorem ast_print_info_string (fmt_f : Nat → String) (n : ASTNode)
    (ht : n.type ∈ string_tags) :
    ast_print_info fmt_f n =
      match n.value.get_string with
      | .ref _ s => ": " ++ s
      | .null => "" := by
  obtain ⟨t, v, l, r, th, f, ch, k, cap, ln⟩ := n
  simp only [ASTNode.type, string_tags, List.mem_cons, List.mem_singleton, List.not_mem_nil,
    or_false] at ht
  rcases ht with rfl | rfl | rfl | rfl | rfl | rfl | rfl | rfl <;> rfl

/-- C5, amended (print header format).  For every node and depth `d >= 0` the
header is `2*d` spaces, the tag's display name, the node-specific information
and a newline, where the information is `": "` and the text for the eight
string-carrying tags when the text is not `NULL` and empty when it is `NULL`,
`": "` and the decimal value for an int literal, `": true"` or `": false"` for
a bool literal, and empty for the tags without payload.  (Parameter nodes are
left out of the statement.)  The binary-op scenario prints `BinaryOp: +`,
`  Identifier: x`, `  IntLiteral: 5`. -/
theorem ast_print_header_format (fmt_f : Nat → String) (n : ASTNode) (d : Nat) :
    ast_print_header fmt_f n (d : Int) =
      spaces (2 * d) ++ ast_node_type_to_string n.type.code ++ ast_print_info fmt_f n ++ "\n" ∧
    (n.type ∈ string_tags → ∀ a s, n.value.get_string = .ref a s →
      ast_print_info fmt_f n = ": " ++ s) ∧
    (n.type ∈ string_tags → n.value.get_string = .null → ast_print_info fmt_f n = "") ∧
    (n.type = AST_INT_LITERAL → ast_print_info fmt_f n = ": " ++ toString n.value.get_int) ∧
    (n.type = AST_BOOL_LITERAL →
      ast_print_info fmt_f n = ": " ++ (if n.value.get_bool ≠ 0 then "true" else "false")) ∧
    (n.type ∈ no_payload_tags → ast_print_info fmt_f n = "") ∧
    ast_print fmt_f scenario_binary_op.1 0 =
      ["BinaryOp: +\n", "  Identifier: x\n", "  IntLiteral: 5\n"] := by
  refine ⟨?_, ?_, ?_, ?_, ?_, ?_, ?_⟩
  · unfold ast_print_header
    rw [Int.toNat_ofNat, join_replicate_two_spaces]
  · intro ht a s hs
    rw [ast_print_info_string fmt_f n ht, hs]
  · intro ht hs
    rw [ast_print_info_string fmt_f n ht, hs]
  · intro ht
    obtain ⟨t, v, l, r, th, f, ch, k, cap, ln⟩ := n
    simp only [ASTNode.type] at ht
    subst ht
    rfl
  · intro ht
    obtain ⟨t, v, l, r, th, f, ch, k, cap, ln⟩ := n
    simp only [ASTNode.type] at ht
    subst ht
    rfl
  · intro ht
    obtain ⟨t, v, l, r, th, f, ch, k, cap, ln⟩ := n
    simp only [ASTNode.type, no_payload_tags, List.mem_cons, List.mem_singleton,
      List.not_mem_nil, or_false] at ht
    rcases ht with rfl | rfl | rfl | rfl | rfl | rfl | rfl | rfl | rfl | rfl | rfl | rfl | rfl <;>
      rfl
  · rfl

/-- Instance of C5 (amended): an identifier `x` at depth 2. -/
theorem ast_print_header_format_witness :
    sample_identifier.type ∈ string_tags ∧
    sample_identifier.value.get_string = .ref 3 "x" ∧
    ast_print_header (fun _ => "") sample_identifier 2 = "    Identifier: x\n" := by
  have h1 : sample_identifier.type ∈ string_tags := by decide
  obtain ⟨e1, e2, _⟩ := ast_print_header_format (fun _ => "") sample_identifier 2
  refine ⟨h1, rfl, ?_⟩
  have e3 := e2 h1 3 "x" rfl
  have e1' : ast_print_header (fun _ => "") sample_identifier 2 = _ := e1
  rw [e1', e3]
  decide

/-- Counterexample to C5 as stated: the parameter `a int` stores the name `a`
in its payload, yet its header is `Parameter` and not `Parameter: a`; and an
identifier built with a `NULL` name prints `Identifier` with no `": "`. -/
theorem ast_print_header_omits_parameter_name :
    (∃ a n, scenario_parameter.1 = .ref a n ∧ n.type = AST_PARAMETER ∧
      n.value.get_string.val? = some "a" ∧
      ast_print_header (fun _ => "") n 0 = "Parameter\n" ∧
      ast_print_header (fun _ => "") n 0 ≠ "Parameter: a\n") ∧
    (∃ a n, scenario_no_name.1 = .ref a n ∧ n.type = AST_IDENTIFIER ∧
      ast_print_header (fun _ => "") n 0 = "Identifier\n") := by
  refine ⟨⟨_, _, rfl, rfl, rfl, by decide, by decide⟩, ⟨_, _, rfl, rfl, by decide⟩⟩

/-! ## C6: print totality -/

theorem shaped_cells_iff (arr : List (Ptr ASTNode)) :
    ∀ k : Nat, shaped_cells arr k ↔ ∀ x ∈ arr.take k, shaped x := by
  induction arr with
  | nil => intro k; simp [shaped_cells]
  | cons c cs ih =>
    intro k
    cases k with
    | zero => simp [shaped_cells]
    | succ k => simp [shaped_cells, ih k]

mutual
theorem ast_print_node_shaped (fmt_f : Nat → String) :
    ∀ (n : ASTNode) (d : Int), shaped_node n →
      ast_print_node fmt_f n d =
        (tree_nodes_node n d).map (fun x => ast_print_header fmt_f x.1 x.2)
  | .mk t v l r th f .null k cap ln, d, hs => by
    simp only [shaped_node] at hs
    obtain ⟨_, hl, hr, hth, hf⟩ := hs
    simp only [ast_print_node, ast_print_guard, tree_nodes_node, List.map_cons, List.map_append,
      List.append_nil, List.map_nil]
    rw [ast_print_shaped fmt_f l (d + 1) hl, ast_print_shaped fmt_f r (d + 1) hr,
      ast_print_shaped fmt_f th (d + 1) hth, ast_print_shaped fmt_f f (d + 1) hf]
  | .mk t v l r th f (.ref ca arr) k cap ln, d, hs => by
    simp only [shaped_node] at hs
    obtain ⟨_, hl, hr, hth, hf, _, _, _, hc⟩ := hs
    subst hl hr hth hf
    have hloop := ast_print_loop_shaped fmt_f arr k (d + 1) hc
    simp only [ast_print_node, ast_print_guard, tree_nodes_node, tree_nodes, ast_print,
      List.map_cons, List.map_append, List.append_nil, List.map_nil, List.nil_append]
    by_cases hk : k > 0
    · rw [if_pos hk, hloop]
    · have hk0 : k = 0 := by omega
      subst hk0
      rw [if_neg hk]
      cases arr <;> simp [tree_nodes_cells]
theorem ast_print_shaped (fmt_f : Nat → String) :
    ∀ (p : Ptr ASTNode) (d : Int), shaped p →
      ast_print fmt_f p d = (tree_nodes p d).map (fun x => ast_print_header fmt_f x.1 x.2)
  | .null, d, _ => by simp [ast_print, tree_nodes]
  | .ref a n, d, hs => by
    simp only [shaped] at hs
    simp only [ast_print, tree_nodes]
    exact ast_print_node_shaped fmt_f n d hs
theorem ast_print_loop_shaped (fmt_f : Nat → String) :
    ∀ (arr : List (Ptr ASTNode)) (k : Nat) (d : Int), shaped_cells arr k →
      ast_print_loop fmt_f arr k d =
        (tree_nodes_cells arr k d).map (fun x => ast_print_header fmt_f x.1 x.2)
  | [], k, d, _ => by simp [ast_print_loop, tree_nodes_cells]
  | c :: cs, 0, d, _ => by simp [ast_print_loop, tree_nodes_cells]
  | c :: cs, k + 1, d, hs => by
    simp only [shaped_cells] at hs
    simp only [ast_print_loop, tree_nodes_cells, List.map_append]
    rw [ast_print_shaped fmt_f c d hs.1, ast_print_loop_shaped fmt_f cs k d hs.2]
end

theorem shaped_add_child (h : Heap) (a : Nat) (l : ASTNode) (c : Ptr ASTNode)
    (hl : shaped_node l) (ht : l.type ∈ list_tags) (hc : shaped c) :
    shaped (ast_add_child h (.ref a l) c).1 := by
  cases c with
  | null => exact hl
  | ref ca cn =>
    rw [ast_add_child_ref h a l (.ref ca cn) rfl]
    obtain ⟨t, v, x1, x2, x3, x4, ch, k, cap, ln⟩ := l
    simp only [ASTNode.type_mk] at ht
    cases ch with
    | null =>
      simp only [shaped_node] at hl
      exact absurd ht hl.1
    | ref aa arr =>
      simp only [shaped_node] at hl
      obtain ⟨_, e1, e2, e3, e4, hlen, hle, hpos, hcells⟩ := hl
      subst e1 e2 e3 e4
      rw [shaped_cells_iff] at hcells
      by_cases hfull : k < cap
      · rw [add_child_node_not_full h t v _ _ _ _ aa arr k cap ln _ hfull]
        simp only [shaped, shaped_node]
        refine ⟨ht, trivial, trivial, trivial, trivial, by simpa using hlen, by omega, hpos, ?_⟩
        rw [shaped_cells_iff, take_set_succ arr k _ (by omega)]
        intro x hx
        rcases List.mem_append.1 hx with hx | hx
        · exact hcells x hx
        · rw [List.mem_singleton.1 hx]
          exact hc
      · have hk : k = cap := by omega
        subst hk
        rw [add_child_node_full]
        have htake : arr.take (k * 2) = arr := List.take_of_length_le (by omega)
        have hsub : k * 2 - arr.length = k := by omega
        rw [htake, hsub]
        simp only [shaped, shaped_node]
        refine ⟨ht, trivial, trivial, trivial, trivial, ?_, by omega, by omega, ?_⟩
        · simp [hlen]; omega
        · rw [shaped_cells_iff, take_set_succ _ k _ (by simp [hlen]; omega),
            List.take_append_of_le_length (by omega)]
          intro x hx
          rcases List.mem_append.1 hx with hx | hx
          · exact hcells x hx
          · rw [List.mem_singleton.1 hx]
            exact hc

theorem built_shaped (p : Ptr ASTNode) (hb : Built p) : shaped p := by
  induction hb with
  | absent => trivial
  | program h p d _ _ ih1 ih2 =>
    simp [ast_create_program, ast_create_node, malloc, shaped, shaped_node, list_tags, ih1, ih2]
  | package_decl h name =>
    simp [ast_create_package_decl, ast_create_node, malloc, shaped, shaped_node, list_tags]
  | function_decl h name p b _ _ ih1 ih2 =>
    simp [ast_create_function_decl, ast_create_node, malloc, shaped, shaped_node, list_tags,
      ih1, ih2]
  | parameter h name type =>
    cases type <;>
      simp [ast_create_parameter, ast_create_identifier, ast_create_node, malloc, shaped,
        shaped_node, list_tags]
  | parameter_list h =>
    simp [ast_create_parameter_list, ast_create_node, malloc, shaped, shaped_node, list_tags,
      shaped_cells, List.replicate]
  | block h =>
    simp [ast_create_block, ast_create_node, malloc, shaped, shaped_node, list_tags,
      shaped_cells, List.replicate]
  | var_decl h name type e _ ih =>
    cases type <;>
      simp [ast_create_var_decl, ast_create_identifier, ast_create_node, malloc, shaped,
        shaped_node, list_tags, ih]
  | assignment h name e _ ih =>
    simp [ast_create_assignment, ast_create_identifier, ast_create_node, malloc, shaped,
      shaped_node, list_tags, ih]
  | decl_assignment h name e _ ih =>
    simp [ast_create_decl_assignment, ast_create_identifier, ast_create_node, malloc, shaped,
      shaped_node, list_tags, ih]
  | if_stmt h c t e _ _ _ ih1 ih2 ih3 =>
    simp [ast_create_if_stmt, ast_create_node, malloc, shaped, shaped_node, list_tags, ih1, ih2,
      ih3]
  | for_stmt h i c u b _ _ _ _ ih1 ih2 ih3 ih4 =>
    simp [ast_create_for_stmt, ast_create_node, malloc, shaped, shaped_node, list_tags, ih1, ih2,
      ih3, ih4]
  | return_stmt h e _ ih =>
    simp [ast_create_return_stmt, ast_create_node, malloc, shaped, shaped_node, list_tags, ih]
  | break_stmt h =>
    simp [ast_create_break_stmt, ast_create_node, malloc, shaped, shaped_node, list_tags]
  | continue_stmt h =>
    simp [ast_create_continue_stmt, ast_create_node, malloc, shaped, shaped_node, list_tags]
  | expr_stmt h e _ ih =>
    simp [ast_create_expr_stmt, ast_create_node, malloc, shaped, shaped_node, list_tags, ih]
  | binary_op h op l r _ _ ih1 ih2 =>
    simp [ast_create_binary_op, ast_create_node, malloc, shaped, shaped_node, list_tags, ih1,
      ih2]
  | unary_op h op e _ ih =>
    simp [ast_create_unary_op, ast_create_node, malloc, shaped, shaped_node, list_tags, ih]
  | function_call h name args _ ih =>
    simp [ast_create_function_call, ast_create_node, malloc, shaped, shaped_node, list_tags, ih]
  | identifier h name =>
    simp [ast_create_identifier, ast_create_node, malloc, shaped, shaped_node, list_tags]
  | int_literal h v =>
    simp [ast_create_int_literal, ast_create_node, malloc, shaped, shaped_node, list_tags]
  | float_literal h bits =>
    simp [ast_create_float_literal, ast_create_node, malloc, shaped, shaped_node, list_tags]
  | string_literal h s =>
    simp [ast_create_string_literal, ast_create_node, malloc, shaped, shaped_node, list_tags]
  | bool_literal h v =>
    simp [ast_create_bool_literal, ast_create_node, malloc, shaped, shaped_node, list_tags]
  | nil_literal h =>
    simp [ast_create_nil_literal, ast_create_node, malloc, shaped, shaped_node, list_tags]
  | arg_list h =>
    simp [ast_create_arg_list, ast_create_node, malloc, shaped, shaped_node, list_tags,
      shaped_cells, List.replicate]
  | add_child h a l c _ ht _ ih1 ih2 =>
    exact shaped_add_child h a l c ih1 ht ih2

mutual
theorem tree_nodes_node_length (d e : Int) :
    ∀ n : ASTNode, (tree_nodes_node n d).length = (tree_nodes_node n e).length
  | .mk t v l r th f .null k cap ln => by
    simp only [tree_nodes_node, List.length_cons, List.length_append, List.length_nil]
    rw [tree_nodes_length (d + 1) (e + 1) l, tree_nodes_length (d + 1) (e + 1) r,
      tree_nodes_length (d + 1) (e + 1) th, tree_nodes_length (d + 1) (e + 1) f]
  | .mk t v l r th f (.ref ca arr) k cap ln => by
    simp only [tree_nodes_node, List.length_cons, List.length_append]
    rw [tree_nodes_length (d + 1) (e + 1) l, tree_nodes_length (d + 1) (e + 1) r,
      tree_nodes_length (d + 1) (e + 1) th, tree_nodes_length (d + 1) (e + 1) f,
      tree_nodes_cells_length (d + 1) (e + 1) arr k]
theorem tree_nodes_length (d e : Int) :
    ∀ p : Ptr ASTNode, (tree_nodes p d).length = (tree_nodes p e).length
  | .null => by simp [tree_nodes]
  | .ref a n => by
    simp only [tree_nodes]
    exact tree_nodes_node_length d e n
theorem tree_nodes_cells_length (d e : Int) :
    ∀ (arr : List (Ptr ASTNode)) (k : Nat),
      (tree_nodes_cells arr k d).length = (tree_nodes_cells arr k e).length
  | [], k => by simp [tree_nodes_cells]
  | c :: cs, 0 => by simp [tree_nodes_cells]
  | c :: cs, k + 1 => by
    simp only [tree_nodes_cells, List.length_append]
    rw [tree_nodes_length d e c, tree_nodes_cells_length d e cs k]
end

/-- C6 (print totality).  `ast_print` is a total function, and for every tree
built from the constructors and from appends to list nodes the headers it
writes are exactly the headers of the nodes of the tree, one per node, in
preorder and at the node's depth; in particular the number of headers equals
the number of nodes. -/
theorem ast_print_totality (fmt_f : Nat → String) (p : Ptr ASTNode) (d : Int)
    (hb : Built p) :
    ast_print fmt_f p d = (tree_nodes p d).map (fun x => ast_print_header fmt_f x.1 x.2) ∧
    (ast_print fmt_f p d).length = node_count p := by
  have hs := built_shaped p hb
  have hp := ast_print_shaped fmt_f p d hs
  refine ⟨hp, ?_⟩
  rw [hp, List.length_map, node_count]
  exact tree_nodes_length d 0 p

/-- Instance of C6: a single leaf, a list node with an empty child sequence,
and the if-else scenario (8 nodes) are built trees and print one header per
node. -/
theorem ast_print_totality_witness :
    (Built (ast_create_identifier Heap.empty (.ref 1 "x")).1 ∧
      (ast_print (fun _ => "") (ast_create_identifier Heap.empty (.ref 1 "x")).1 0).length
        = 1) ∧
    (Built (ast_create_block Heap.empty).1 ∧
      (ast_print (fun _ => "") (ast_create_block Heap.empty).1 0).length = 1) ∧
    (Built scenario_if_else.1 ∧
      (ast_print (fun _ => "") scenario_if_else.1 0).length = 8) := by
  have b1 : Built (ast_create_identifier Heap.empty (.ref 1 "x")).1 := Built.identifier _ _
  have b2 : Built (ast_create_block Heap.empty).1 := Built.block _
  have b3 : Built scenario_if_else.1 :=
    Built.if_stmt _ _ _ _ (Built.bool_literal _ _)
      (Built.add_child _ _ _ _ (Built.block _) (by decide)
        (Built.return_stmt _ _ (Built.int_literal _ _)))
      (Built.add_child _ _ _ _ (Built.block _) (by decide)
        (Built.return_stmt _ _ (Built.int_literal _ _)))
  refine ⟨⟨b1, ?_⟩, ⟨b2, ?_⟩, ⟨b3, ?_⟩⟩
  · rw [(ast_print_totality (fun _ => "") _ 0 b1).2]
    decide
  · rw [(ast_print_totality (fun _ => "") _ 0 b2).2]
    decide
  · rw [(ast_print_totality (fun _ => "") _ 0 b3).2]
    decide

/-! ## C7: release of the payload text -/

/-- C7 (payload release).  The payload switch of `ast_free`, which runs first
in `ast_free`, releases the text exactly when the tag is one of the eight
string-carrying tags and the text is not `NULL`, and then releases precisely
that block; for every other tag the allocation table is left as it is,
whatever the payload holds. -/
theorem ast_free_payload_release (h : Heap) (n : ASTNode) :
    (n.type ∈ string_tags → ∀ a s, n.value.get_string = .ref a s →
      ast_free_value h n = free_addr h a) ∧
    (n.type ∈ string_tags → n.value.get_string = .null → ast_free_value h n = h) ∧
    (n.type ∉ string_tags → ast_free_value h n = h) ∧
    (ast_free_value h n ≠ h ↔
      n.type ∈ string_tags ∧ n.value.get_string.isNonNull = true) ∧
    (∀ a, ast_free (.ref a n) h =
      free_addr
        (match n.children with
         | .ref ca arr => free_addr (ast_free_loop arr n.child_count (ast_free_value h n)) ca
         | .null =>
           ast_free n.fourth (ast_free n.third (ast_free n.right (ast_free n.left
             (ast_free_value h n))))) a) := by
  refine ⟨?_, ?_, ast_free_value_other h n, ?_, fun a => ast_free_unfold h a n⟩
  · intro ht a s hs
    rw [ast_free_value_string h n ht, hs]
    rfl
  · intro ht hs
    rw [ast_free_value_string h n ht, hs]
    rfl
  · by_cases ht : n.type ∈ string_tags
    · rw [ast_free_value_string h n ht]
      cases hp : n.value.get_string with
      | null =>
        constructor
        · intro hne
          exact absurd rfl hne
        · rintro ⟨_, hfalse⟩
          cases hfalse
      | ref a s =>
        constructor
        · intro _
          exact ⟨ht, rfl⟩
        · intro _
          exact free_addr_ne h a
    · rw [ast_free_value_other h n ht]
      constructor
      · intro hne
        exact absurd rfl hne
      · rintro ⟨ht2, _⟩
        exact absurd ht2 ht

/-- Instance of C7: for an identifier whose text is the live block 3 the block
is released; for an int literal with payload 3 nothing is released. -/
theorem ast_free_payload_release_witness :
    (sample_identifier.type ∈ string_tags ∧
      sample_identifier.value.get_string = .ref 3 "x" ∧
      ast_free_value ⟨4, [3, 2], []⟩ sample_identifier = ⟨4, [2], []⟩) ∧
    (sample_int.type ∉ string_tags ∧
      ast_free_value ⟨4, [3, 2], []⟩ sample_int = ⟨4, [3, 2], []⟩) := by
  have h1 : sample_identifier.type ∈ string_tags := by decide
  have h2 : sample_int.type ∉ string_tags := by decide
  refine ⟨⟨h1, rfl, ?_⟩, h2, ?_⟩
  · rw [(ast_free_payload_release ⟨4, [3, 2], []⟩ sample_identifier).1 h1 3 "x" rfl]
    decide
  · exact (ast_free_payload_release ⟨4, [3, 2], []⟩ sample_int).2.2.1 h2

/-! ## C8: absent inputs -/

/-- C8 (absent inputs are no-ops).  `ast_add_child(p, NULL)` returns the parent
and the allocation table unchanged, for every `p`; `ast_add_child(NULL, c)`
changes nothing; `ast_print(NULL, d)` writes nothing; `ast_free(NULL)` leaves
the allocation table unchanged. -/
theorem absent_inputs_are_no_ops (fmt_f : Nat → String) (h : Heap) (p c : Ptr ASTNode)
    (d : Int) :
    ast_add_child h p .null = (p, h) ∧
    ast_add_child h .null c = (.null, h) ∧
    ast_print fmt_f .null d = [] ∧
    ast_print_output fmt_f .null d = "" ∧
    ast_free .null h = h := by
  refine ⟨?_, ?_, ?_, ?_, ?_⟩
  · cases p <;> rfl
  · cases c <;> rfl
  · simp [ast_print]
  · simp [ast_print_output, ast_print]; rfl
  · simp [ast_free]

/-! ## Lemmas on the frame of an append and on constructed nodes -/

theorem add_child_node_no_array (h : Heap) (t v l r th f) (n cap : Nat) (ln)
    (c : Ptr ASTNode) :
    ast_add_child_node h (.mk t v l r th f .null n cap ln) c =
      (.mk t v l r th f (.ref h.next [c, .null, .null, .null]) 1 4 ln,
        (malloc h (List.replicate 4 (Ptr.null : Ptr ASTNode))).2) := by
  simp [ast_add_child_node, malloc, List.replicate]

theorem add_child_node_frame (h : Heap) (p : ASTNode) (c : Ptr ASTNode) :
    (ast_add_child_node h p c).1.type = p.type ∧
    (ast_add_child_node h p c).1.value = p.value ∧
    (ast_add_child_node h p c).1.line_number = p.line_number ∧
    (ast_add_child_node h p c).1.left = p.left ∧
    (ast_add_child_node h p c).1.right = p.right ∧
    (ast_add_child_node h p c).1.third = p.third ∧
    (ast_add_child_node h p c).1.fourth = p.fourth := by
  obtain ⟨t, v, l, r, th, f, ch, n, cap, ln⟩ := p
  cases ch with
  | null =>
    rw [add_child_node_no_array]
    exact ⟨rfl, rfl, rfl, rfl, rfl, rfl, rfl⟩
  | ref a arr =>
    by_cases hfull : n ≥ cap
    · simp [ast_add_child_node, hfull, realloc, malloc]
    · simp [ast_add_child_node, hfull]

theorem seq_length_of_ok (p : ASTNode) (hok : p.seq_ok) : p.seq.length = p.child_count := by
  obtain ⟨t, v, l, r, th, f, ch, n, cap, ln⟩ := p
  obtain ⟨a, arr, hch, hlen, hle, _⟩ := hok
  simp only [ASTNode.children, ASTNode.child_count, ASTNode.child_capacity] at hch hlen hle
  subst hch
  show (arr.take n).length = n
  rw [List.length_take]
  omega

theorem constructed_bounds_ok (h : Heap) (t : ASTNodeType) (name type : Ptr String)
    (p q r s : Ptr ASTNode) (v : Int) (bits : Nat) :
    (ast_create_node h t).1.sat ASTNode.bounds_ok ∧
    (ast_create_program h p q).1.sat ASTNode.bounds_ok ∧
    (ast_create_package_decl h name).1.sat ASTNode.bounds_ok ∧
    (ast_create_function_decl h name p q).1.sat ASTNode.bounds_ok ∧
    (ast_create_parameter h name type).1.sat ASTNode.bounds_ok ∧
    (ast_create_parameter_list h).1.sat ASTNode.bounds_ok ∧
    (ast_create_block h).1.sat ASTNode.bounds_ok ∧
    (ast_create_var_decl h name type p).1.sat ASTNode.bounds_ok ∧
    (ast_create_assignment h name p).1.sat ASTNode.bounds_ok ∧
    (ast_create_decl_assignment h name p).1.sat ASTNode.bounds_ok ∧
    (ast_create_if_stmt h p q r).1.sat ASTNode.bounds_ok ∧
    (ast_create_for_stmt h p q r s).1.sat ASTNode.bounds_ok ∧
    (ast_create_return_stmt h p).1.sat ASTNode.bounds_ok ∧
    (ast_create_break_stmt h).1.sat ASTNode.bounds_ok ∧
    (ast_create_continue_stmt h).1.sat ASTNode.bounds_ok ∧
    (ast_create_expr_stmt h p).1.sat ASTNode.bounds_ok ∧
    (ast_create_binary_op h name p q).1.sat ASTNode.bounds_ok ∧
    (ast_create_unary_op h name p).1.sat ASTNode.bounds_ok ∧
    (ast_create_function_call h name p).1.sat ASTNode.bounds_ok ∧
    (ast_create_identifier h name).1.sat ASTNode.bounds_ok ∧
    (ast_create_int_literal h v).1.sat ASTNode.bounds_ok ∧
    (ast_create_float_literal h bits).1.sat ASTNode.bounds_ok ∧
    (ast_create_string_literal h name).1.sat ASTNode.bounds_ok ∧
    (ast_create_bool_literal h v).1.sat ASTNode.bounds_ok ∧
    (ast_create_nil_literal h).1.sat ASTNode.bounds_ok ∧
    (ast_create_arg_list h).1.sat ASTNode.bounds_ok := by
  have hl := seq_ok_create_list h
  obtain ⟨⟨a1, n1, e1, k1, _⟩, ⟨a2, n2, e2, k2, _⟩, ⟨a3, n3, e3, k3, _⟩⟩ := hl
  refine ⟨⟨_, _, rfl, Or.inl ⟨rfl, rfl, rfl⟩⟩, ⟨_, _, rfl, Or.inl ⟨rfl, rfl, rfl⟩⟩,
    ⟨_, _, rfl, Or.inl ⟨rfl, rfl, rfl⟩⟩, ⟨_, _, rfl, Or.inl ⟨rfl, rfl, rfl⟩⟩, ?_,
    ⟨a1, n1, e1, Or.inr k1⟩, ⟨a3, n3, e3, Or.inr k3⟩, ?_,
    ⟨_, _, rfl, Or.inl ⟨rfl, rfl, rfl⟩⟩, ⟨_, _, rfl, Or.inl ⟨rfl, rfl, rfl⟩⟩,
    ⟨_, _, rfl, Or.inl ⟨rfl, rfl, rfl⟩⟩, ⟨_, _, rfl, Or.inl ⟨rfl, rfl, rfl⟩⟩,
    ⟨_, _, rfl, Or.inl ⟨rfl, rfl, rfl⟩⟩, ⟨_, _, rfl, Or.inl ⟨rfl, rfl, rfl⟩⟩,
    ⟨_, _, rfl, Or.inl ⟨rfl, rfl, rfl⟩⟩, ⟨_, _, rfl, Or.inl ⟨rfl, rfl, rfl⟩⟩,
    ⟨_, _, rfl, Or.inl ⟨rfl, rfl, rfl⟩⟩, ⟨_, _, rfl, Or.inl ⟨rfl, rfl, rfl⟩⟩,
    ⟨_, _, rfl, Or.inl ⟨rfl, rfl, rfl⟩⟩, ⟨_, _, rfl, Or.inl ⟨rfl, rfl, rfl⟩⟩,
    ⟨_, _, rfl, Or.inl ⟨rfl, rfl, rfl⟩⟩, ⟨_, _, rfl, Or.inl ⟨rfl, rfl, rfl⟩⟩,
    ⟨_, _, rfl, Or.inl ⟨rfl, rfl, rfl⟩⟩, ⟨_, _, rfl, Or.inl ⟨rfl, rfl, rfl⟩⟩,
    ⟨_, _, rfl, Or.inl ⟨rfl, rfl, rfl⟩⟩, ⟨a2, n2, e2, Or.inr k2⟩⟩
  · cases type with
    | null => exact ⟨_, _, rfl, Or.inl ⟨rfl, rfl, rfl⟩⟩
    | ref a2 s2 => exact ⟨_, _, rfl, Or.inl ⟨rfl, rfl, rfl⟩⟩
  · cases type with
    | null => exact ⟨_, _, rfl, Or.inl ⟨rfl, rfl, rfl⟩⟩
    | ref a2 s2 => exact ⟨_, _, rfl, Or.inl ⟨rfl, rfl, rfl⟩⟩

/-! ## C10: tag/field exclusivity after construction -/

/-- C10 (tag/field exclusivity).  `ast_create_node(t)` returns, at a fresh
address, the record with tag `t`, zeroed payload, four `NULL` slots, no child
array, count 0, capacity 0 and line number 0.  Every other constructor returns
that record changed only in the fields of its form: the payload for the forms
carrying a name, operator or literal; the slots the form uses (none for
identifier, literals, package, break, continue, nil); and, for the three list
forms only, the child array with capacity 4 (parameter and argument list) or 8
(block), still with count 0, zero payload and four `NULL` slots. -/
theorem tag_field_exclusivity (h : Heap) (t : ASTNodeType) (name type : Ptr String)
    (p q r s : Ptr ASTNode) (v : Int) (bits : Nat) :
    (ast_create_node h t).1 = .ref h.next (.mk t .zero .null .null .null .null .null 0 0 0) ∧
    (ast_create_program h p q).1 =
      .ref h.next (.mk AST_PROGRAM .zero p q .null .null .null 0 0 0) ∧
    (∃ x, (ast_create_package_decl h name).1 =
      .ref h.next (.mk AST_PACKAGE_DECL (.string_value x) .null .null .null .null .null 0 0 0)) ∧
    (∃ x, (ast_create_function_decl h name p q).1 =
      .ref h.next (.mk AST_FUNCTION_DECL (.string_value x) p q .null .null .null 0 0 0)) ∧
    (∃ x l, (ast_create_parameter h name type).1 =
      .ref h.next (.mk AST_PARAMETER (.string_value x) l .null .null .null .null 0 0 0)) ∧
    (ast_create_parameter_list h).1 =
      .ref h.next (.mk AST_PARAMETER_LIST .zero .null .null .null .null
        (.ref (h.next + 1) (List.replicate 4 .null)) 0 4 0) ∧
    (ast_create_block h).1 =
      .ref h.next (.mk AST_BLOCK .zero .null .null .null .null
        (.ref (h.next + 1) (List.replicate 8 .null)) 0 8 0) ∧
    (∃ x y, (ast_create_var_decl h name type p).1 =
      .ref h.next (.mk AST_VAR_DECL (.string_value x) p y .null .null .null 0 0 0)) ∧
    (∃ l, (ast_create_assignment h name p).1 =
      .ref h.next (.mk AST_ASSIGNMENT .zero l p .null .null .null 0 0 0)) ∧
    (∃ l, (ast_create_decl_assignment h name p).1 =
      .ref h.next (.mk AST_DECL_ASSIGNMENT .zero l p .null .null .null 0 0 0)) ∧
    (ast_create_if_stmt h p q r).1 =
      .ref h.next (.mk AST_IF_STMT .zero p q r .null .null 0 0 0) ∧
    (ast_create_for_stmt h p q r s).1 =
      .ref h.next (.mk AST_FOR_STMT .zero p q r s .null 0 0 0) ∧
    (ast_create_return_stmt h p).1 =
      .ref h.next (.mk AST_RETURN_STMT .zero p .null .null .null .null 0 0 0) ∧
    (ast_create_break_stmt h).1 =
      .ref h.next (.mk AST_BREAK_STMT .zero .null .null .null .null .null 0 0 0) ∧
    (ast_create_continue_stmt h).1 =
      .ref h.next (.mk AST_CONTINUE_STMT .zero .null .null .null .null .null 0 0 0) ∧
    (ast_create_expr_stmt h p).1 =
      .ref h.next (.mk AST_EXPR_STMT .zero p .null .null .null .null 0 0 0) ∧
    (∃ x, (ast_create_binary_op h name p q).1 =
      .ref h.next (.mk AST_BINARY_OP (.string_value x) p q .null .null .null 0 0 0)) ∧
    (∃ x, (ast_create_unary_op h name p).1 =
      .ref h.next (.mk AST_UNARY_OP (.string_value x) p .null .null .null .null 0 0 0)) ∧
    (∃ x, (ast_create_function_call h name p).1 =
      .ref h.next (.mk AST_FUNCTION_CALL (.string_value x) p .null .null .null .null 0 0 0)) ∧
    (∃ x, (ast_create_identifier h name).1 =
      .ref h.next (.mk AST_IDENTIFIER (.string_value x) .null .null .null .null .null 0 0 0)) ∧
    (∃ x, (ast_create_int_literal h v).1 =
      .ref h.next (.mk AST_INT_LITERAL (.int_value x) .null .null .null .null .null 0 0 0)) ∧
    (∃ x, (ast_create_float_literal h bits).1 =
      .ref h.next (.mk AST_FLOAT_LITERAL (.float_value x) .null .null .null .null .null 0 0 0)) ∧
    (∃ x, (ast_create_string_literal h name).1 =
      .ref h.next (.mk AST_STRING_LITERAL (.string_value x) .null .null .null .null .null 0 0 0)) ∧
    (∃ x, (ast_create_bool_literal h v).1 =
      .ref h.next (.mk AST_BOOL_LITERAL (.bool_value x) .null .null .null .null .null 0 0 0)) ∧
    (ast_create_nil_literal h).1 =
      .ref h.next (.mk AST_NIL_LITERAL .zero .null .null .null .null .null 0 0 0) ∧
    (ast_create_arg_list h).1 =
      .ref h.next (.mk AST_ARG_LIST .zero .null .null .null .null
        (.ref (h.next + 1) (List.replicate 4 .null)) 0 4 0) := by
  refine ⟨rfl, rfl, ⟨_, rfl⟩, ⟨_, rfl⟩, ?_, rfl, rfl, ?_, ⟨_, rfl⟩, ⟨_, rfl⟩, rfl, rfl, rfl, rfl,
    rfl, rfl, ⟨_, rfl⟩, ⟨_, rfl⟩, ⟨_, rfl⟩, ⟨_, rfl⟩, ⟨_, rfl⟩, ⟨_, rfl⟩, ⟨_, rfl⟩, ⟨_, rfl⟩,
    rfl, rfl⟩
  · cases type with
    | null => exact ⟨_, _, rfl⟩
    | ref a2 s2 => exact ⟨_, _, rfl⟩
  · cases type with
    | null => exact ⟨_, _, rfl⟩
    | ref a2 s2 => exact ⟨_, _, rfl⟩

/-! ## C11: bare type names -/

theorem strdup_next_le (h : Heap) (t : ASTNodeType) (name : Ptr String) :
    h.next ≤ (custom_strdup (ast_create_node h t).2 name).2.next := by
  cases name with
  | null => exact Nat.le_succ _
  | ref a s => exact Nat.le_add_right _ 2

/-- C11 (bare type names are wrapped).  For every name and every non-null type
text `ts`, `ast_create_parameter` stores in `left` an identifier node whose
text is a copy of `ts` and which has no children of either kind, and
`ast_create_var_decl` stores such a node in `right` and the initialiser in
`left`; with a `NULL` type the slot stays `NULL`; in all four cases the node's
own payload is the copy of the name. -/
theorem type_names_are_wrapped (h : Heap) (name : Ptr String) (ta : Nat) (ts : String)
    (init : Ptr ASTNode) :
    (ast_create_parameter h name (.ref ta ts)).1.sat (fun n =>
      n.left.sat (identifier_of h (.ref ta ts)) ∧
      n.left.sat (fun i => i.value.get_string.val? = some ts ∧ i.child_count = 0) ∧
      text_copy h name n.value.get_string) ∧
    (ast_create_var_decl h name (.ref ta ts) init).1.sat (fun n =>
      n.right.sat (identifier_of h (.ref ta ts)) ∧
      n.right.sat (fun i => i.value.get_string.val? = some ts ∧ i.child_count = 0) ∧
      n.left = init ∧ text_copy h name n.value.get_string) ∧
    (ast_create_parameter h name .null).1.sat (fun n =>
      n.left = .null ∧ text_copy h name n.value.get_string) ∧
    (ast_create_var_decl h name .null init).1.sat (fun n =>
      n.right = .null ∧ n.left = init ∧ text_copy h name n.value.get_string) := by
  have hs : text_copy h name (custom_strdup (ast_create_node h AST_PROGRAM).2 name).1 :=
    text_copy_strdup _ h name (Nat.le_succ _)
  have hid : ∀ k : Heap, h.next ≤ k.next →
      identifier_of h (.ref ta ts)
        (.mk AST_IDENTIFIER (.string_value (.ref (k.next + 1) ts)) .null .null .null .null .null
          0 0 0) := by
    intro k hk
    exact ⟨rfl, ⟨_, rfl, by omega⟩, rfl, rfl, rfl, rfl, rfl⟩
  refine ⟨⟨_, _, rfl, ⟨_, _, rfl, ?_⟩, ⟨_, _, rfl, rfl, rfl⟩, hs⟩,
    ⟨_, _, rfl, ⟨_, _, rfl, ?_⟩, ⟨_, _, rfl, rfl, rfl⟩, rfl, hs⟩,
    ⟨_, _, rfl, rfl, hs⟩, ⟨_, _, rfl, rfl, rfl, hs⟩⟩
  · exact hid (custom_strdup (ast_create_node h AST_PARAMETER).2 name).2 (strdup_next_le h _ name)
  · exact hid (custom_strdup (ast_create_node h AST_VAR_DECL).2 name).2 (strdup_next_le h _ name)


/-! ## C14: the display-name table -/

/-- C14 (total and exhaustive).  For every declared tag `t`,
`ast_node_type_to_string` returns the display name listed for `t` and not the
fallback `Unknown`; the tags have the numeric values 0 to 24, and the fallback
is returned exactly for the values from 25 on, i.e. exactly for the values
that are the value of no declared tag. -/
theorem ast_node_type_to_string_exhaustive (t : ASTNodeType) (c : Nat) :
    ast_node_type_to_string t.code = display_name t ∧
    ast_node_type_to_string t.code ≠ "Unknown" ∧
    t.code < 25 ∧
    (ast_node_type_to_string c = "Unknown" ↔ 25 ≤ c) ∧
    (ast_node_type_to_string c = "Unknown" ↔ ∀ u : ASTNodeType, u.code ≠ c) := by
  have hlt : ∀ u : ASTNodeType, u.code < 25 := by
    intro u
    cases u <;> decide
  have hname : ∀ u : ASTNodeType, ast_node_type_to_string u.code ≠ "Unknown" := by
    intro u
    cases u <;> decide
  have hbig : ∀ k : Nat, 25 ≤ k → ast_node_type_to_string k = "Unknown" := by
    intro k hk
    obtain ⟨j, rfl⟩ := Nat.exists_eq_add_of_le hk
    rw [Nat.add_comm]
    rfl
  have hsmall : ∀ k : Nat, k < 25 → ∃ u : ASTNodeType, u.code = k := by
    intro k hk
    have : k ∈ all_tags.map ASTNodeType.code := by
      have : all_tags.map ASTNodeType.code = List.range 25 := by decide
      rw [this]
      exact List.mem_range.2 hk
    obtain ⟨u, _, hu⟩ := List.mem_map.1 this
    exact ⟨u, hu⟩
  refine ⟨by cases t <;> rfl, hname t, hlt t, ?_, ?_⟩
  · constructor
    · intro hc
      by_contra hlt25
      obtain ⟨u, hu⟩ := hsmall c (by omega)
      exact hname u (hu ▸ hc)
    · exact hbig c
  · constructor
    · intro hc u hu
      exact hname u (hu ▸ hc)
    · intro hall
      apply hbig
      by_contra hlt25
      obtain ⟨u, hu⟩ := hsmall c (by omega)
      exact hall u hu



theorem int_literal_payload_is_int (fmt_f : Nat → String) (h : Heap) (v : Int) (d : Nat)
    (hv : in_int_range v) :
    (ast_create_int_literal h v).1.sat (fun n =>
      n.type = AST_INT_LITERAL ∧ n.value.get_int = v ∧
      ast_print_header fmt_f n (d : Int) =
        spaces (2 * d) ++ "IntLiteral" ++ (": " ++ toString v) ++ "\n" ∧
      ast_print fmt_f (ast_create_int_literal h v).1 (d : Int) =
        [spaces (2 * d) ++ "IntLiteral" ++ (": " ++ toString v) ++ "\n"]) := by
  refine ⟨_, _, rfl, rfl, to_int_of_range v hv, ?_, ?_⟩
  · unfold ast_print_header
    rw [Int.toNat_ofNat, join_replicate_two_spaces]
    simp only [ASTNode.set_value_mk, ASTNode.type_mk, ast_print_info, ASTNode.value_mk,
      ASTValue.get_int, to_int_of_range v hv]
    rfl
  · show ast_print fmt_f (.ref h.next (.mk AST_INT_LITERAL (.int_value (to_int v)) .null .null
      .null .null .null 0 0 0)) (d : Int) = _
    rw [ast_print_unfold]
    simp only [ASTNode.uses_sequence, ASTNode.children_mk, Ptr.isNonNull_null, Bool.false_and,
      ASTNode.left_mk, ASTNode.right_mk, ASTNode.third_mk, ASTNode.fourth_mk, ast_print,
      List.append_nil]
    unfold ast_print_header
    rw [Int.toNat_ofNat, join_replicate_two_spaces]
    simp only [ASTNode.type_mk, ast_print_info, ASTNode.value_mk,
      ASTValue.get_int, to_int_of_range v hv]
    rfl

/-- Instance of C15 (amended): the literal -42 at depth 1. -/
theorem int_literal_payload_is_int_witness :
    in_int_range (-42) ∧
    (ast_create_int_literal Heap.empty (-42)).1.sat (fun n => n.value.get_int = -42) ∧
    ast_print (fun _ => "") (ast_create_int_literal Heap.empty (-42)).1 1 =
      ["  IntLiteral: -42\n"] := by
  have hr : in_int_range (-42) := by unfold in_int_range; omega
  obtain ⟨a, n, e, _, e2, _, e4⟩ := int_literal_payload_is_int (fun _ => "") Heap.empty (-42) 1 hr
  refine ⟨hr, ⟨a, n, e, e2⟩, ?_⟩
  have e4' : ast_print (fun _ => "") (ast_create_int_literal Heap.empty (-42)).1 1 = _ := e4
  rw [e4']
  decide

/-- Counterexample to C15 as stated: `2^31` is in the signed 64-bit range, but
the parameter of `ast_create_int_literal` and the member `int_value` are C
`int`s; the node built for `2^31` reads back `-2147483648` and is printed as
such. -/
theorem int_literal_payload_not_64_bit :
    in_int64_range (2 ^ 31) ∧
    ∃ a n, (ast_create_int_literal Heap.empty (2 ^ 31)).1 = .ref a n ∧
      n.value.get_int = -2147483648 ∧ n.value.get_int ≠ 2 ^ 31 ∧
      ast_print (fun _ => "") (ast_create_int_literal Heap.empty (2 ^ 31)).1 0 =
        ["IntLiteral: -2147483648\n"] := by
  refine ⟨by unfold in_int64_range; omega, _, _, rfl, by decide, by decide, by decide⟩

/-! ## C16: capacity growth -/

theorem seq_ok_mk (t v l r th f) (a : Nat) (arr : List (Ptr ASTNode)) (n cap : Nat) (ln)
    (hlen : arr.length = cap) (hle : n ≤ cap) (hpos : 0 < cap) :
    (ASTNode.mk t v l r th f (.ref a arr) n cap ln).seq_ok :=
  ⟨a, arr, rfl, hlen, hle, hpos⟩

theorem add_child_node_capacity (h : Heap) (p : ASTNode) (c : Ptr ASTNode) (hok : p.seq_ok) :
    (ast_add_child_node h p c).1.child_capacity =
      if p.child_count = p.child_capacity then 2 * p.child_capacity else p.child_capacity := by
  obtain ⟨t, v, l, r, th, f, ch, n, cap, ln⟩ := p
  obtain ⟨a, arr, hch, hlen, hle, hpos⟩ := hok
  simp only [ASTNode.children_mk, ASTNode.child_count_mk, ASTNode.child_capacity_mk]
    at hch hlen hle hpos ⊢
  subst hch
  by_cases hfull : n < cap
  · rw [add_child_node_not_full h t v l r th f a arr n cap ln c hfull, if_neg (by omega)]
    rfl
  · have hn : n = cap := by omega
    subst hn
    rw [add_child_node_full, if_pos rfl]
    show n * 2 = 2 * n
    omega

theorem doubled_from_step (h : Heap) (c0 : Nat) (p : ASTNode) (c : Ptr ASTNode)
    (hok : p.seq_ok) (hd : p.doubled_from c0) :
    (ast_add_child_node h p c).1.doubled_from c0 := by
  obtain ⟨k, hk, hmin⟩ := hd
  obtain ⟨_, hcnt, _⟩ := add_child_node_seq h p c hok
  have hcap := add_child_node_capacity h p c hok
  obtain ⟨_, _, _, _, hle, _⟩ := hok
  unfold ASTNode.doubled_from
  rw [hcap, hcnt]
  by_cases hfull : p.child_count = p.child_capacity
  · rw [if_pos hfull]
    refine ⟨k + 1, ?_, Or.inr ?_⟩
    · rw [hk, pow_succ]; ring
    · rw [Nat.add_sub_cancel, ← hk, ← hfull]
      omega
  · rw [if_neg hfull]
    refine ⟨k, hk, ?_⟩
    rcases hmin with h0 | hlt
    · exact Or.inl h0
    · exact Or.inr (by omega)

theorem doubling_capacity_of_doubled (c0 : Nat) (p : ASTNode) (hok : p.seq_ok)
    (hd : p.doubled_from c0) : doubling_capacity c0 p.child_count p.child_capacity := by
  obtain ⟨k, hk, hmin⟩ := hd
  obtain ⟨_, _, _, _, hle, _⟩ := hok
  rcases hmin with h0 | hlt
  · subst h0
    left
    rw [pow_zero, Nat.mul_one] at hk
    exact ⟨by omega, hk⟩
  · right
    have hk0 : 0 < k := by
      by_contra hc
      have : k = 0 := by omega
      subst this
      simp only [pow_zero, Nat.mul_one] at hk
      simp only [Nat.zero_sub, pow_zero, Nat.mul_one] at hlt
      omega
    have hc0 : c0 ≤ c0 * 2 ^ (k - 1) := Nat.le_mul_of_pos_right c0 (by positivity)
    refine ⟨by omega, k, hk, by omega, ?_⟩
    intro j hj
    by_contra hjk
    have hjk' : j ≤ k - 1 := by omega
    have : c0 * 2 ^ j ≤ c0 * 2 ^ (k - 1) :=
      Nat.mul_le_mul_left c0 (Nat.pow_le_pow_right (by omega) hjk')
    omega

theorem add_children_doubled (c0 : Nat) (cs : List (Ptr ASTNode)) :
    ∀ (h : Heap) (a : Nat) (p : ASTNode), p.seq_ok → p.doubled_from c0 →
      (∀ c ∈ cs, c.isNonNull = true) →
      ∃ n, (add_children h (.ref a p) cs).1 = .ref a n ∧ n.seq_ok ∧ n.doubled_from c0 ∧
        n.child_count = p.child_count + cs.length := by
  induction cs with
  | nil =>
    intro h a p hok hd _
    exact ⟨p, rfl, hok, hd, by simp⟩
  | cons c cs ih =>
    intro h a p hok hd hcs
    have hc : c.isNonNull = true := hcs c (by simp)
    obtain ⟨hok1, hcnt1, _⟩ := add_child_node_seq h p c hok
    have hd1 := doubled_from_step h c0 p c hok hd
    obtain ⟨n, hn, hokn, hdn, hcntn⟩ :=
      ih (ast_add_child_node h p c).2 a (ast_add_child_node h p c).1 hok1 hd1
        (fun x hx => hcs x (by simp [hx]))
    refine ⟨n, ?_, hokn, hdn, ?_⟩
    · simpa [add_children, List.foldl, ast_add_child_ref h a p c hc] using hn
    · rw [hcntn, hcnt1, List.length_cons]; omega

/-- C16 (capacity growth by doubling).  The initial capacity is 4 for a
parameter or argument list and 8 for a block, and a node without child array
gets capacity 4 on its first append.  After appending `n` non-null children to
a fresh list of initial capacity `c0` the count is `n` and the capacity is
`c0` if `n ≤ c0` and otherwise the least `c0 * 2 ^ k` that is at least `n`;
the same holds with `c0 = 4` for `n ≥ 1` appends to a node that had no array.
An append to a node with a child sequence doubles the capacity when the count
equals the capacity and leaves it unchanged otherwise. -/
theorem capacity_grows_by_doubling (h : Heap) (cs : List (Ptr ASTNode))
    (hcs : ∀ c ∈ cs, c.isNonNull = true) (a : Nat) (p : ASTNode) (c : Ptr ASTNode) :
    ((ast_create_parameter_list h).1.sat (fun n => n.child_capacity = 4) ∧
      (ast_create_arg_list h).1.sat (fun n => n.child_capacity = 4) ∧
      (ast_create_block h).1.sat (fun n => n.child_capacity = 8)) ∧
    (p.children = .null → (ast_add_child_node h p c).1.child_capacity = 4) ∧
    (∀ x ∈ [(ast_create_parameter_list, 4), (ast_create_arg_list, 4), (ast_create_block, 8)],
      (add_children (x.1 h).2 (x.1 h).1 cs).1.sat (fun n =>
        n.child_count = cs.length ∧ doubling_capacity x.2 cs.length n.child_capacity)) ∧
    (p.children = .null → p.child_count = 0 → c.isNonNull = true →
      (add_children h (.ref a p) (c :: cs)).1.sat (fun n =>
        n.child_count = cs.length + 1 ∧
        doubling_capacity 4 (cs.length + 1) n.child_capacity)) ∧
    (p.seq_ok →
      (ast_add_child_node h p c).1.child_capacity =
        if p.child_count = p.child_capacity then 2 * p.child_capacity
        else p.child_capacity) := by
  have key : ∀ (c0 : Nat) (h1 : Heap) (a1 : Nat) (n1 : ASTNode), n1.seq_ok →
      n1.child_capacity = c0 → ∀ m, n1.child_count = m → (m ≤ c0) →
      (add_children h1 (.ref a1 n1) cs).1.sat (fun n =>
        n.child_count = cs.length + m ∧
        doubling_capacity c0 (cs.length + m) n.child_capacity) := by
    intro c0 h1 a1 n1 hok hcap m hm hmle
    have hd : n1.doubled_from c0 := ⟨0, by rw [hcap, pow_zero, Nat.mul_one], Or.inl rfl⟩
    obtain ⟨n, hn, hokn, hdn, hcntn⟩ := add_children_doubled c0 cs h1 a1 n1 hok hd hcs
    have hcount : n.child_count = cs.length + m := by rw [hcntn, hm]; omega
    refine ⟨a1, n, hn, hcount, ?_⟩
    rw [← hcount]
    exact doubling_capacity_of_doubled c0 n hokn hdn
  refine ⟨⟨⟨_, _, rfl, rfl⟩, ⟨_, _, rfl, rfl⟩, ⟨_, _, rfl, rfl⟩⟩, ?_, ?_, ?_,
    add_child_node_capacity h p c⟩
  · intro hnull
    obtain ⟨t, v, l, r, th, f, ch, n, cap, ln⟩ := p
    simp only [ASTNode.children_mk] at hnull
    subst hnull
    rw [add_child_node_no_array]
    rfl
  · intro x hx
    simp only [List.mem_cons, List.mem_singleton, List.not_mem_nil, or_false] at hx
    rcases hx with rfl | rfl | rfl
    · exact key 4 (ast_create_parameter_list h).2 h.next
        (.mk AST_PARAMETER_LIST .zero .null .null .null .null
          (.ref (h.next + 1) (List.replicate 4 .null)) 0 4 0)
        (seq_ok_mk _ _ _ _ _ _ _ _ _ _ _ rfl (by omega) (by omega)) rfl 0 rfl (by omega)
    · exact key 4 (ast_create_arg_list h).2 h.next
        (.mk AST_ARG_LIST .zero .null .null .null .null
          (.ref (h.next + 1) (List.replicate 4 .null)) 0 4 0)
        (seq_ok_mk _ _ _ _ _ _ _ _ _ _ _ rfl (by omega) (by omega)) rfl 0 rfl (by omega)
    · exact key 8 (ast_create_block h).2 h.next
        (.mk AST_BLOCK .zero .null .null .null .null
          (.ref (h.next + 1) (List.replicate 8 .null)) 0 8 0)
        (seq_ok_mk _ _ _ _ _ _ _ _ _ _ _ rfl (by omega) (by omega)) rfl 0 rfl (by omega)
  · intro hnull hcnt hc
    obtain ⟨t, v, l, r, th, f, ch, n, cap, ln⟩ := p
    simp only [ASTNode.children_mk, ASTNode.child_count_mk] at hnull hcnt
    subst hnull hcnt
    have hstep : add_children h (.ref a (.mk t v l r th f .null 0 cap ln)) (c :: cs) =
        add_children (malloc h (List.replicate 4 (Ptr.null : Ptr ASTNode))).2
          (.ref a (.mk t v l r th f (.ref h.next [c, .null, .null, .null]) 1 4 ln)) cs := by
      simp only [add_children, List.foldl, ast_add_child_ref h a _ c hc,
        add_child_node_no_array]
    rw [hstep]
    exact key 4 _ a (.mk t v l r th f (.ref h.next [c, .null, .null, .null]) 1 4 ln)
      (seq_ok_mk _ _ _ _ _ _ _ _ _ _ _ rfl (by omega) (by omega)) rfl 1 rfl (by omega)

/-- Instance of C16: nine children appended to a fresh parameter list and to a
fresh block give capacity 16 in both cases (4 doubled twice, 8 doubled once);
one append to a binary-op record without array gives capacity 4; an append to
a full list of capacity 4 gives capacity 8. -/
theorem capacity_grows_by_doubling_witness :
    (∀ c ∈ nine_children, c.isNonNull = true) ∧
    ((add_children (ast_create_parameter_list Heap.empty).2
        (ast_create_parameter_list Heap.empty).1 nine_children).1.sat (fun n =>
      doubling_capacity 4 9 n.child_capacity) ∧
     (add_children (ast_create_parameter_list Heap.empty).2
        (ast_create_parameter_list Heap.empty).1 nine_children).1.val?.map
          ASTNode.child_capacity = some 16) ∧
    ((add_children (ast_create_block Heap.empty).2
        (ast_create_block Heap.empty).1 nine_children).1.sat (fun n =>
      doubling_capacity 8 9 n.child_capacity) ∧
     (add_children (ast_create_block Heap.empty).2
        (ast_create_block Heap.empty).1 nine_children).1.val?.map
          ASTNode.child_capacity = some 16) ∧
    (sample_binary.children = .null ∧
      (ast_add_child_node Heap.empty sample_binary (sample_leaf 50 5)).1.child_capacity = 4) ∧
    (full_list.seq_ok ∧
      (ast_add_child_node Heap.empty full_list (sample_leaf 50 5)).1.child_capacity = 8) := by
  have hnn : ∀ c ∈ nine_children, c.isNonNull = true := by
    intro c hc
    simp only [nine_children, sample_leaf, List.mem_cons, List.mem_singleton,
      List.not_mem_nil, or_false] at hc
    rcases hc with rfl | rfl | rfl | rfl | rfl | rfl | rfl | rfl | rfl <;> rfl
  have hok : full_list.seq_ok := ⟨1, _, rfl, rfl, Nat.le_refl 4, by decide⟩
  obtain ⟨_, k2, k3, _, _⟩ :=
    capacity_grows_by_doubling Heap.empty nine_children hnn 0 sample_binary (sample_leaf 50 5)
  obtain ⟨_, _, _, _, j5⟩ :=
    capacity_grows_by_doubling Heap.empty nine_children hnn 0 full_list (sample_leaf 50 5)
  obtain ⟨a1, n1, e1, _, d1⟩ := k3 (ast_create_parameter_list, 4) (by simp)
  obtain ⟨a2, n2, e2, _, d2⟩ := k3 (ast_create_block, 8) (by simp)
  refine ⟨hnn, ⟨⟨a1, n1, e1, d1⟩, by decide⟩, ⟨⟨a2, n2, e2, d2⟩, by decide⟩, ⟨rfl, k2 rfl⟩,
    hok, ?_⟩
  rw [j5 hok]
  decide

/-! ## C20: display names identify tags -/

/-- C20 (injectivity).  Two tags with the same display name are the same tag;
distinct tags have distinct display names. -/
theorem display_names_identify_tags (t1 t2 : ASTNodeType) :
    (ast_node_type_to_string t1.code = ast_node_type_to_string t2.code → t1 = t2) ∧
    (t1 ≠ t2 → ast_node_type_to_string t1.code ≠ ast_node_type_to_string t2.code) := by
  have inv : ∀ t : ASTNodeType, tag_of_display_name (ast_node_type_to_string t.code) = some t := by
    intro t
    cases t <;> rfl
  have key : ast_node_type_to_string t1.code = ast_node_type_to_string t2.code → t1 = t2 := by
    intro he
    have h1 := inv t1
    rw [he, inv t2] at h1
    exact (Option.some.inj h1).symm
  exact ⟨key, fun hne he => hne (key he)⟩

/-! ## Lemmas on reachable trees -/

theorem ast_free_loop_eq (arr : List (Ptr ASTNode)) :
    ∀ (k : Nat) (h : Heap),
      ast_free_loop arr k h = (arr.take k).foldl (fun hp c => ast_free c hp) h := by
  induction arr with
  | nil => intro k h; simp [ast_free_loop]
  | cons c cs ih =>
    intro k h
    cases k with
    | zero => simp [ast_free_loop]
    | succ k => simp [ast_free_loop, ih k]

theorem foldl_free_filter (l : List (Ptr ASTNode)) :
    ∀ h : Heap, (l.filter Ptr.isNonNull).foldl (fun hp c => ast_free c hp) h =
      l.foldl (fun hp c => ast_free c hp) h := by
  induction l with
  | nil => intro h; rfl
  | cons c cs ih =>
    intro h
    cases c with
    | null => simp [List.filter, ast_free, ih]
    | ref a n => simp [List.filter, ih]

theorem ast_free_children (h : Heap) (a : Nat) (n : ASTNode) :
    ast_free (.ref a n) h =
      free_addr
        (n.release_array
          (n.teardown_children.foldl (fun hp c => ast_free c hp) (ast_free_value h n))) a := by
  rw [ast_free_unfold]
  obtain ⟨t, v, l, r, th, f, ch, k, cap, ln⟩ := n
  cases ch with
  | null =>
    simp only [ASTNode.children_mk, ASTNode.teardown_children, Ptr.isNonNull_null,
      ASTNode.release_array, foldl_free_filter]
    rfl
  | ref ca arr =>
    simp only [ASTNode.children_mk, ASTNode.teardown_children, Ptr.isNonNull_ref,
      ASTNode.release_array, foldl_free_filter, ast_free_loop_eq, ASTNode.seq,
      ASTNode.child_count_mk, if_true]


theorem all_nodes_cells_iff (P : ASTNode → Prop) (arr : List (Ptr ASTNode)) :
    ∀ k : Nat, all_nodes_cells P arr k ↔ ∀ x ∈ arr.take k, all_nodes P x := by
  induction arr with
  | nil => intro k; simp [all_nodes_cells]
  | cons c cs ih =>
    intro k
    cases k with
    | zero => simp [all_nodes_cells]
    | succ k => simp [all_nodes_cells, ih k]

theorem all_nodes_ref (P : ASTNode → Prop) (a : Nat) (n : ASTNode) :
    all_nodes P (.ref a n) ↔
      P n ∧ all_nodes P n.left ∧ all_nodes P n.right ∧ all_nodes P n.third ∧
        all_nodes P n.fourth ∧ ∀ x ∈ n.seq, all_nodes P x := by
  obtain ⟨t, v, l, r, th, f, ch, k, cap, ln⟩ := n
  cases ch with
  | null => simp [all_nodes, all_nodes_node, ASTNode.seq]
  | ref ca arr => simp [all_nodes, all_nodes_node, ASTNode.seq, all_nodes_cells_iff]

mutual
theorem all_nodes_node_mono (P Q : ASTNode → Prop) (hPQ : ∀ n, P n → Q n) :
    ∀ n : ASTNode, all_nodes_node P n → all_nodes_node Q n
  | .mk t v l r th f .null k cap ln, hp => by
    simp only [all_nodes_node] at hp ⊢
    exact ⟨hPQ _ hp.1, all_nodes_mono P Q hPQ l hp.2.1, all_nodes_mono P Q hPQ r hp.2.2.1,
      all_nodes_mono P Q hPQ th hp.2.2.2.1, all_nodes_mono P Q hPQ f hp.2.2.2.2.1, trivial⟩
  | .mk t v l r th f (.ref ca arr) k cap ln, hp => by
    simp only [all_nodes_node] at hp ⊢
    exact ⟨hPQ _ hp.1, all_nodes_mono P Q hPQ l hp.2.1, all_nodes_mono P Q hPQ r hp.2.2.1,
      all_nodes_mono P Q hPQ th hp.2.2.2.1, all_nodes_mono P Q hPQ f hp.2.2.2.2.1,
      all_nodes_cells_mono P Q hPQ arr k hp.2.2.2.2.2⟩
theorem all_nodes_mono (P Q : ASTNode → Prop) (hPQ : ∀ n, P n → Q n) :
    ∀ p : Ptr ASTNode, all_nodes P p → all_nodes Q p
  | .null, _ => by simp [all_nodes]
  | .ref a n, hp => by
    simp only [all_nodes] at hp ⊢
    exact all_nodes_node_mono P Q hPQ n hp
theorem all_nodes_cells_mono (P Q : ASTNode → Prop) (hPQ : ∀ n, P n → Q n) :
    ∀ (arr : List (Ptr ASTNode)) (k : Nat), all_nodes_cells P arr k → all_nodes_cells Q arr k
  | [], k, _ => by simp [all_nodes_cells]
  | c :: cs, 0, _ => by simp [all_nodes_cells]
  | c :: cs, k + 1, hp => by
    simp only [all_nodes_cells] at hp ⊢
    exact ⟨all_nodes_mono P Q hPQ c hp.1, all_nodes_cells_mono P Q hPQ cs k hp.2⟩
end

theorem reach_inv_no_array (t v l r th f ln) :
    (ASTNode.mk t v l r th f .null 0 0 ln).reach_inv := by
  refine ⟨⟨Nat.le_refl 0, ?_, ?_, ?_⟩, ?_⟩
  · simp
  · intro a arr he
    simp at he
  · intro i hi
    simp at hi
  · intro he
    simp at he

theorem reach_inv_fresh_list (t v ln) (a cap : Nat) (hpos : 0 < cap) :
    (ASTNode.mk t v .null .null .null .null (.ref a (List.replicate cap .null)) 0 cap
      ln).reach_inv := by
  refine ⟨⟨Nat.zero_le _, ?_, ?_, ?_⟩, ?_⟩
  · simp [hpos]
  · intro a' arr he
    simp only [ASTNode.children_mk, Ptr.ref.injEq] at he
    rw [← he.2]
    simp
  · intro i hi
    simp at hi
  · intro _ _
    exact ⟨rfl, rfl, rfl, rfl⟩

theorem bounds_ok_of_inv (n : ASTNode) (hb : n.bounds_inv) : n.bounds_ok := by
  obtain ⟨t, v, l, r, th, f, ch, k, cap, ln⟩ := n
  obtain ⟨hle, hiff, hlen, _⟩ := hb
  simp only [ASTNode.children_mk, ASTNode.child_count_mk, ASTNode.child_capacity_mk]
    at hle hiff hlen
  cases ch with
  | null =>
    left
    have : ¬ 0 < cap := fun hp => by simpa using hiff.2 hp
    exact ⟨rfl, by simp only [ASTNode.child_count_mk]; omega,
      by simp only [ASTNode.child_capacity_mk]; omega⟩
  | ref a arr =>
    right
    exact ⟨a, arr, rfl, hlen a arr rfl, hle, hiff.1 rfl⟩

theorem cells_filled_iff (n : ASTNode) (hok : n.seq_ok) :
    n.cells_filled ↔ ∀ x ∈ n.seq, x.isNonNull = true := by
  have hlen := seq_length_of_ok n hok
  constructor
  · intro hf x hx
    obtain ⟨i, hi, rfl⟩ := List.getElem_of_mem hx
    obtain ⟨c, hc1, hc2⟩ := hf i (by omega)
    have := child_at_of_seq n n.seq rfl i hi
    rw [this] at hc1
    rw [Option.some.inj hc1]
    exact hc2
  · intro hall i hi
    have := child_at_of_seq n n.seq rfl i (by omega)
    exact ⟨_, this, hall _ (List.getElem_mem _)⟩

theorem add_child_node_reach_inv (h : Heap) (n : ASTNode) (c : Ptr ASTNode)
    (hc : c.isNonNull = true) (hb : n.bounds_inv) :
    (ast_add_child_node h n c).1.reach_inv ∧
    (ast_add_child_node h n c).1.seq = n.seq ++ [c] := by
  have hframe := add_child_node_frame h n c
  rcases bounds_ok_of_inv n hb with ⟨hnull, hcnt, hcap⟩ | hok
  · obtain ⟨t, v, l, r, th, f, ch, k, cap, ln⟩ := n
    simp only [ASTNode.children_mk, ASTNode.child_count_mk, ASTNode.child_capacity_mk]
      at hnull hcnt hcap
    subst hnull hcnt hcap
    rw [add_child_node_no_array]
    refine ⟨⟨⟨by simp, by simp, ?_, ?_⟩, ?_⟩, rfl⟩
    · intro a arr he
      simp only [ASTNode.children_mk, Ptr.ref.injEq] at he
      rw [← he.2]
      rfl
    · intro i hi
      simp only [ASTNode.child_count_mk] at hi
      have : i = 0 := by omega
      subst this
      exact ⟨c, rfl, hc⟩
    · intro _ h0
      simp at h0
  · obtain ⟨hok1, hcnt1, hseq1⟩ := add_child_node_seq h n c hok
    refine ⟨⟨⟨?_, ?_, ?_, ?_⟩, ?_⟩, hseq1⟩
    · obtain ⟨_, _, _, _, hle, _⟩ := hok1
      exact hle
    · obtain ⟨a, arr, he, _, _, hpos⟩ := hok1
      rw [he]
      simp [hpos]
    · obtain ⟨a, arr, he, hl, _, _⟩ := hok1
      intro a' arr' he'
      rw [he] at he'
      simp only [Ptr.ref.injEq] at he'
      rw [← he'.2]
      exact hl
    · rw [cells_filled_iff _ hok1, hseq1]
      intro x hx
      rcases List.mem_append.1 hx with hx | hx
      · exact (cells_filled_iff n hok).1 hb.2.2.2 x hx
      · rw [List.mem_singleton.1 hx]
        exact hc
    · intro _ h0
      rw [hcnt1] at h0
      omega

theorem all_nodes_add_child (h : Heap) (a : Nat) (l : ASTNode) (c : Ptr ASTNode)
    (hl : all_nodes ASTNode.reach_inv (.ref a l)) (hc : all_nodes ASTNode.reach_inv c) :
    all_nodes ASTNode.reach_inv (ast_add_child h (.ref a l) c).1 := by
  cases c with
  | null => exact hl
  | ref ca cn =>
    rw [ast_add_child_ref h a l (.ref ca cn) rfl]
    rw [all_nodes_ref] at hl ⊢
    obtain ⟨hq, h1, h2, h3, h4, h5⟩ := hl
    obtain ⟨hinv, hseq⟩ := add_child_node_reach_inv h l (.ref ca cn) rfl hq.1
    obtain ⟨_, _, _, e1, e2, e3, e4⟩ := add_child_node_frame h l (.ref ca cn)
    rw [e1, e2, e3, e4, hseq]
    refine ⟨hinv, h1, h2, h3, h4, ?_⟩
    intro x hx
    rcases List.mem_append.1 hx with hx | hx
    · exact h5 x hx
    · rw [List.mem_singleton.1 hx]
      exact hc

theorem all_nodes_identifier (h : Heap) (name : Ptr String) :
    all_nodes ASTNode.reach_inv (ast_create_identifier h name).1 :=
  (all_nodes_ref _ _ _).2 ⟨reach_inv_no_array _ _ _ _ _ _ _, trivial, trivial, trivial, trivial,
    fun x hx => by simp [ASTNode.seq] at hx⟩

theorem all_nodes_fresh_list (t v ln) (a b cap : Nat) (hpos : 0 < cap) :
    all_nodes ASTNode.reach_inv
      (.ref a (.mk t v .null .null .null .null (.ref b (List.replicate cap .null)) 0 cap ln)) :=
  (all_nodes_ref _ _ _).2 ⟨reach_inv_fresh_list _ _ _ _ _ hpos, trivial, trivial, trivial,
    trivial, fun x hx => by simp [ASTNode.seq] at hx⟩

theorem reachable_inv (p : Ptr ASTNode) (hr : Reachable p) : all_nodes ASTNode.reach_inv p := by
  induction hr with
  | absent => trivial
  | program h p d _ _ ih1 ih2 =>
    exact (all_nodes_ref _ _ _).2 ⟨reach_inv_no_array _ _ _ _ _ _ _, ih1, ih2, trivial, trivial, fun x hx => by
      simp [ASTNode.seq] at hx⟩
  | package_decl h name =>
    exact (all_nodes_ref _ _ _).2 ⟨reach_inv_no_array _ _ _ _ _ _ _, trivial, trivial, trivial, trivial, fun x hx => by
      simp [ASTNode.seq] at hx⟩
  | function_decl h name p b _ _ ih1 ih2 =>
    exact (all_nodes_ref _ _ _).2 ⟨reach_inv_no_array _ _ _ _ _ _ _, ih1, ih2, trivial, trivial, fun x hx => by
      simp [ASTNode.seq] at hx⟩
  | if_stmt h c t e _ _ _ ih1 ih2 ih3 =>
    exact (all_nodes_ref _ _ _).2 ⟨reach_inv_no_array _ _ _ _ _ _ _, ih1, ih2, ih3, trivial, fun x hx => by
      simp [ASTNode.seq] at hx⟩
  | for_stmt h i c u b _ _ _ _ ih1 ih2 ih3 ih4 =>
    exact (all_nodes_ref _ _ _).2 ⟨reach_inv_no_array _ _ _ _ _ _ _, ih1, ih2, ih3, ih4, fun x hx => by
      simp [ASTNode.seq] at hx⟩
  | return_stmt h e _ ih =>
    exact (all_nodes_ref _ _ _).2 ⟨reach_inv_no_array _ _ _ _ _ _ _, ih, trivial, trivial, trivial, fun x hx => by
      simp [ASTNode.seq] at hx⟩
  | break_stmt h =>
    exact (all_nodes_ref _ _ _).2 ⟨reach_inv_no_array _ _ _ _ _ _ _, trivial, trivial, trivial, trivial, fun x hx => by
      simp [ASTNode.seq] at hx⟩
  | continue_stmt h =>
    exact (all_nodes_ref _ _ _).2 ⟨reach_inv_no_array _ _ _ _ _ _ _, trivial, trivial, trivial, trivial, fun x hx => by
      simp [ASTNode.seq] at hx⟩
  | expr_stmt h e _ ih =>
    exact (all_nodes_ref _ _ _).2 ⟨reach_inv_no_array _ _ _ _ _ _ _, ih, trivial, trivial, trivial, fun x hx => by
      simp [ASTNode.seq] at hx⟩
  | binary_op h op l r _ _ ih1 ih2 =>
    exact (all_nodes_ref _ _ _).2 ⟨reach_inv_no_array _ _ _ _ _ _ _, ih1, ih2, trivial, trivial, fun x hx => by
      simp [ASTNode.seq] at hx⟩
  | unary_op h op e _ ih =>
    exact (all_nodes_ref _ _ _).2 ⟨reach_inv_no_array _ _ _ _ _ _ _, ih, trivial, trivial, trivial, fun x hx => by
      simp [ASTNode.seq] at hx⟩
  | function_call h name args _ ih =>
    exact (all_nodes_ref _ _ _).2 ⟨reach_inv_no_array _ _ _ _ _ _ _, ih, trivial, trivial, trivial, fun x hx => by
      simp [ASTNode.seq] at hx⟩
  | identifier h name =>
    exact (all_nodes_ref _ _ _).2 ⟨reach_inv_no_array _ _ _ _ _ _ _, trivial, trivial, trivial, trivial, fun x hx => by
      simp [ASTNode.seq] at hx⟩
  | int_literal h v =>
    exact (all_nodes_ref _ _ _).2 ⟨reach_inv_no_array _ _ _ _ _ _ _, trivial, trivial, trivial, trivial, fun x hx => by
      simp [ASTNode.seq] at hx⟩
  | float_literal h bits =>
    exact (all_nodes_ref _ _ _).2 ⟨reach_inv_no_array _ _ _ _ _ _ _, trivial, trivial, trivial, trivial, fun x hx => by
      simp [ASTNode.seq] at hx⟩
  | string_literal h s =>
    exact (all_nodes_ref _ _ _).2 ⟨reach_inv_no_array _ _ _ _ _ _ _, trivial, trivial, trivial, trivial, fun x hx => by
      simp [ASTNode.seq] at hx⟩
  | bool_literal h v =>
    exact (all_nodes_ref _ _ _).2 ⟨reach_inv_no_array _ _ _ _ _ _ _, trivial, trivial, trivial, trivial, fun x hx => by
      simp [ASTNode.seq] at hx⟩
  | nil_literal h =>
    exact (all_nodes_ref _ _ _).2 ⟨reach_inv_no_array _ _ _ _ _ _ _, trivial, trivial, trivial, trivial, fun x hx => by
      simp [ASTNode.seq] at hx⟩
  | parameter h name type =>
    cases type with
    | null =>
      exact (all_nodes_ref _ _ _).2 ⟨reach_inv_no_array _ _ _ _ _ _ _, trivial, trivial, trivial,
        trivial, fun x hx => by simp [ASTNode.seq] at hx⟩
    | ref ta ts =>
      exact (all_nodes_ref _ _ _).2 ⟨reach_inv_no_array _ _ _ _ _ _ _,
        all_nodes_identifier _ _, trivial, trivial, trivial, fun x hx => by
          simp [ASTNode.seq] at hx⟩
  | var_decl h name type e _ ih =>
    cases type with
    | null =>
      exact (all_nodes_ref _ _ _).2 ⟨reach_inv_no_array _ _ _ _ _ _ _, ih, trivial, trivial,
        trivial, fun x hx => by simp [ASTNode.seq] at hx⟩
    | ref ta ts =>
      exact (all_nodes_ref _ _ _).2 ⟨reach_inv_no_array _ _ _ _ _ _ _, ih,
        all_nodes_identifier _ _, trivial, trivial, fun x hx => by simp [ASTNode.seq] at hx⟩
  | assignment h name e _ ih =>
    exact (all_nodes_ref _ _ _).2 ⟨reach_inv_no_array _ _ _ _ _ _ _, all_nodes_identifier _ _,
      ih, trivial, trivial, fun x hx => by simp [ASTNode.seq] at hx⟩
  | decl_assignment h name e _ ih =>
    exact (all_nodes_ref _ _ _).2 ⟨reach_inv_no_array _ _ _ _ _ _ _, all_nodes_identifier _ _,
      ih, trivial, trivial, fun x hx => by simp [ASTNode.seq] at hx⟩
  | parameter_list h => exact all_nodes_fresh_list _ _ _ _ _ 4 (by omega)
  | block h => exact all_nodes_fresh_list _ _ _ _ _ 8 (by omega)
  | arg_list h => exact all_nodes_fresh_list _ _ _ _ _ 4 (by omega)
  | add_child h a l c _ _ ih1 ih2 => exact all_nodes_add_child h a l c ih1 ih2

theorem children_agree_of_inv (n : ASTNode) (hq : n.reach_inv) :
    n.traversal_children = n.teardown_children := by
  obtain ⟨hb, he⟩ := hq
  have hbo := bounds_ok_of_inv n hb
  obtain ⟨t, v, l, r, th, f, ch, k, cap, ln⟩ := n
  cases ch with
  | null => simp [ASTNode.traversal_children, ASTNode.teardown_children, ASTNode.uses_sequence]
  | ref a arr =>
    rcases hbo with ⟨hnull, _, _⟩ | hok
    · simp at hnull
    · by_cases hk : k = 0
      · subst hk
        obtain ⟨e1, e2, e3, e4⟩ := he rfl rfl
        simp only [ASTNode.left_mk, ASTNode.right_mk, ASTNode.third_mk, ASTNode.fourth_mk]
          at e1 e2 e3 e4
        subst e1 e2 e3 e4
        simp [ASTNode.traversal_children, ASTNode.teardown_children, ASTNode.uses_sequence,
          ASTNode.seq]
      · have hfill := (cells_filled_iff _ hok).1 hb.2.2.2
        have hpos : k > 0 := by omega
        simp only [ASTNode.traversal_children, ASTNode.teardown_children,
          ASTNode.uses_sequence, ASTNode.children_mk, Ptr.isNonNull_ref, ASTNode.child_count_mk,
          hpos, decide_True, Bool.and_self, if_true]
        exact (List.filter_eq_self.2 hfill).symm

mutual
theorem one_mode_of_shaped_node :
    ∀ n : ASTNode, shaped_node n → all_nodes_node ASTNode.one_mode n
  | .mk t v l r th f .null k cap ln, hs => by
    simp only [shaped_node] at hs
    simp only [all_nodes_node]
    refine ⟨⟨fun hc => ?_, fun _ => rfl⟩, one_mode_of_shaped l hs.2.1,
      one_mode_of_shaped r hs.2.2.1, one_mode_of_shaped th hs.2.2.2.1,
      one_mode_of_shaped f hs.2.2.2.2, trivial⟩
    simp at hc
  | .mk t v l r th f (.ref ca arr) k cap ln, hs => by
    simp only [shaped_node] at hs
    obtain ⟨_, hl, hr, hth, hf, _, _, _, hc⟩ := hs
    subst hl hr hth hf
    simp only [all_nodes_node, all_nodes]
    refine ⟨⟨fun _ => ⟨rfl, rfl, rfl, rfl⟩, fun hx => ?_⟩, trivial, trivial, trivial, trivial,
      one_mode_of_shaped_cells arr k hc⟩
    simp at hx
theorem one_mode_of_shaped :
    ∀ p : Ptr ASTNode, shaped p → all_nodes ASTNode.one_mode p
  | .null, _ => by simp [all_nodes]
  | .ref a n, hs => by
    simp only [shaped] at hs
    simp only [all_nodes]
    exact one_mode_of_shaped_node n hs
theorem one_mode_of_shaped_cells :
    ∀ (arr : List (Ptr ASTNode)) (k : Nat), shaped_cells arr k →
      all_nodes_cells ASTNode.one_mode arr k
  | [], k, _ => by simp [all_nodes_cells]
  | c :: cs, 0, _ => by simp [all_nodes_cells]
  | c :: cs, k + 1, hs => by
    simp only [shaped_cells] at hs
    simp only [all_nodes_cells]
    exact ⟨one_mode_of_shaped c hs.1, one_mode_of_shaped_cells cs k hs.2⟩
end

theorem reachable_hidden_slots : Reachable scenario_hidden_slots.1 :=
  Reachable.add_child _ _ _ _
    (Reachable.binary_op _ _ _ _ (Reachable.identifier _ _) (Reachable.int_literal _ _))
    (Reachable.int_literal _ _)


/-! ## C12: one addressing mode -/

/-- C12, amended (one addressing mode).  In every tree built from the
constructors and from `ast_add_child` calls on list nodes (parameter list,
block, argument list), every node with a child array has four `NULL` slots and
every node with a populated slot has no child array. -/
theorem built_nodes_use_one_mode (p : Ptr ASTNode) (hb : Built p) :
    all_nodes ASTNode.one_mode p :=
  one_mode_of_shaped p (built_shaped p hb)

/-- Instance of C12 (amended): the if-else scenario, whose two blocks received
an append, is a built tree and each of its nodes uses one mode. -/
theorem built_nodes_use_one_mode_witness :
    Built scenario_if_else.1 ∧ all_nodes ASTNode.one_mode scenario_if_else.1 := by
  have b : Built scenario_if_else.1 :=
    Built.if_stmt _ _ _ _ (Built.bool_literal _ _)
      (Built.add_child _ _ _ _ (Built.block _) (by decide)
        (Built.return_stmt _ _ (Built.int_literal _ _)))
      (Built.add_child _ _ _ _ (Built.block _) (by decide)
        (Built.return_stmt _ _ (Built.int_literal _ _)))
  exact ⟨b, built_nodes_use_one_mode _ b⟩

/-- Counterexample to C12 as stated: `ast_add_child` applied to the binary-op
node `x + 5` is a sequence of constructor calls and one `ast_add_child` call,
and the resulting node has a child array with one entry while `left` and
`right` still hold the operands. -/
theorem reachable_node_uses_both_modes :
    Reachable scenario_hidden_slots.1 ∧
    (∃ n, scenario_hidden_slots.1 = .ref 3 n ∧ n.type = AST_BINARY_OP ∧
      n.children.isNonNull = true ∧ n.child_count = 1 ∧
      n.left.isNonNull = true ∧ n.right.isNonNull = true ∧ ¬ n.one_mode) ∧
    ¬ all_nodes ASTNode.one_mode scenario_hidden_slots.1 := by
  have hno : ∀ n : ASTNode, n.children.isNonNull = true → n.left.isNonNull = true →
      ¬ n.one_mode := by
    intro n h1 h2 hm
    have := (hm.1 h1).1
    rw [this] at h2
    simp at h2
  have hn : ∃ n, scenario_hidden_slots.1 = .ref 3 n ∧ n.type = AST_BINARY_OP ∧
      n.children.isNonNull = true ∧ n.child_count = 1 ∧
      n.left.isNonNull = true ∧ n.right.isNonNull = true ∧ ¬ n.one_mode :=
    ⟨_, rfl, rfl, rfl, rfl, rfl, rfl, hno _ rfl rfl⟩
  refine ⟨reachable_hidden_slots, hn, ?_⟩
  obtain ⟨n, e, _, _, _, _, _, hm⟩ := hn
  intro hall
  rw [e] at hall
  exact hm ((all_nodes_ref _ 3 n).1 hall).1


theorem full_list_bounds_inv : full_list.bounds_inv := by
  refine ⟨Nat.le_refl 4, by decide, ?_, ?_⟩
  · intro a arr he
    simp only [full_list, ASTNode.children_mk, Ptr.ref.injEq] at he
    rw [← he.2]
    rfl
  · intro i hi
    have hi4 : i < 4 := hi
    interval_cases i
    · exact ⟨_, rfl, rfl⟩
    · exact ⟨_, rfl, rfl⟩
    · exact ⟨_, rfl, rfl⟩
    · exact ⟨_, rfl, rfl⟩

/-! ## C18: print and teardown agree -/

/-- C18 (print and teardown agree).  `ast_print` recurses exactly into the
traversal children of a node (the sequence if the array is present and
non-empty, else the non-null slots) and `ast_free` exactly into its teardown
children (the sequence if the array is present, else the slots); at every node
of every tree reachable by constructor calls and `ast_add_child` calls on any
node the two lists are equal, because such a node with a present but empty
array has four `NULL` slots. -/
theorem print_and_teardown_agree (fmt_f : Nat → String) (p : Ptr ASTNode)
    (hr : Reachable p) :
    all_nodes (fun n => n.traversal_children = n.teardown_children) p ∧
    all_nodes ASTNode.empty_seq_no_slots p ∧
    (∀ (a : Nat) (n : ASTNode) (d : Int), ast_print fmt_f (.ref a n) d =
      ast_print_header fmt_f n d ::
        (n.traversal_children.map (fun x => ast_print fmt_f x (d + 1))).flatten) ∧
    (∀ (a : Nat) (n : ASTNode) (h : Heap), ast_free (.ref a n) h =
      free_addr
        (n.release_array
          (n.teardown_children.foldl (fun hp c => ast_free c hp) (ast_free_value h n))) a) := by
  have hinv := reachable_inv p hr
  refine ⟨all_nodes_mono _ _ children_agree_of_inv p hinv,
    all_nodes_mono _ _ (fun m hm => hm.2) p hinv, ?_, fun a n h => ast_free_children h a n⟩
  intro a n d
  rw [ast_print_unfold, ASTNode.traversal_children]
  split
  · rfl
  · rw [ast_print_slots]

/-- Instance of C18: in the reachable tree with an append to the binary-op node
both traversals descend into the appended literal only. -/
theorem print_and_teardown_agree_witness :
    Reachable scenario_hidden_slots.1 ∧
    all_nodes (fun n => n.traversal_children = n.teardown_children) scenario_hidden_slots.1 ∧
    ∃ n c, scenario_hidden_slots.1 = .ref 3 n ∧ n.traversal_children = [c] ∧
      n.teardown_children = [c] := by
  exact ⟨reachable_hidden_slots,
    (print_and_teardown_agree (fun _ => "") _ reachable_hidden_slots).1, _, _, rfl, rfl, rfl⟩

/-! ## C19: appending to a fixed-slot node -/

/-- C19 (appending to a fixed-slot node hides its slots).  `ast_add_child`
never looks at the parent's tag.  For a node without child array (as every
fixed-slot constructor returns) and a non-null child `c`, after
`ast_add_child` the node has the child sequence `[c]` in an array of capacity
4 and count 1, its tag and four slots are unchanged, `ast_print` writes the
node's header followed by the output for `c` only, and `ast_free` releases the
payload, `c`, the array and the node, never descending into the slots. -/
theorem append_hides_fixed_slots (fmt_f : Nat → String) (h h2 : Heap) (a : Nat) (n : ASTNode)
    (c : Ptr ASTNode) (d : Int) (hn : n.children = .null) (hc : c.isNonNull = true) :
    ∃ m, (ast_add_child h (.ref a n) c).1 = .ref a m ∧
      m.children = .ref h.next [c, .null, .null, .null] ∧
      m.seq = [c] ∧ m.child_count = 1 ∧ m.child_capacity = 4 ∧
      m.type = n.type ∧ m.left = n.left ∧ m.right = n.right ∧ m.third = n.third ∧
      m.fourth = n.fourth ∧
      m.traversal_children = [c] ∧ m.teardown_children = [c] ∧
      ast_print fmt_f (.ref a m) d = ast_print_header fmt_f m d :: ast_print fmt_f c (d + 1) ∧
      ast_free (.ref a m) h2 =
        free_addr (free_addr (ast_free c (ast_free_value h2 m)) h.next) a ∧
      ∀ (op : Ptr String) (x y z w : Ptr ASTNode),
        (ast_create_binary_op h op x y).1.sat (fun k => k.children = .null) ∧
        (ast_create_if_stmt h x y z).1.sat (fun k => k.children = .null) ∧
        (ast_create_for_stmt h x y z w).1.sat (fun k => k.children = .null) ∧
        (ast_create_function_decl h op x y).1.sat (fun k => k.children = .null) := by
  obtain ⟨t, v, l, r, th, f, ch, k, cap, ln⟩ := n
  simp only [ASTNode.children_mk] at hn
  subst hn
  cases c with
  | null => simp at hc
  | ref ca cn =>
    refine ⟨.mk t v l r th f (.ref h.next [.ref ca cn, .null, .null, .null]) 1 4 ln, ?_, rfl, rfl,
      rfl, rfl, rfl, rfl, rfl, rfl, rfl, rfl, rfl, ?_, ?_, fun op x y z w =>
        ⟨⟨_, _, rfl, rfl⟩, ⟨_, _, rfl, rfl⟩, ⟨_, _, rfl, rfl⟩, ⟨_, _, rfl, rfl⟩⟩⟩
    · rw [ast_add_child_ref h a _ (.ref ca cn) rfl, add_child_node_no_array]
    · rw [ast_print_unfold]
      simp [ASTNode.uses_sequence, ASTNode.seq]
    · rw [ast_free_children]
      rfl

/-- Instance of C19: the binary-op node `x + 5` has no array and two operands;
before the append it prints three headers, after it only its own and that of
the appended literal; of the seven blocks of the scenario, `ast_free` leaves
the three of the two operands live. -/
theorem append_hides_fixed_slots_witness :
    (∃ n, scenario_binary_op.1 = .ref 3 n ∧ n.children = .null ∧
      n.left.isNonNull = true ∧ n.right.isNonNull = true) ∧
    (sample_leaf 50 7).isNonNull = true ∧
    ast_print (fun _ => "") scenario_binary_op.1 0 =
      ["BinaryOp: +\n", "  Identifier: x\n", "  IntLiteral: 5\n"] ∧
    ast_print (fun _ => "") scenario_hidden_slots.1 0 = ["BinaryOp: +\n", "  IntLiteral: 7\n"] ∧
    scenario_hidden_slots.2.live = [6, 5, 4, 3, 2, 1, 0] ∧
    (ast_free scenario_hidden_slots.1 scenario_hidden_slots.2).live = [2, 1, 0] ∧
    (∃ m, (ast_add_child Heap.empty scenario_binary_op.1 (sample_leaf 50 7)).1 = .ref 3 m ∧
      m.seq = [sample_leaf 50 7] ∧ m.child_capacity = 4 ∧
      m.left.isNonNull = true ∧ m.right.isNonNull = true) := by
  refine ⟨⟨_, rfl, rfl, rfl, rfl⟩, rfl, by decide, by decide, by decide, by decide, ?_⟩
  obtain ⟨m, e, _, e3, _, e5, _, e7, e8, _⟩ :=
    append_hides_fixed_slots (fun _ => "") Heap.empty Heap.empty 3
      (.mk AST_BINARY_OP (.string_value (.ref 4 "+"))
        (.ref 0 (.mk AST_IDENTIFIER (.string_value (.ref 1 "x")) .null .null .null .null .null
          0 0 0))
        (.ref 2 (.mk AST_INT_LITERAL (.int_value 5) .null .null .null .null .null 0 0 0))
        .null .null .null 0 0 0)
      (sample_leaf 50 7) 0 rfl rfl
  exact ⟨m, e, e3, e5, by rw [e7]; rfl, by rw [e8]; rfl⟩

/-! ## C13: acyclicity and single ownership over the store of node identities -/

theorem int_result_some (v : Nat) (hv : v ≤ INT_MAX) : int_result v = some v := by
  simp [int_result, hv]

theorem int_result_none (v : Nat) (hv : INT_MAX < v) : int_result v = none := by
  have : ¬ v ≤ INT_MAX := by omega
  simp [int_result, this]

theorem int_result_eq_some (v w : Nat) (hv : int_result v = some w) : w = v ∧ v ≤ INT_MAX := by
  unfold int_result at hv
  split at hv
  · exact ⟨(Option.some.inj hv).symm, by assumption⟩
  · cases hv

theorem add_child_node_int_sound (h : Heap) (p : ASTNode) (c : Ptr ASTNode)
    (r : ASTNode × Heap) (hr : ast_add_child_node_int h p c = some r) :
    r = ast_add_child_node h p c ∧ r.1.child_count ≤ INT_MAX ∧
      (p.child_capacity ≤ INT_MAX → r.1.child_capacity ≤ INT_MAX) := by
  obtain ⟨t, v, l, rr, th, f, ch, n, cap, ln⟩ := p
  cases ch with
  | null =>
    have h1 : ast_add_child_node_int h (.mk t v l rr th f .null n cap ln) c =
        some (ast_add_child_node h (.mk t v l rr th f .null n cap ln) c) := by
      simp [ast_add_child_node_int, ast_add_child_node, int_result, INT_MAX]
    rw [h1] at hr
    have := Option.some.inj hr
    subst this
    rw [add_child_node_no_array]
    exact ⟨rfl, by simp [INT_MAX], fun _ => by simp [INT_MAX]⟩
  | ref a arr =>
    by_cases hfull : n ≥ cap
    · by_cases hcap : cap * 2 ≤ INT_MAX
      · by_cases hcnt : n + 1 ≤ INT_MAX
        · have h1 : ast_add_child_node_int h (.mk t v l rr th f (.ref a arr) n cap ln) c =
              some (ast_add_child_node h (.mk t v l rr th f (.ref a arr) n cap ln) c) := by
            simp [ast_add_child_node_int, ast_add_child_node, int_result, hfull, hcap, hcnt]
          rw [h1] at hr
          have := Option.some.inj hr
          subst this
          refine ⟨rfl, ?_, fun _ => ?_⟩
          · simpa [ast_add_child_node, hfull] using hcnt
          · simpa [ast_add_child_node, hfull] using hcap
        · simp [ast_add_child_node_int, int_result, hfull, hcap, hcnt] at hr
      · simp [ast_add_child_node_int, int_result, hfull, hcap] at hr
    · by_cases hcnt : n + 1 ≤ INT_MAX
      · have h1 : ast_add_child_node_int h (.mk t v l rr th f (.ref a arr) n cap ln) c =
            some (ast_add_child_node h (.mk t v l rr th f (.ref a arr) n cap ln) c) := by
          simp [ast_add_child_node_int, ast_add_child_node, int_result, hfull, hcnt]
        rw [h1] at hr
        have := Option.some.inj hr
        subst this
        refine ⟨rfl, ?_, fun hc => ?_⟩
        · simpa [ast_add_child_node, hfull] using hcnt
        · simpa [ast_add_child_node, hfull] using hc
      · simp [ast_add_child_node_int, int_result, hfull, hcnt] at hr

theorem add_child_node_int_some (h : Heap) (p : ASTNode) (c : Ptr ASTNode)
    (hb : p.bounds_ok) (hr : p.append_in_range) (hcnt : p.child_count < INT_MAX) :
    ast_add_child_node_int h p c = some (ast_add_child_node h p c) := by
  obtain ⟨t, v, l, rr, th, f, ch, n, cap, ln⟩ := p
  simp only [ASTNode.append_in_range, ASTNode.child_count_mk, ASTNode.child_capacity_mk] at hr hcnt
  cases ch with
  | null =>
    simp [ast_add_child_node_int, ast_add_child_node, int_result, INT_MAX]
  | ref a arr =>
    have hcnt1 : n + 1 ≤ INT_MAX := by omega
    by_cases hfull : n ≥ cap
    · have hcap : cap * 2 ≤ INT_MAX := by
        rcases hr with hr | hr
        · omega
        · exact hr
      simp [ast_add_child_node_int, ast_add_child_node, int_result, hfull, hcap, hcnt1]
    · simp [ast_add_child_node_int, ast_add_child_node, int_result, hfull, hcnt1]

theorem add_child_node_int_none (h : Heap) (p : ASTNode) (c : Ptr ASTNode)
    (hok : p.seq_ok) (hnr : ¬ p.append_in_range) :
    ast_add_child_node_int h p c = none := by
  obtain ⟨t, v, l, rr, th, f, ch, n, cap, ln⟩ := p
  obtain ⟨a, arr, hch, _, _, _⟩ := hok
  simp only [ASTNode.children_mk] at hch
  subst hch
  simp only [ASTNode.append_in_range, ASTNode.child_count_mk, ASTNode.child_capacity_mk,
    not_or] at hnr
  have hfull : n ≥ cap := by omega
  have hcap : ¬ cap * 2 ≤ INT_MAX := hnr.2
  simp [ast_add_child_node_int, int_result, hfull, hcap]

theorem ast_add_child_int_ref (h : Heap) (a : Nat) (p : ASTNode) (c : Ptr ASTNode)
    (hc : c.isNonNull = true) :
    ast_add_child_int h (.ref a p) c =
      (ast_add_child_node_int h p c).map (fun r => (.ref a r.1, r.2)) := by
  cases c with
  | null => simp at hc
  | ref ca cn => rfl

theorem ast_add_child_int_sound (h : Heap) (p c : Ptr ASTNode) (r : Ptr ASTNode × Heap)
    (hr : ast_add_child_int h p c = some r) : r = ast_add_child h p c := by
  cases p with
  | null =>
    simp only [ast_add_child_int, Option.some.injEq] at hr
    rw [← hr]
    rfl
  | ref a n =>
    cases c with
    | null =>
      simp only [ast_add_child_int, Option.some.injEq] at hr
      rw [← hr]
      rfl
    | ref ca cn =>
      simp only [ast_add_child_int, Option.map_eq_some'] at hr
      obtain ⟨r1, h1, h2⟩ := hr
      rw [← h2, (add_child_node_int_sound h n _ r1 h1).1]
      rfl

theorem add_children_int_append (xs ys : List (Ptr ASTNode)) :
    ∀ (h : Heap) (p : Ptr ASTNode), add_children_int h p (xs ++ ys) =
      (add_children_int h p xs).bind (fun st => add_children_int st.2 st.1 ys) := by
  induction xs with
  | nil => intro h p; rfl
  | cons x xs ih =>
    intro h p
    simp only [List.cons_append, add_children_int]
    cases hx : ast_add_child_int h p x with
    | none => rfl
    | some st => exact ih st.2 st.1

theorem add_children_int_some (cs : List (Ptr ASTNode)) :
    ∀ (h : Heap) (a : Nat) (p : ASTNode), p.seq_ok → (∀ c ∈ cs, c.isNonNull = true) →
      p.child_count + cs.length ≤ max_children →
      add_children_int h (.ref a p) cs = some (add_children h (.ref a p) cs) := by
  induction cs with
  | nil => intro h a p _ _ _; rfl
  | cons c cs ih =>
    intro h a p hok hcs hlen
    have hc : c.isNonNull = true := hcs c (by simp)
    simp only [List.length_cons, max_children] at hlen
    have hle : p.child_count ≤ p.child_capacity := by
      obtain ⟨_, _, _, _, hle, _⟩ := hok
      exact hle
    have hrange : p.append_in_range := by
      by_cases hfull : p.child_count < p.child_capacity
      · exact Or.inl hfull
      · right
        simp only [INT_MAX]
        omega
    have hstep := add_child_node_int_some h p c (Or.inr hok) hrange (by simp only [INT_MAX]; omega)
    obtain ⟨hok1, hcnt1, _⟩ := add_child_node_seq h p c hok
    have hrec := ih (ast_add_child_node h p c).2 a (ast_add_child_node h p c).1 hok1
      (fun x hx => hcs x (by simp [hx])) (by rw [hcnt1]; simp only [max_children]; omega)
    simp only [add_children_int, ast_add_child_int_ref h a p c hc, hstep, Option.map_some']
    rw [hrec]
    simp only [add_children, List.foldl, ast_add_child_ref h a p c hc]

theorem add_children_full_at_max (c0 j0 : Nat) (hc0 : c0 * 2 ^ j0 = max_children)
    (cs : List (Ptr ASTNode)) (hlen : cs.length = max_children) (h : Heap) (a : Nat)
    (p : ASTNode) (hok : p.seq_ok) (hcap : p.child_capacity = c0) (hcnt : p.child_count = 0)
    (hcs : ∀ c ∈ cs, c.isNonNull = true) :
    ∃ n, (add_children h (.ref a p) cs).1 = .ref a n ∧ n.seq_ok ∧
      n.child_count = max_children ∧ n.child_capacity = max_children := by
  have hd : p.doubled_from c0 := ⟨0, by rw [hcap, pow_zero, Nat.mul_one], Or.inl rfl⟩
  obtain ⟨n, hn, hokn, hdn, hcntn⟩ := add_children_doubled c0 cs h a p hok hd hcs
  have hcount : n.child_count = max_children := by rw [hcntn, hcnt, hlen, Nat.zero_add]
  have hle : n.child_count ≤ n.child_capacity := by
    obtain ⟨_, _, _, _, hle, _⟩ := hokn
    exact hle
  have hone : 1 ≤ 2 ^ j0 := Nat.one_le_two_pow
  have hc0le : c0 ≤ max_children := by
    rw [← hc0]
    exact Nat.le_mul_of_pos_right c0 hone
  refine ⟨n, hn, hokn, hcount, ?_⟩
  rcases doubling_capacity_of_doubled c0 n hokn hdn with ⟨_, hc⟩ | ⟨_, k, hk, _, hmin⟩
  · rw [hcount] at hle
    omega
  · have hkj : k ≤ j0 := hmin j0 (by rw [hc0, hcount])
    have : c0 * 2 ^ k ≤ c0 * 2 ^ j0 :=
      Nat.mul_le_mul_left c0 (Nat.pow_le_pow_right (by omega) hkj)
    rw [hcount] at hle
    omega

theorem add_children_int_none (c0 j0 : Nat) (hc0 : c0 * 2 ^ j0 = max_children)
    (cs : List (Ptr ASTNode)) (hlen : max_children < cs.length) (h : Heap) (a : Nat)
    (p : ASTNode) (hok : p.seq_ok) (hcap : p.child_capacity = c0) (hcnt : p.child_count = 0)
    (hcs : ∀ c ∈ cs, c.isNonNull = true) :
    add_children_int h (.ref a p) cs = none := by
  have hsplit : cs = cs.take max_children ++ cs.drop max_children :=
    (List.take_append_drop max_children cs).symm
  have htake : (cs.take max_children).length = max_children := by
    rw [List.length_take]
    omega
  have hpre : ∀ c ∈ cs.take max_children, c.isNonNull = true :=
    fun c hc => hcs c (List.mem_of_mem_take hc)
  obtain ⟨c, rest, hdrop⟩ : ∃ c rest, cs.drop max_children = c :: rest := by
    cases hd : cs.drop max_children with
    | nil =>
      have := congrArg List.length hd
      rw [List.length_drop, List.length_nil] at this
      omega
    | cons c rest => exact ⟨c, rest, rfl⟩
  have hc : c.isNonNull = true :=
    hcs c (List.mem_of_mem_drop (by rw [hdrop]; exact List.mem_cons_self c rest))
  obtain ⟨n, hn, hokn, hcount, hcapn⟩ :=
    add_children_full_at_max c0 j0 hc0 _ htake h a p hok hcap hcnt hpre
  have hsome := add_children_int_some (cs.take max_children) h a p hok hpre
    (by rw [hcnt, htake, Nat.zero_add])
  have hnr : ¬ n.append_in_range := by
    simp only [ASTNode.append_in_range, hcount, hcapn, max_children, INT_MAX]
    omega
  rw [hsplit, add_children_int_append, hsome, Option.some_bind, hdrop]
  simp only [add_children_int, hn, ast_add_child_int_ref _ a n c hc,
    add_child_node_int_none _ n c hokn hnr, Option.map_none']

theorem fresh_list_cases (h : Heap) :
    ∀ create ∈ [ast_create_parameter_list, ast_create_arg_list, ast_create_block],
      ∃ a n c0 j0, (create h).1 = .ref a n ∧ n.seq_ok ∧ n.child_count = 0 ∧
        n.child_capacity = c0 ∧ c0 * 2 ^ j0 = max_children := by
  intro create hmem
  simp only [List.mem_cons, List.mem_singleton, List.not_mem_nil, or_false] at hmem
  rcases hmem with rfl | rfl | rfl
  · exact ⟨_, _, 4, 28, rfl, ⟨_, _, rfl, by simp, by simp, by simp⟩, rfl, rfl, by decide⟩
  · exact ⟨_, _, 4, 28, rfl, ⟨_, _, rfl, by simp, by simp, by simp⟩, rfl, rfl, by decide⟩
  · exact ⟨_, _, 8, 27, rfl, ⟨_, _, rfl, by simp, by simp, by simp⟩, rfl, rfl, by decide⟩

theorem nine_children_non_null : ∀ c ∈ nine_children, c.isNonNull = true := by
  intro c hc
  simp only [nine_children, sample_leaf, List.mem_cons, List.mem_singleton,
    List.not_mem_nil, or_false] at hc
  rcases hc with rfl | rfl | rfl | rfl | rfl | rfl | rfl | rfl | rfl <;> rfl

theorem replicate_leaf_non_null (k : Nat) :
    ∀ c ∈ List.replicate k (sample_leaf 100 1), c.isNonNull = true := by
  intro c hc
  rw [List.eq_of_mem_replicate hc]
  rfl

theorem full_list_append_undefined (h : Heap) (cs : List (Ptr ASTNode))
    (hlen : cs.length = max_children) (hcs : ∀ c ∈ cs, c.isNonNull = true) :
    ∀ create ∈ [ast_create_parameter_list, ast_create_arg_list, ast_create_block],
      ∃ a n h2, add_children_int (create h).2 (create h).1 cs = some (.ref a n, h2) ∧
        n.seq_ok ∧ n.child_count = max_children ∧ n.child_capacity = max_children ∧
        ∀ c : Ptr ASTNode, c.isNonNull = true → ast_add_child_int h2 (.ref a n) c = none := by
  intro create hmem
  obtain ⟨a, n, c0, j0, hp, hok, h0, hcap, hc0⟩ := fresh_list_cases h create hmem
  obtain ⟨m, hm, hokm, hcount, hcapm⟩ :=
    add_children_full_at_max c0 j0 hc0 cs hlen (create h).2 a n hok hcap h0 hcs
  have hnr : ¬ m.append_in_range := by
    simp only [ASTNode.append_in_range, hcount, hcapm, max_children, INT_MAX]
    omega
  refine ⟨a, m, (add_children (create h).2 (.ref a n) cs).2, ?_, hokm, hcount, hcapm, ?_⟩
  · rw [hp, add_children_int_some cs _ a n hok hcs (by rw [h0, hlen, Nat.zero_add]), ← hm]
  · intro c hc
    rw [ast_add_child_int_ref _ a m c hc, add_child_node_int_none _ m c hokm hnr]
    rfl

theorem append_in_range_count (p : ASTNode) (hb : p.bounds_ok) (hcap : p.child_capacity ≤ INT_MAX)
    (hr : p.append_in_range) : p.child_count < INT_MAX := by
  rcases hb with ⟨_, h0, _⟩ | ⟨_, _, _, _, hle, hpos⟩
  · rw [h0]
    decide
  · rcases hr with hr | hr
    · omega
    · omega

/-! ## C1: append ordering -/

/-- C1, amended (append ordering).  For a list node freshly built by
`ast_create_parameter_list`, `ast_create_arg_list` or `ast_create_block` and a
sequence `cs` of non-null children, the calls `ast_add_child(list, c)` for each
`c` of `cs` in order all have a defined result exactly when `cs` has at most
`2 ^ 30` entries (a further append would double the capacity `2 ^ 30`, which
overflows `int`); in that case the node (still at the address of the list) has
`child_count = |cs|` and `children[i] = cs[i]` for every index `i < |cs|`.
`ast_add_statement`, `ast_add_parameter` and `ast_add_argument` are the same
function as `ast_add_child`. -/
theorem ast_add_child_append_order (h : Heap) (cs : List (Ptr ASTNode))
    (hcs : ∀ c ∈ cs, c.isNonNull = true) :
    (∀ create ∈ [ast_create_parameter_list, ast_create_arg_list, ast_create_block],
      ((add_children_int (create h).2 (create h).1 cs).isSome = true ↔
        cs.length ≤ max_children) ∧
      (cs.length ≤ max_children →
        ∃ a n h2, add_children_int (create h).2 (create h).1 cs = some (.ref a n, h2) ∧
          (create h).1.addr? = some a ∧ n.child_count = cs.length ∧
          ∀ (i : Nat) (hi : i < cs.length), n.child_at i = some cs[i])) ∧
    (ast_add_statement_int = ast_add_child_int ∧ ast_add_parameter_int = ast_add_child_int ∧
      ast_add_argument_int = ast_add_child_int) ∧
    (ast_add_statement = ast_add_child ∧ ast_add_parameter = ast_add_child ∧
      ast_add_argument = ast_add_child) := by
  refine ⟨?_, ⟨rfl, rfl, rfl⟩, ⟨rfl, rfl, rfl⟩⟩
  intro create hmem
  obtain ⟨a, n, c0, j0, hp, hok, h0, hcap, hc0⟩ := fresh_list_cases h create hmem
  have hdef : cs.length ≤ max_children →
      ∃ a2 n2 h2, add_children_int (create h).2 (create h).1 cs = some (.ref a2 n2, h2) ∧
        (create h).1.addr? = some a2 ∧ n2.child_count = cs.length ∧
        ∀ (i : Nat) (hi : i < cs.length), n2.child_at i = some cs[i] := by
    intro hlen
    rw [hp]
    obtain ⟨m, hm, _, hcnt, hseq⟩ := add_children_seq cs (create h).2 a n hok hcs
    rw [seq_of_count_zero n h0, List.nil_append] at hseq
    refine ⟨a, m, (add_children (create h).2 (.ref a n) cs).2, ?_, rfl, by omega,
      fun i hi => child_at_of_seq m cs hseq i hi⟩
    rw [add_children_int_some cs (create h).2 a n hok hcs (by omega), ← hm]
  refine ⟨⟨fun hs => ?_, fun hlen => ?_⟩, hdef⟩
  · by_contra hgt
    rw [hp, add_children_int_none c0 j0 hc0 cs (by omega) (create h).2 a n hok hcap h0 hcs] at hs
    simp at hs
  · obtain ⟨a2, n2, h2, he, _⟩ := hdef hlen
    rw [he]
    rfl

/-- Instance of C1 (amended): nine children appended to a fresh parameter list
(capacity 4, doubled twice) are all non-null, every call is defined, the count
is 9 and the cells hold them in order. -/
theorem ast_add_child_append_order_witness :
    (∀ c ∈ nine_children, c.isNonNull = true) ∧
    ∃ a n h2, add_children_int (ast_create_parameter_list Heap.empty).2
        (ast_create_parameter_list Heap.empty).1 nine_children = some (.ref a n, h2) ∧
      n.child_count = 9 ∧
      ∀ (i : Nat) (hi : i < nine_children.length), n.child_at i = some nine_children[i] := by
  obtain ⟨a, n, h2, h1, _, h3, h4⟩ :=
    ((ast_add_child_append_order Heap.empty nine_children nine_children_non_null).1
      ast_create_parameter_list (by simp)).2 (by decide)
  exact ⟨nine_children_non_null, a, n, h2, h1, h3, h4⟩

/-- Counterexample to C1 as stated: `2 ^ 30 + 1` appends of a non-null child to
a fresh parameter list.  The first `2 ^ 30` calls are defined and leave the list
full with `child_count = child_capacity = 2 ^ 30`; the next call evaluates
`child_capacity *= 2` in `int`, which overflows, so the sequence of calls has no
defined result. -/
theorem append_overflows_past_max_children :
    (∀ c ∈ List.replicate (max_children + 1) (sample_leaf 100 1), c.isNonNull = true) ∧
    (∃ a n h2, add_children_int (ast_create_parameter_list Heap.empty).2
        (ast_create_parameter_list Heap.empty).1
        (List.replicate max_children (sample_leaf 100 1)) = some (.ref a n, h2) ∧
      n.child_count = max_children ∧ n.child_capacity = max_children ∧
      ast_add_child_int h2 (.ref a n) (sample_leaf 100 1) = none) ∧
    INT_MAX < max_children * 2 ∧
    add_children_int (ast_create_parameter_list Heap.empty).2
      (ast_create_parameter_list Heap.empty).1
      (List.replicate (max_children + 1) (sample_leaf 100 1)) = none := by
  obtain ⟨a, n, h2, h1, _, h3, h4, h5⟩ :=
    full_list_append_undefined Heap.empty (List.replicate max_children (sample_leaf 100 1))
      (List.length_replicate _ _) (replicate_leaf_non_null _) ast_create_parameter_list
      (List.mem_cons_self _ _)
  obtain ⟨a0, n0, c0, j0, hp, hok, h0, hcap, hc0⟩ :=
    fresh_list_cases Heap.empty ast_create_parameter_list (List.mem_cons_self _ _)
  refine ⟨replicate_leaf_non_null _, ⟨a, n, h2, h1, h3, h4, h5 _ rfl⟩, by decide, ?_⟩
  rw [hp]
  exact add_children_int_none c0 j0 hc0 _
    (by rw [List.length_replicate]; exact Nat.lt_succ_self _) _ a0 n0 hok hcap h0
    (replicate_leaf_non_null _)

/-! ## C9: frame of append -/

/-- C9, amended (frame of append).  For a parent record `p` at address `a` and
a non-null child `c`, a call `ast_add_child(p, c)` with a defined result leaves
the parent at its address with tag, payload, line number and the four fixed
slots unchanged.  When `p` satisfies the representation invariant of the child
sequence (as every constructed node does, see `constructed_bounds_ok`, and as
this very operation preserves) and its capacity is an `int`, the call has a
defined result exactly when `p` is not full or twice its capacity is at most
`INT_MAX`; then `child_count` grows by exactly 1, `c` is stored at the old
`child_count`, every earlier cell reads as before, and the invariant and the
range of the capacity are preserved.  Every constructor that takes subtrees
stores the supplied pointers, pointees included, as they are; so the fixed
slots of a node are those its constructor set.  (`ast_print` and `ast_free`
receive the tree and return output lines and an allocation table only.) -/
theorem ast_add_child_frame (h : Heap) (a : Nat) (p : ASTNode) (c : Ptr ASTNode)
    (hc : c.isNonNull = true) (name type : Ptr String) (x y z w : Ptr ASTNode) :
    (∀ r, ast_add_child_int h (.ref a p) c = some r →
      ∃ n, r.1 = .ref a n ∧
        n.type = p.type ∧ n.value = p.value ∧ n.line_number = p.line_number ∧
        n.left = p.left ∧ n.right = p.right ∧ n.third = p.third ∧ n.fourth = p.fourth) ∧
    (p.bounds_ok → p.child_capacity ≤ INT_MAX →
      ((ast_add_child_int h (.ref a p) c).isSome = true ↔ p.append_in_range) ∧
      (p.append_in_range →
        ∃ n h2, ast_add_child_int h (.ref a p) c = some (.ref a n, h2) ∧
          n.child_count = p.child_count + 1 ∧ n.child_at p.child_count = some c ∧
          (∀ i, i < p.child_count → n.child_at i = p.child_at i) ∧ n.bounds_ok ∧
          n.child_capacity ≤ INT_MAX)) ∧
    ((ast_create_program h x y).1.sat (fun n => n.left = x ∧ n.right = y) ∧
     (ast_create_function_decl h name x y).1.sat (fun n => n.left = x ∧ n.right = y) ∧
     (ast_create_var_decl h name type x).1.sat (fun n => n.left = x) ∧
     (ast_create_assignment h name x).1.sat (fun n => n.right = x) ∧
     (ast_create_decl_assignment h name x).1.sat (fun n => n.right = x) ∧
     (ast_create_if_stmt h x y z).1.sat (fun n => n.left = x ∧ n.right = y ∧ n.third = z) ∧
     (ast_create_for_stmt h x y z w).1.sat (fun n =>
       n.left = x ∧ n.right = y ∧ n.third = z ∧ n.fourth = w) ∧
     (ast_create_return_stmt h x).1.sat (fun n => n.left = x) ∧
     (ast_create_expr_stmt h x).1.sat (fun n => n.left = x) ∧
     (ast_create_binary_op h name x y).1.sat (fun n => n.left = x ∧ n.right = y) ∧
     (ast_create_unary_op h name x).1.sat (fun n => n.left = x) ∧
     (ast_create_function_call h name x).1.sat (fun n => n.left = x)) := by
  obtain ⟨h1, h2, h3, h4, h5, h6, h7⟩ := add_child_node_frame h p c
  have hdef : p.bounds_ok → p.child_capacity ≤ INT_MAX → p.append_in_range →
      ∃ n h2, ast_add_child_int h (.ref a p) c = some (.ref a n, h2) ∧
        n.child_count = p.child_count + 1 ∧ n.child_at p.child_count = some c ∧
        (∀ i, i < p.child_count → n.child_at i = p.child_at i) ∧ n.bounds_ok ∧
        n.child_capacity ≤ INT_MAX := by
    intro hb hcap hr
    have hsome := add_child_node_int_some h p c hb hr (append_in_range_count p hb hcap hr)
    have hcap1 := (add_child_node_int_sound h p c _ hsome).2.2 hcap
    refine ⟨(ast_add_child_node h p c).1, (ast_add_child_node h p c).2, ?_, ?_⟩
    · rw [ast_add_child_int_ref h a p c hc, hsome]
      rfl
    rcases hb with ⟨hnull, hcnt, hcap0⟩ | hok
    · obtain ⟨t, v, l, r, th, f, ch, n, cap, ln⟩ := p
      simp only [ASTNode.children, ASTNode.child_count, ASTNode.child_capacity] at hnull hcnt hcap0
      subst hnull hcnt hcap0
      rw [add_child_node_no_array]
      refine ⟨rfl, rfl, ?_, Or.inr ⟨_, _, rfl, rfl, ?_, ?_⟩, (by decide : 4 ≤ INT_MAX)⟩
      · intro i hi
        simp at hi
      · show 1 ≤ 4
        omega
      · show 0 < 4
        omega
    · obtain ⟨hok1, hcnt1, hseq1⟩ := add_child_node_seq h p c hok
      have hlen := seq_length_of_ok p hok
      have hlen1 := seq_length_of_ok _ hok1
      refine ⟨hcnt1, ?_, ?_, Or.inr hok1, hcap1⟩
      · have := child_at_of_seq _ _ hseq1 p.child_count (by simp [hlen])
        rw [this]
        simp [← hlen]
      · intro i hi
        have e1 := child_at_of_seq _ _ hseq1 i (by simp [hlen]; omega)
        have e2 := child_at_of_seq p p.seq rfl i (by omega)
        rw [e1, e2, List.getElem_append_left]
  refine ⟨?_, ?_, ⟨_, _, rfl, rfl, rfl⟩, ⟨_, _, rfl, rfl, rfl⟩, ?_, ⟨_, _, rfl, rfl⟩,
    ⟨_, _, rfl, rfl⟩, ⟨_, _, rfl, rfl, rfl, rfl⟩, ⟨_, _, rfl, rfl, rfl, rfl, rfl⟩,
    ⟨_, _, rfl, rfl⟩, ⟨_, _, rfl, rfl⟩, ⟨_, _, rfl, rfl, rfl⟩, ⟨_, _, rfl, rfl⟩,
    ⟨_, _, rfl, rfl⟩⟩
  · intro r hr
    rw [ast_add_child_int_sound h _ c r hr, ast_add_child_ref h a p c hc]
    exact ⟨_, rfl, h1, h2, h3, h4, h5, h6, h7⟩
  · intro hb hcap
    refine ⟨⟨fun hs => ?_, fun hr => ?_⟩, hdef hb hcap⟩
    · by_contra hnr
      rcases hb with ⟨_, hcnt, hcap0⟩ | hok
      · exact hnr (Or.inr (by rw [hcap0]; decide))
      · rw [ast_add_child_int_ref h a p c hc, add_child_node_int_none h p c hok hnr] at hs
        simp at hs
    · obtain ⟨n, h2, he, _⟩ := hdef hb hcap hr
      rw [he]
      rfl
  · cases type with
    | null => exact ⟨_, _, rfl, rfl⟩
    | ref a2 s2 => exact ⟨_, _, rfl, rfl⟩

/-- Instance of C9 (amended): appending to a full parameter list of capacity 4. -/
theorem ast_add_child_frame_witness :
    (sample_leaf 50 5).isNonNull = true ∧ full_list.bounds_ok ∧
    full_list.child_capacity ≤ INT_MAX ∧ full_list.append_in_range ∧
    ∃ n h2, ast_add_child_int ⟨60, [1, 0], []⟩ (.ref 0 full_list) (sample_leaf 50 5) =
        some (.ref 0 n, h2) ∧
      n.child_count = 5 ∧ n.child_at 4 = some (sample_leaf 50 5) ∧
      (∀ i, i < 4 → n.child_at i = full_list.child_at i) ∧
      n.left = .null ∧ n.type = AST_PARAMETER_LIST := by
  have hb : full_list.bounds_ok := Or.inr ⟨1, _, rfl, rfl, Nat.le_refl 4, by decide⟩
  have hr : full_list.append_in_range := Or.inr (by decide)
  have hcap : full_list.child_capacity ≤ INT_MAX := by decide
  obtain ⟨k0, k1, _⟩ :=
    ast_add_child_frame ⟨60, [1, 0], []⟩ 0 full_list (sample_leaf 50 5) rfl .null .null
      .null .null .null .null
  obtain ⟨n, h2, he, j1, j2, j3, _⟩ := (k1 hb hcap).2 hr
  obtain ⟨n2, e2, t1, _, _, t4, _⟩ := k0 _ he
  have hn : n2 = n := by
    simp only [Ptr.ref.injEq] at e2
    exact e2.2.symm
  subst hn
  exact ⟨rfl, hb, hcap, hr, n2, h2, he, j1, j2, j3, t4, t1⟩

/-- Counterexample to C9 as stated: the block obtained by `2 ^ 30` appends to a
fresh block satisfies the representation invariant with
`child_count = child_capacity = 2 ^ 30`; `ast_add_child` on it evaluates
`child_capacity *= 2` in `int`, which overflows, so the call has no defined
result: the count is not incremented and the child is not stored. -/
theorem append_to_full_block_overflows :
    (sample_leaf 100 1).isNonNull = true ∧
    ∃ a n h2, add_children_int (ast_create_block Heap.empty).2 (ast_create_block Heap.empty).1
        (List.replicate max_children (sample_leaf 100 1)) = some (.ref a n, h2) ∧
      n.bounds_ok ∧ n.child_count = max_children ∧ n.child_capacity = max_children ∧
      n.child_capacity ≤ INT_MAX ∧
      ast_add_child_int h2 (.ref a n) (sample_leaf 100 1) = none := by
  obtain ⟨a, n, h2, h1, hok, h3, h4, h5⟩ :=
    full_list_append_undefined Heap.empty (List.replicate max_children (sample_leaf 100 1))
      (List.length_replicate _ _) (replicate_leaf_non_null _) ast_create_block (by simp)
  exact ⟨rfl, a, n, h2, h1, Or.inr hok, h3, h4, by rw [h4]; decide, h5 _ rfl⟩

/-! ## C17: bounds invariant of the child sequence -/

theorem int_inv_no_array (t v l r th f ln) :
    (ASTNode.mk t v l r th f .null 0 0 ln).int_inv :=
  ⟨(reach_inv_no_array t v l r th f ln).1, Nat.zero_le _, Nat.zero_le _⟩

theorem all_nodes_int_leaf (a : Nat) (t v ln) :
    all_nodes ASTNode.int_inv (.ref a (.mk t v .null .null .null .null .null 0 0 ln)) :=
  (all_nodes_ref _ _ _).2 ⟨int_inv_no_array _ _ _ _ _ _ _, trivial, trivial, trivial, trivial,
    fun x hx => by simp [ASTNode.seq] at hx⟩

theorem all_nodes_int_fresh_list (t v ln) (a b cap : Nat) (hpos : 0 < cap)
    (hcap : cap ≤ INT_MAX) :
    all_nodes ASTNode.int_inv
      (.ref a (.mk t v .null .null .null .null (.ref b (List.replicate cap .null)) 0 cap ln)) :=
  (all_nodes_ref _ _ _).2 ⟨⟨(reach_inv_fresh_list _ _ _ _ _ hpos).1, Nat.zero_le _, hcap⟩,
    trivial, trivial, trivial, trivial, fun x hx => by simp [ASTNode.seq] at hx⟩

theorem all_nodes_int_add_child (h : Heap) (a : Nat) (l : ASTNode) (c : Ptr ASTNode)
    (r : Ptr ASTNode × Heap) (hl : all_nodes ASTNode.int_inv (.ref a l))
    (hc : all_nodes ASTNode.int_inv c) (hr : ast_add_child_int h (.ref a l) c = some r) :
    all_nodes ASTNode.int_inv r.1 := by
  cases c with
  | null =>
    simp only [ast_add_child_int, Option.some.injEq] at hr
    rw [← hr]
    exact hl
  | ref ca cn =>
    simp only [ast_add_child_int, Option.map_eq_some'] at hr
    obtain ⟨r1, h1, h2⟩ := hr
    obtain ⟨hs, hcnt, hcap⟩ := add_child_node_int_sound h l _ r1 h1
    rw [← h2]
    rw [all_nodes_ref] at hl ⊢
    obtain ⟨hq, k1, k2, k3, k4, k5⟩ := hl
    obtain ⟨hinv, hseq⟩ := add_child_node_reach_inv h l (.ref ca cn) rfl hq.1
    obtain ⟨_, _, _, e1, e2, e3, e4⟩ := add_child_node_frame h l (.ref ca cn)
    have hcap1 := hcap hq.2.2
    rw [hs] at hcnt hcap1 ⊢
    rw [e1, e2, e3, e4, hseq]
    refine ⟨⟨hinv.1, hcnt, hcap1⟩, k1, k2, k3, k4, ?_⟩
    intro x hx
    rcases List.mem_append.1 hx with hx | hx
    · exact k5 x hx
    · rw [List.mem_singleton.1 hx]
      exact hc

theorem reachable_int_inv (p : Ptr ASTNode) (hr : ReachableInt p) :
    all_nodes ASTNode.int_inv p := by
  induction hr with
  | absent => trivial
  | create_node h t => exact all_nodes_int_leaf _ _ _ _
  | program h p d _ _ ih1 ih2 =>
    exact (all_nodes_ref _ _ _).2 ⟨int_inv_no_array _ _ _ _ _ _ _, ih1, ih2, trivial, trivial,
      fun x hx => by simp [ASTNode.seq] at hx⟩
  | package_decl h name =>
    exact (all_nodes_ref _ _ _).2 ⟨int_inv_no_array _ _ _ _ _ _ _, trivial, trivial, trivial,
      trivial, fun x hx => by simp [ASTNode.seq] at hx⟩
  | function_decl h name p b _ _ ih1 ih2 =>
    exact (all_nodes_ref _ _ _).2 ⟨int_inv_no_array _ _ _ _ _ _ _, ih1, ih2, trivial, trivial,
      fun x hx => by simp [ASTNode.seq] at hx⟩
  | if_stmt h c t e _ _ _ ih1 ih2 ih3 =>
    exact (all_nodes_ref _ _ _).2 ⟨int_inv_no_array _ _ _ _ _ _ _, ih1, ih2, ih3, trivial,
      fun x hx => by simp [ASTNode.seq] at hx⟩
  | for_stmt h i c u b _ _ _ _ ih1 ih2 ih3 ih4 =>
    exact (all_nodes_ref _ _ _).2 ⟨int_inv_no_array _ _ _ _ _ _ _, ih1, ih2, ih3, ih4,
      fun x hx => by simp [ASTNode.seq] at hx⟩
  | return_stmt h e _ ih =>
    exact (all_nodes_ref _ _ _).2 ⟨int_inv_no_array _ _ _ _ _ _ _, ih, trivial, trivial, trivial,
      fun x hx => by simp [ASTNode.seq] at hx⟩
  | break_stmt h => exact all_nodes_int_leaf _ _ _ _
  | continue_stmt h => exact all_nodes_int_leaf _ _ _ _
  | expr_stmt h e _ ih =>
    exact (all_nodes_ref _ _ _).2 ⟨int_inv_no_array _ _ _ _ _ _ _, ih, trivial, trivial, trivial,
      fun x hx => by simp [ASTNode.seq] at hx⟩
  | binary_op h op l r _ _ ih1 ih2 =>
    exact (all_nodes_ref _ _ _).2 ⟨int_inv_no_array _ _ _ _ _ _ _, ih1, ih2, trivial, trivial,
      fun x hx => by simp [ASTNode.seq] at hx⟩
  | unary_op h op e _ ih =>
    exact (all_nodes_ref _ _ _).2 ⟨int_inv_no_array _ _ _ _ _ _ _, ih, trivial, trivial, trivial,
      fun x hx => by simp [ASTNode.seq] at hx⟩
  | function_call h name args _ ih =>
    exact (all_nodes_ref _ _ _).2 ⟨int_inv_no_array _ _ _ _ _ _ _, ih, trivial, trivial, trivial,
      fun x hx => by simp [ASTNode.seq] at hx⟩
  | identifier h name => exact all_nodes_int_leaf _ _ _ _
  | int_literal h v => exact all_nodes_int_leaf _ _ _ _
  | float_literal h bits => exact all_nodes_int_leaf _ _ _ _
  | string_literal h s => exact all_nodes_int_leaf _ _ _ _
  | bool_literal h v => exact all_nodes_int_leaf _ _ _ _
  | nil_literal h => exact all_nodes_int_leaf _ _ _ _
  | parameter h name type =>
    cases type with
    | null => exact all_nodes_int_leaf _ _ _ _
    | ref ta ts =>
      exact (all_nodes_ref _ _ _).2 ⟨int_inv_no_array _ _ _ _ _ _ _,
        all_nodes_int_leaf _ _ _ _, trivial, trivial, trivial, fun x hx => by
          simp [ASTNode.seq] at hx⟩
  | var_decl h name type e _ ih =>
    cases type with
    | null =>
      exact (all_nodes_ref _ _ _).2 ⟨int_inv_no_array _ _ _ _ _ _ _, ih, trivial, trivial,
        trivial, fun x hx => by simp [ASTNode.seq] at hx⟩
    | ref ta ts =>
      exact (all_nodes_ref _ _ _).2 ⟨int_inv_no_array _ _ _ _ _ _ _, ih,
        all_nodes_int_leaf _ _ _ _, trivial, trivial, fun x hx => by simp [ASTNode.seq] at hx⟩
  | assignment h name e _ ih =>
    exact (all_nodes_ref _ _ _).2 ⟨int_inv_no_array _ _ _ _ _ _ _, all_nodes_int_leaf _ _ _ _,
      ih, trivial, trivial, fun x hx => by simp [ASTNode.seq] at hx⟩
  | decl_assignment h name e _ ih =>
    exact (all_nodes_ref _ _ _).2 ⟨int_inv_no_array _ _ _ _ _ _ _, all_nodes_int_leaf _ _ _ _,
      ih, trivial, trivial, fun x hx => by simp [ASTNode.seq] at hx⟩
  | parameter_list h => exact all_nodes_int_fresh_list _ _ _ _ _ 4 (by omega) (by decide)
  | block h => exact all_nodes_int_fresh_list _ _ _ _ _ 8 (by omega) (by decide)
  | arg_list h => exact all_nodes_int_fresh_list _ _ _ _ _ 4 (by omega) (by decide)
  | add_child h a l c r _ _ he ih1 ih2 => exact all_nodes_int_add_child h a l c r ih1 ih2 he

theorem reachable_int_add_children (cs : List (Ptr ASTNode)) :
    ∀ (h : Heap) (p : Ptr ASTNode) (r : Ptr ASTNode × Heap), ReachableInt p →
      (∀ c ∈ cs, ReachableInt c) → add_children_int h p cs = some r → ReachableInt r.1 := by
  induction cs with
  | nil =>
    intro h p r hp _ hr
    simp only [add_children_int, Option.some.injEq] at hr
    rw [← hr]
    exact hp
  | cons c cs ih =>
    intro h p r hp hcs hr
    simp only [add_children_int] at hr
    cases hst : ast_add_child_int h p c with
    | none =>
      rw [hst] at hr
      cases hr
    | some st =>
      rw [hst] at hr
      refine ih st.2 st.1 r ?_ (fun x hx => hcs x (by simp [hx])) hr
      cases p with
      | null =>
        simp only [ast_add_child_int, Option.some.injEq] at hst
        rw [← hst]
        exact ReachableInt.absent
      | ref a l => exact ReachableInt.add_child h a l c st hp (hcs c (by simp)) hst

theorem reachable_int_hidden_slots : ReachableInt scenario_hidden_slots.1 := by
  have hb : ReachableInt scenario_binary_op.1 :=
    ReachableInt.binary_op _ _ _ _ (ReachableInt.identifier _ _) (ReachableInt.int_literal _ _)
  exact ReachableInt.add_child (ast_create_int_literal scenario_binary_op.2 7).2 3 _
    (ast_create_int_literal scenario_binary_op.2 7).1 scenario_hidden_slots hb
    (ReachableInt.int_literal _ _) rfl

/-- C17, amended (bounds invariant).  In every tree reachable by calls of
`ast_create_node`, of the constructors and of `ast_add_child` (on any node)
whose `int` arithmetic is defined, every node has `child_count` within
`child_capacity`, an array exactly when the capacity is positive, an array of
`child_capacity` cells, a non-null child at every index below the count, and
counters that are values of `int`.  For a node with this invariant,
`ast_add_child` has a defined result exactly when the node is not full or twice
its capacity is at most `INT_MAX`; then the store at index `child_count` lies
below the capacity the array has at that moment and lands in the array, and the
invariant is preserved.  Every read at an index below `child_count` (as in
`ast_print` and `ast_free`) is inside the array. -/
theorem child_sequence_bounds (h : Heap) (p : Ptr ASTNode) (hr : ReachableInt p) (n : ASTNode)
    (c : Ptr ASTNode) :
    all_nodes ASTNode.int_inv p ∧
    (n.int_inv → c.isNonNull = true →
      ((ast_add_child_node_int h n c).isSome = true ↔ n.append_in_range) ∧
      ∀ r, ast_add_child_node_int h n c = some r →
        n.child_count < r.1.child_capacity ∧ r.1.child_at n.child_count = some c ∧
        r.1.int_inv) ∧
    (n.int_inv → ∀ i, i < n.child_count → ∃ x, n.child_at i = some x) := by
  refine ⟨reachable_int_inv p hr, ?_, ?_⟩
  · intro hi hc
    obtain ⟨hb, hcntn, hcapn⟩ := hi
    have hbo := bounds_ok_of_inv n hb
    have hpost : ∀ r, ast_add_child_node_int h n c = some r →
        n.child_count < r.1.child_capacity ∧ r.1.child_at n.child_count = some c ∧
        r.1.int_inv := by
      intro r hr1
      obtain ⟨hs, hcnt1, hcap1⟩ := add_child_node_int_sound h n c r hr1
      have hcap2 := hcap1 hcapn
      rw [hs] at hcnt1 hcap2 ⊢
      obtain ⟨hinv, hseq⟩ := add_child_node_reach_inv h n c hc hb
      have hok1 : (ast_add_child_node h n c).1.seq_ok := by
        rcases bounds_ok_of_inv _ hinv.1 with ⟨hnull, _, _⟩ | hok
        · rcases hbo with ⟨e1, e2, e3⟩ | hokn
          · obtain ⟨t, v, l, r, th, f, ch, k, cap, ln⟩ := n
            simp only [ASTNode.children_mk] at e1
            subst e1
            rw [add_child_node_no_array] at hnull
            simp at hnull
          · obtain ⟨a, arr, he, _⟩ := (add_child_node_seq h n c hokn).1
            rw [he] at hnull
            simp at hnull
        · exact hok
      have hlen1 := seq_length_of_ok _ hok1
      have hlenn : n.seq.length = n.child_count := by
        rcases hbo with ⟨e1, e2, _⟩ | hokn
        · obtain ⟨t, v, l, r, th, f, ch, k, cap, ln⟩ := n
          simp only [ASTNode.children_mk, ASTNode.child_count_mk] at e1 e2
          subst e1 e2
          rfl
        · exact seq_length_of_ok n hokn
      have hcnt : (ast_add_child_node h n c).1.child_count = n.child_count + 1 := by
        rw [← hlen1, hseq, List.length_append, hlenn]
        rfl
      refine ⟨?_, ?_, hinv.1, hcnt1, hcap2⟩
      · have := hinv.1.1
        omega
      · have := child_at_of_seq _ _ hseq n.child_count (by simp [hlenn])
        rw [this]
        simp [← hlenn]
    refine ⟨⟨fun hs => ?_, fun hrange => ?_⟩, hpost⟩
    · by_contra hnr
      rcases hbo with ⟨_, _, hcap0⟩ | hok
      · exact hnr (Or.inr (by rw [hcap0]; decide))
      · rw [add_child_node_int_none h n c hok hnr] at hs
        simp at hs
    · rw [add_child_node_int_some h n c hbo hrange (append_in_range_count n hbo hcapn hrange)]
      rfl
  · intro hb i hi
    obtain ⟨x, hx, _⟩ := hb.1.2.2.2 i hi
    exact ⟨x, hx⟩

theorem full_list_int_inv : full_list.int_inv :=
  ⟨full_list_bounds_inv, by decide, by decide⟩

/-- Instance of C17 (amended): the tree with an append to a binary-op node is
reachable and all its nodes satisfy the invariant; the append to a full list of
capacity 4 is defined and stores at index 4 of an array of 8 cells. -/
theorem child_sequence_bounds_witness :
    ReachableInt scenario_hidden_slots.1 ∧
    all_nodes ASTNode.int_inv scenario_hidden_slots.1 ∧
    full_list.int_inv ∧ (sample_leaf 50 5).isNonNull = true ∧ full_list.append_in_range ∧
    ∃ r, ast_add_child_node_int Heap.empty full_list (sample_leaf 50 5) = some r ∧
      4 < r.1.child_capacity ∧ r.1.child_at 4 = some (sample_leaf 50 5) ∧
      r.1.child_capacity = 8 := by
  obtain ⟨k1, k2, _⟩ :=
    child_sequence_bounds Heap.empty scenario_hidden_slots.1 reachable_int_hidden_slots full_list
      (sample_leaf 50 5)
  obtain ⟨j1, j2⟩ := k2 full_list_int_inv rfl
  have hr : full_list.append_in_range := Or.inr (by decide)
  obtain ⟨i1, i2, _⟩ := j2 _ (rfl : ast_add_child_node_int Heap.empty full_list
    (sample_leaf 50 5) = some (ast_add_child_node Heap.empty full_list (sample_leaf 50 5)))
  exact ⟨reachable_int_hidden_slots, k1, full_list_int_inv, rfl, hr, _, rfl, i1, i2, rfl⟩

/-- Counterexample to C17 as stated: the argument list obtained by `2 ^ 30`
appends to a fresh list is a reachable state in which every node satisfies the
bounds invariant, with `child_count = child_capacity = 2 ^ 30`.  The next
`ast_add_child` on it must double the capacity, which overflows `int`: the call
has no defined result, so its store at index `child_count` is not within an
allocated capacity. -/
theorem full_list_store_is_undefined :
    (sample_leaf 100 1).isNonNull = true ∧
    ∃ a n h2, ReachableInt (.ref a n) ∧ all_nodes ASTNode.int_inv (.ref a n) ∧
      n.bounds_inv ∧ n.child_count = max_children ∧ n.child_capacity = max_children ∧
      ¬ n.append_in_range ∧
      ast_add_child_int h2 (.ref a n) (sample_leaf 100 1) = none := by
  obtain ⟨a, n, h2, h1, hok, h3, h4, h5⟩ :=
    full_list_append_undefined Heap.empty (List.replicate max_children (sample_leaf 100 1))
      (List.length_replicate _ _) (replicate_leaf_non_null _) ast_create_arg_list (by simp)
  have hleaf : ReachableInt (sample_leaf 100 1) := ReachableInt.int_literal ⟨100, [], []⟩ 1
  have hreach : ReachableInt (.ref a n) :=
    reachable_int_add_children _ _ _ _ (ReachableInt.arg_list Heap.empty)
      (fun c hc => by rw [List.eq_of_mem_replicate hc]; exact hleaf) h1
  have hall := reachable_int_inv _ hreach
  have hnr : ¬ n.append_in_range := by
    simp only [ASTNode.append_in_range, h3, h4, max_children, INT_MAX]
    omega
  exact ⟨rfl, a, n, h2, hreach, hall, ((all_nodes_ref _ _ _).1 hall).1.1, h3, h4, hnr, h5 _ rfl⟩

end MiniGo
